import Mathlib

/-! # md2tex: the event-driven Markdown-to-LaTeX renderer of `typeset/md2tex.c`

A shallow embedding of the renderer (escape table, text escaper, attribute
renderer, block / span / text callbacks) and theorems about it.  The file has
four parts: the embedding of the source, the definitions that the statements
use, the lemmas, and the theorems of the claims.

Conventions of the embedding.

* A byte (`MD_CHAR`) is a `Nat`; a byte run `(pointer, size)` is a `List Nat`
  whose length is the size.  `MD_SIZE` / `MD_OFFSET` are `unsigned` (32 bit):
  arithmetic on offsets is written with an explicit `% U32`.
* The output sink (`process_output` with `userdata`) is the field `sink` of
  the render record: the list of the byte runs written so far, one entry per
  call of `process_output`, oldest first.
* The `int` fields of the render record are `Int`; signed overflow is
  undefined in C and no handler is modelled past it.
* A function returns `none` where the behaviour of the C code is undefined (a
  read outside a run or a table, a count that does not fit `int`) or where the
  fuel of a loop is used up.  The argument `fuel` bounds the iterations of
  each loop of the escaper and of the attribute renderer.
* In the string literals the braces of the source are written `\x7b` and
  `\x7d`.
-/

namespace Md2tex

/-! ## Bytes and literals -/

/-- The modulus of `unsigned` arithmetic (`MD_SIZE`, `MD_OFFSET`). -/
def U32 : Nat := 2 ^ 32

/-- The bytes of a C string literal (without its terminating NUL).  Every
literal of the source is ASCII, so a character's code point is its byte. -/
def bytes (s : String) : List Nat := s.toList.map Char.toNat

/-- The run of `size` bytes starting at `text + off`; `none` when the run is
not wholly inside `text`. -/
def slice (text : List Nat) (off size : Nat) : Option (List Nat) :=
  if off + size ≤ text.length then some ((text.drop off).take size) else none

/-- The libc function `strchr(s, c)` on a literal `s`: the index of the first
occurrence of `c` in the string, the terminating NUL being part of the string
(C11 7.24.5.2); `none` stands for the `NULL` result. -/
def strchr (s : List Nat) (c : Nat) : Option Nat :=
  let t := s ++ [0]
  if c ∈ t then some (t.indexOf c) else none

/-! ## The render record -/

/-- The record `struct MD_TEX_tag`; `process_output` and `userdata` are the
sink, `flags` is never read. -/
structure MD_TEX where
  sink : List (List Nat)
  table_col_level : Int
  table_col_count : Int
  list_item_level : Int
  verbatim_type : Int
  escape_map : Nat → Nat

/-- The inline function `render_verbatim`: one call of `process_output`. -/
def render_verbatim (r : MD_TEX) (text : List Nat) : MD_TEX :=
  { r with sink := r.sink ++ [text] }

/-- The `RENDER_VERBATIM` macro: `render_verbatim` on a literal, its size
taken by `strlen`. -/
def RENDER_VERBATIM (r : MD_TEX) (verbatim : String) : MD_TEX :=
  render_verbatim r (bytes verbatim)

/-- All the bytes written to the sink, in order. -/
def output (r : MD_TEX) : List Nat := r.sink.flatten

/-! ## Text escaper -/

/-- The macro `NEED_TEX_ESC_FLAG`. -/
def NEED_TEX_ESC_FLAG : Nat := 0x1

/-- The `NEED_TEX_ESC` macro: `r->escape_map[(unsigned char)(ch)] & NEED_TEX_ESC_FLAG`. -/
def NEED_TEX_ESC (r : MD_TEX) (ch : Nat) : Nat :=
  r.escape_map (ch % 256) &&& NEED_TEX_ESC_FLAG

/-- One operand `!NEED_TEX_ESC(data[i])` of a loop condition, the index `i`
computed in `unsigned` arithmetic: `none` when the read is outside the run. -/
def noEscAt (r : MD_TEX) (data : List Nat) (i : Nat) : Option Bool :=
  match data[i % U32]? with
  | none => none
  | some ch => some (NEED_TEX_ESC r ch == 0)

/-- The first inner loop of `render_tex_escaped`:
`while (off + 3 < size && !ESC(data[off+0]) && ... && !ESC(data[off+3])) off += 4;`
with the short-circuit evaluation of `&&`.  Returns the final `off`. -/
def scan4 (r : MD_TEX) (data : List Nat) (size : Nat) : Nat → Nat → Option Nat
  | 0, _ => none
  | fuel + 1, off =>
    if (off + 3) % U32 < size then
      match noEscAt r data (off + 0) with
      | none => none
      | some false => some off
      | some true =>
        match noEscAt r data (off + 1) with
        | none => none
        | some false => some off
        | some true =>
          match noEscAt r data (off + 2) with
          | none => none
          | some false => some off
          | some true =>
            match noEscAt r data (off + 3) with
            | none => none
            | some false => some off
            | some true => scan4 r data size fuel ((off + 4) % U32)
    else some off

/-- The second inner loop: `while (off < size && !ESC(data[off])) off++;`. -/
def scan1 (r : MD_TEX) (data : List Nat) (size : Nat) : Nat → Nat → Option Nat
  | 0, _ => none
  | fuel + 1, off =>
    if off < size then
      match noEscAt r data off with
      | none => none
      | some false => some off
      | some true => scan1 r data size fuel ((off + 1) % U32)
    else some off

/-- The `switch (data[off])` of `render_tex_escaped`: the replacement written
for a byte, nothing when no case matches. -/
def escape_switch (r : MD_TEX) (ch : Nat) : MD_TEX :=
  if ch = '~'.toNat then RENDER_VERBATIM r "\\~\x7b\x7d"
  else if ch = '^'.toNat then RENDER_VERBATIM r "\\^\x7b\x7d"
  else if ch = '#'.toNat then RENDER_VERBATIM r "\\#"
  else if ch = '$'.toNat then RENDER_VERBATIM r "\\$"
  else if ch = '%'.toNat then RENDER_VERBATIM r "\\%"
  else if ch = '&'.toNat then RENDER_VERBATIM r "\\&"
  else if ch = '{'.toNat then RENDER_VERBATIM r "\\\x7b"
  else if ch = '}'.toNat then RENDER_VERBATIM r "\\\x7d"
  else if ch = '_'.toNat then RENDER_VERBATIM r "\\_"
  else if ch = '\\'.toNat then RENDER_VERBATIM r "\\textbackslash"
  else r

/-- The outer `while (1)` loop of `render_tex_escaped`, from the values of
`beg` and `off` at the top of an iteration.  `inner` is the fuel handed to
each inner loop, the first argument after `size` the fuel of this loop. -/
def escape_loop (inner : Nat) (data : List Nat) (size : Nat) :
    Nat → MD_TEX → Nat → Nat → Option MD_TEX
  | 0, _, _, _ => none
  | fuel + 1, r, beg, off =>
    match scan4 r data size inner off with
    | none => none
    | some off4 =>
      match scan1 r data size inner off4 with
      | none => none
      | some off1 =>
        match (if off1 > beg then
                (slice data beg ((off1 + U32 - beg) % U32)).map (render_verbatim r)
              else some r) with
        | none => none
        | some r1 =>
          if off1 < size then
            match data[off1]? with
            | none => none
            | some ch =>
              let r2 := escape_switch r1 ch
              let off2 := (off1 + 1) % U32
              escape_loop inner data size fuel r2 off2 off2
          else some r1

/-- The function `render_tex_escaped(r, data, size)`, `size` being the length
of the run `data`. -/
def render_tex_escaped (fuel : Nat) (r : MD_TEX) (data : List Nat) : Option MD_TEX :=
  escape_loop fuel data data.length fuel r 0 0

/-! ## Escape table, as built by `md_tex` -/

/-- The loop `for (int i = 0; i < 256; i++)` of `md_tex`, from index `i`, with
`n` iterations left: sets the flag of every index that `strchr` finds in the
literal. -/
def build_escape_map : Nat → Nat → (Nat → Nat) → (Nat → Nat)
  | 0, _, m => m
  | n + 1, i, m =>
    let ch := i % 256
    let m1 := if (strchr (bytes "~^#$%&\x7b\x7d_\\") ch).isSome
              then Function.update m i (m i ||| NEED_TEX_ESC_FLAG) else m
    build_escape_map n (i + 1) m1

/-- The render record that `md_tex` hands to `md_parse`: the initialiser
followed by the construction of `escape_map`. -/
def md_tex_init : MD_TEX :=
  { sink := []
    table_col_level := 0
    table_col_count := -1
    list_item_level := 0
    verbatim_type := 0
    escape_map := build_escape_map 256 0 (fun _ => 0) }

/-! ## Types of the parser interface -/

/-- Modelled from the spec: the enumeration `MD_TEXTTYPE` of `md4c.h` (the
header is not part of the sources), the TextKind of the data model: Normal,
NullPlaceholder, LineBreak, SoftBreak, Entity, Verbatim (code), RawHTML, and
the text of a math span. -/
inductive MD_TEXTTYPE
  | MD_TEXT_NORMAL
  | MD_TEXT_NULLCHAR
  | MD_TEXT_BR
  | MD_TEXT_SOFTBR
  | MD_TEXT_ENTITY
  | MD_TEXT_CODE
  | MD_TEXT_HTML
  | MD_TEXT_LATEXMATH
  deriving DecidableEq, Repr

/-- Modelled from the spec: the enumeration `MD_BLOCKTYPE` of `md4c.h`, the
BlockKind of the data model; the cases are those of the `switch` of
`enter_block_callback`. -/
inductive MD_BLOCKTYPE
  | MD_BLOCK_DOC
  | MD_BLOCK_QUOTE
  | MD_BLOCK_UL
  | MD_BLOCK_OL
  | MD_BLOCK_LI
  | MD_BLOCK_HR
  | MD_BLOCK_H
  | MD_BLOCK_CODE
  | MD_BLOCK_HTML
  | MD_BLOCK_P
  | MD_BLOCK_TABLE
  | MD_BLOCK_THEAD
  | MD_BLOCK_TBODY
  | MD_BLOCK_TR
  | MD_BLOCK_TH
  | MD_BLOCK_TD
  deriving DecidableEq, Repr

/-- Modelled from the spec: the enumeration `MD_SPANTYPE` of `md4c.h`, the
SpanKind of the data model; the cases are those of the `switch` of
`enter_span_calback`. -/
inductive MD_SPANTYPE
  | MD_SPAN_EM
  | MD_SPAN_STRONG
  | MD_SPAN_U
  | MD_SPAN_A
  | MD_SPAN_IMG
  | MD_SPAN_CODE
  | MD_SPAN_DEL
  | MD_SPAN_LATEXMATH
  | MD_SPAN_LATEXMATH_DISPLAY
  | MD_SPAN_WIKILINK
  deriving DecidableEq, Repr

open MD_TEXTTYPE MD_BLOCKTYPE MD_SPANTYPE

/-- Modelled from the spec: the structure `MD_ATTRIBUTE` of `md4c.h`, an
ordered sequence of typed sub-runs.  `text` is `none` for a `NULL` pointer;
sub-run `i` has type `substr_types[i]` and is the bytes from
`substr_offsets[i]` up to `substr_offsets[i+1]`. -/
structure MD_ATTRIBUTE where
  text : Option (List Nat)
  size : Nat
  substr_types : List MD_TEXTTYPE
  substr_offsets : List Nat
  deriving DecidableEq, Repr

/-- Modelled from the spec: the detail structures of `md4c.h` that the
callbacks receive through `void *detail`, with the fields the renderer reads:
`MD_BLOCK_H_DETAIL.level`, `MD_BLOCK_CODE_DETAIL.lang`,
`MD_BLOCK_TABLE_DETAIL.col_count`, `MD_SPAN_A_DETAIL.href`, and
`MD_SPAN_IMG_DETAIL.src` and `.title`; `null` is any detail the renderer does
not look at. -/
inductive Detail
  | null
  | H (level : Nat)
  | CODE (lang : MD_ATTRIBUTE)
  | TABLE (col_count : Nat)
  | A (href : MD_ATTRIBUTE)
  | IMG (src title : MD_ATTRIBUTE)
  deriving DecidableEq, Repr

/-! ## Attribute renderer -/

/-- The body of the `for` loop of `render_attribute` for the sub-run of type
`type` at `attr->text + off` of size `size`. -/
def render_substr (fuel : Nat) (r : MD_TEX) (type : MD_TEXTTYPE) (text : List Nat)
    (off size : Nat) : Option MD_TEX :=
  if r.verbatim_type = 4 then
    (slice text off size).map (render_verbatim r)
  else
    match type with
    | MD_TEXT_NULLCHAR => some r
    | MD_TEXT_ENTITY => (slice text off size).map (render_verbatim r)
    | _ => (slice text off size).bind (render_tex_escaped fuel r)

/-- The loop `for (int i = 0; attr->substr_offsets[i] < attr->size; i++)` of
`render_attribute`, from index `i`; the first argument is the fuel of the
escaper, the argument after `attr` the fuel of this loop. -/
def render_attribute_loop (fuel : Nat) (attr : MD_ATTRIBUTE) :
    Nat → Nat → MD_TEX → Option MD_TEX
  | 0, _, _ => none
  | n + 1, i, r =>
    match attr.substr_offsets[i]? with
    | none => none
    | some off =>
      if off < attr.size then
        match attr.substr_types[i]?, attr.substr_offsets[i + 1]? with
        | some type, some next =>
          match render_substr fuel r type (attr.text.getD []) off
              ((next + U32 - off) % U32) with
          | none => none
          | some r1 => render_attribute_loop fuel attr n (i + 1) r1
        | _, _ => none
      else some r

/-- The function `render_attribute`. -/
def render_attribute (fuel : Nat) (r : MD_TEX) (attr : MD_ATTRIBUTE) : Option MD_TEX :=
  render_attribute_loop fuel attr fuel 0 r

/-! ## Block and span constructs with details -/

/-- The function `render_open_code_block`. -/
def render_open_code_block (fuel : Nat) (r : MD_TEX) (lang : MD_ATTRIBUTE) :
    Option MD_TEX :=
  let r := RENDER_VERBATIM r "\\begin\x7bverbatim\x7d"
  if lang.text ≠ none then
    let r := RENDER_VERBATIM r "[language="
    match render_attribute fuel r lang with
    | none => none
    | some r =>
      let r := RENDER_VERBATIM r "]"
      some (RENDER_VERBATIM r "\n")
  else
    some (RENDER_VERBATIM r "\n")

/-- The loop `while (cn-- != 0) RENDER_VERBATIM(r, "|l");` of
`render_open_table_block` for a count `cn` that is not negative. -/
def render_table_cols : Nat → MD_TEX → MD_TEX
  | 0, r => r
  | cn + 1, r => render_table_cols cn (RENDER_VERBATIM r "|l")

/-- The function `render_open_table_block`.  `int cn = det->col_count`
converts an `unsigned`; a count above `INT_MAX` gives a negative `cn` and the
loop then decrements past `INT_MIN`, which is undefined. -/
def render_open_table_block (r : MD_TEX) (col_count : Nat) : Option MD_TEX :=
  let r := RENDER_VERBATIM r "\\begin\x7btabular\x7d\x7b"
  if col_count < 2 ^ 31 then
    let r := { r with table_col_count := (col_count : Int) }
    let r := render_table_cols col_count r
    let r := RENDER_VERBATIM r "|\x7d\n"
    some (RENDER_VERBATIM r "\\hline\n")
  else none

/-- The function `render_open_a_span`. -/
def render_open_a_span (fuel : Nat) (r : MD_TEX) (href : MD_ATTRIBUTE) : Option MD_TEX :=
  let r := RENDER_VERBATIM r "\\href\x7b"
  let r := { r with verbatim_type := 4 }
  match render_attribute fuel r href with
  | none => none
  | some r =>
    let r := { r with verbatim_type := 0 }
    some (RENDER_VERBATIM r "\x7d\x7b")

/-- The function `render_open_img_span`. -/
def render_open_img_span (fuel : Nat) (r : MD_TEX) (src : MD_ATTRIBUTE) : Option MD_TEX :=
  let r := RENDER_VERBATIM r "\\begin\x7bfigure\x7d[H]\n"
  let r := RENDER_VERBATIM r "\\image\x7b"
  match render_attribute fuel r src with
  | none => none
  | some r => some (RENDER_VERBATIM r "\x7d\\label\x7b")

/-- The function `render_close_img_span`. -/
def render_close_img_span (fuel : Nat) (r : MD_TEX) (title : MD_ATTRIBUTE) :
    Option MD_TEX :=
  let r := RENDER_VERBATIM r "\x7d\n"
  if title.text ≠ none then
    let r := RENDER_VERBATIM r "\\caption\x7b"
    match render_attribute fuel r title with
    | none => none
    | some r =>
      let r := RENDER_VERBATIM r "\x7d\n"
      some (RENDER_VERBATIM r "\\end\x7bfigure\x7d\n")
  else
    some (RENDER_VERBATIM r "\\end\x7bfigure\x7d\n")

/-! ## Callbacks -/

/-- The table `head` of `enter_block_callback`. -/
def head : List String :=
  ["\\title\x7b", "\\chapter\x7b", "\\section\x7b", "\\subsection\x7b", "\\subsubsection\x7b",
   "\\paragraph\x7b"]

/-- The statement `if (++r->table_col_level == r->table_col_count)
r->table_col_level = 0;` of the cases `MD_BLOCK_TH` and `MD_BLOCK_TD`. -/
def next_table_col (r : MD_TEX) : MD_TEX :=
  let r := { r with table_col_level := r.table_col_level + 1 }
  if r.table_col_level = r.table_col_count then { r with table_col_level := 0 } else r

/-- The function `enter_block_callback`: the value returned and the render
record after the call.  The index `level - 1` of `head` is computed in
`unsigned` arithmetic (level 0 wraps to `2^32 - 1`), and a lookup outside the
six entries is undefined. -/
def enter_block_callback (fuel : Nat) (type : MD_BLOCKTYPE) (detail : Detail)
    (r : MD_TEX) : Option (Int × MD_TEX) :=
  match type with
  | MD_BLOCK_DOC => some (0, r)
  | MD_BLOCK_QUOTE => some (0, RENDER_VERBATIM r "\\begin\x7bquote\x7d\n")
  | MD_BLOCK_UL =>
    let r := RENDER_VERBATIM r "\\begin\x7benumerate\x7d\n"
    some (0, { r with list_item_level := r.list_item_level + 1 })
  | MD_BLOCK_OL =>
    let r := RENDER_VERBATIM r "\\begin\x7bitemize\x7d\n"
    some (0, { r with list_item_level := r.list_item_level + 1 })
  | MD_BLOCK_LI => some (0, RENDER_VERBATIM r "\\item ")
  | MD_BLOCK_HR => some (0, RENDER_VERBATIM r "\\thematic\n")
  | MD_BLOCK_H =>
    match detail with
    | Detail.H level =>
      match head[(U32 + level - 1) % U32]? with
      | some h => some (0, RENDER_VERBATIM r h)
      | none => none
    | _ => none
  | MD_BLOCK_CODE =>
    match detail with
    | Detail.CODE lang =>
      match render_open_code_block fuel r lang with
      | some r => some (0, { r with verbatim_type := 1 })
      | none => none
    | _ => none
  | MD_BLOCK_HTML => some (0, r)
  | MD_BLOCK_P => some (0, r)
  | MD_BLOCK_TABLE =>
    match detail with
    | Detail.TABLE col_count =>
      match render_open_table_block r col_count with
      | some r => some (0, r)
      | none => none
    | _ => none
  | MD_BLOCK_THEAD => some (0, r)
  | MD_BLOCK_TBODY => some (0, r)
  | MD_BLOCK_TR => some (0, r)
  | MD_BLOCK_TH => some (0, next_table_col r)
  | MD_BLOCK_TD => some (0, next_table_col r)

/-- The function `leave_block_callback`; `detail` is not read. -/
def leave_block_callback (type : MD_BLOCKTYPE) (r : MD_TEX) : Option (Int × MD_TEX) :=
  match type with
  | MD_BLOCK_DOC => some (0, r)
  | MD_BLOCK_QUOTE => some (0, RENDER_VERBATIM r "\\end\x7bquote\x7d\n")
  | MD_BLOCK_UL =>
    let r := RENDER_VERBATIM r "\\end\x7benumerate\x7d\n"
    some (0, { r with list_item_level := 0 })
  | MD_BLOCK_OL =>
    let r := RENDER_VERBATIM r "\\end\x7bitemize\x7d\n"
    some (0, { r with list_item_level := 0 })
  | MD_BLOCK_LI => some (0, RENDER_VERBATIM r "\n")
  | MD_BLOCK_HR => some (0, r)
  | MD_BLOCK_H => some (0, RENDER_VERBATIM r "\x7d\n")
  | MD_BLOCK_CODE =>
    let r := RENDER_VERBATIM r "\\end\x7bverbatim\x7d\n"
    some (0, { r with verbatim_type := 0 })
  | MD_BLOCK_HTML => some (0, r)
  | MD_BLOCK_P =>
    some (0, if r.list_item_level = 0 then RENDER_VERBATIM r "\\par\n" else r)
  | MD_BLOCK_TABLE => some (0, RENDER_VERBATIM r "\\end\x7btabular\x7d\n")
  | MD_BLOCK_THEAD => some (0, r)
  | MD_BLOCK_TBODY => some (0, r)
  | MD_BLOCK_TR => some (0, RENDER_VERBATIM r " \\\\\n\\hline\n")
  | MD_BLOCK_TH => some (0, if r.table_col_level ≠ 0 then RENDER_VERBATIM r " & " else r)
  | MD_BLOCK_TD => some (0, if r.table_col_level ≠ 0 then RENDER_VERBATIM r " & " else r)

/-- The function `enter_span_calback`. -/
def enter_span_calback (fuel : Nat) (type : MD_SPANTYPE) (detail : Detail)
    (r : MD_TEX) : Option (Int × MD_TEX) :=
  match type with
  | MD_SPAN_EM => some (0, RENDER_VERBATIM r "\\textit\x7b")
  | MD_SPAN_STRONG => some (0, RENDER_VERBATIM r "\\textbf\x7b")
  | MD_SPAN_U => some (0, RENDER_VERBATIM r "\\underline\x7b")
  | MD_SPAN_A =>
    match detail with
    | Detail.A href =>
      match render_open_a_span fuel r href with
      | some r => some (0, r)
      | none => none
    | _ => none
  | MD_SPAN_IMG =>
    match detail with
    | Detail.IMG src _ =>
      match render_open_img_span fuel r src with
      | some r => some (0, r)
      | none => none
    | _ => none
  | MD_SPAN_CODE =>
    let r := RENDER_VERBATIM r "\\verb!"
    some (0, { r with verbatim_type := 2 })
  | MD_SPAN_DEL => some (0, RENDER_VERBATIM r "\\del\x7b")
  | MD_SPAN_LATEXMATH =>
    let r := RENDER_VERBATIM r "$"
    some (0, { r with verbatim_type := 3 })
  | MD_SPAN_LATEXMATH_DISPLAY =>
    let r := RENDER_VERBATIM r "$$"
    some (0, { r with verbatim_type := 3 })
  | MD_SPAN_WIKILINK => some (0, r)

/-- The function `leave_span_calback`. -/
def leave_span_calback (fuel : Nat) (type : MD_SPANTYPE) (detail : Detail)
    (r : MD_TEX) : Option (Int × MD_TEX) :=
  match type with
  | MD_SPAN_EM => some (0, RENDER_VERBATIM r "\x7d")
  | MD_SPAN_STRONG => some (0, RENDER_VERBATIM r "\x7d")
  | MD_SPAN_U => some (0, RENDER_VERBATIM r "\x7d")
  | MD_SPAN_A => some (0, RENDER_VERBATIM r "\x7d")
  | MD_SPAN_IMG =>
    match detail with
    | Detail.IMG _ title =>
      match render_close_img_span fuel r title with
      | some r => some (0, r)
      | none => none
    | _ => none
  | MD_SPAN_CODE =>
    let r := RENDER_VERBATIM r "!"
    some (0, { r with verbatim_type := 0 })
  | MD_SPAN_DEL => some (0, RENDER_VERBATIM r "\x7d")
  | MD_SPAN_LATEXMATH =>
    let r := RENDER_VERBATIM r "$"
    some (0, { r with verbatim_type := 0 })
  | MD_SPAN_LATEXMATH_DISPLAY =>
    let r := RENDER_VERBATIM r "$$"
    some (0, { r with verbatim_type := 0 })
  | MD_SPAN_WIKILINK => some (0, r)

/-- The function `text_callback(type, text, size, userdata)`, `size` being
the length of the run `text`. -/
def text_callback (fuel : Nat) (type : MD_TEXTTYPE) (text : List Nat) (r : MD_TEX) :
    Option (Int × MD_TEX) :=
  if r.verbatim_type ≠ 0 then some (0, render_verbatim r text)
  else
    match type with
    | MD_TEXT_NULLCHAR => some (0, r)
    | MD_TEXT_BR => some (0, RENDER_VERBATIM r "\\par")
    | MD_TEXT_SOFTBR => some (0, RENDER_VERBATIM r "\n")
    | MD_TEXT_HTML => some (0, render_verbatim r text)
    | MD_TEXT_ENTITY => some (0, render_verbatim r text)
    | _ =>
      match render_tex_escaped fuel r text with
      | some r => some (0, r)
      | none => none

/-! ## Event streams -/

/-- Modelled from the spec: the Event of the data model, one call of a
callback by the external parser (`md_parse` of md4c, not part of the
sources). -/
inductive Event
  | EnterBlock (type : MD_BLOCKTYPE) (detail : Detail)
  | LeaveBlock (type : MD_BLOCKTYPE) (detail : Detail)
  | EnterSpan (type : MD_SPANTYPE) (detail : Detail)
  | LeaveSpan (type : MD_SPANTYPE) (detail : Detail)
  | Text (type : MD_TEXTTYPE) (text : List Nat)
  deriving DecidableEq, Repr

open Event

/-- The callback that an event invokes, as wired in the `MD_PARSER` record of
`md_tex`. -/
def dispatch (fuel : Nat) (e : Event) (r : MD_TEX) : Option (Int × MD_TEX) :=
  match e with
  | EnterBlock type detail => enter_block_callback fuel type detail r
  | LeaveBlock type _ => leave_block_callback type r
  | EnterSpan type detail => enter_span_calback fuel type detail r
  | LeaveSpan type detail => leave_span_calback fuel type detail r
  | Text type text => text_callback fuel type text r

/-- Modelled from the spec: the driving loop of the external parser
(`md_parse`), which delivers the events in document order, each handler
running to completion before the next event; a callback that returns a value
other than 0 aborts the pass (`none`). -/
def run_events (fuel : Nat) : List Event → MD_TEX → Option MD_TEX
  | [], r => some r
  | e :: es, r =>
    match dispatch fuel e r with
    | some (ret, r1) => if ret = 0 then run_events fuel es r1 else none
    | none => none

/-- An element that is open at some point of an event stream. -/
inductive Frame
  | block (type : MD_BLOCKTYPE)
  | span (type : MD_SPANTYPE)
  deriving DecidableEq, Repr

/-- The nesting discipline of the input contract: the stack of open elements
(innermost first) after the events, starting from the stack `st`; `none` when
a leave event does not match the innermost open element, or a text event
occurs outside every element. -/
def nesting : List Event → List Frame → Option (List Frame)
  | [], st => some st
  | EnterBlock type _ :: es, st => nesting es (Frame.block type :: st)
  | EnterSpan type _ :: es, st => nesting es (Frame.span type :: st)
  | LeaveBlock type _ :: es, st =>
    match st with
    | Frame.block t :: st1 => if t = type then nesting es st1 else none
    | _ => none
  | LeaveSpan type _ :: es, st =>
    match st with
    | Frame.span t :: st1 => if t = type then nesting es st1 else none
    | _ => none
  | Text _ _ :: es, st =>
    match st with
    | [] => none
    | _ :: _ => nesting es st

/-- A well-nested event stream: every enter event has its matching leave
event, in order, and nothing stays open. -/
def well_nested (es : List Event) : Prop := nesting es [] = some []

instance (es : List Event) : Decidable (well_nested es) := by
  unfold well_nested; infer_instance

/-! # Definitions used in the statements -/

/-! ## The per-byte reading of the escaper -/

/-- The writes of the `switch` of `render_tex_escaped` for the byte `ch`: one
literal, or none when no case matches. -/
def switch_writes (ch : Nat) : List (List Nat) :=
  if ch = '~'.toNat then [bytes "\\~\x7b\x7d"]
  else if ch = '^'.toNat then [bytes "\\^\x7b\x7d"]
  else if ch = '#'.toNat then [bytes "\\#"]
  else if ch = '$'.toNat then [bytes "\\$"]
  else if ch = '%'.toNat then [bytes "\\%"]
  else if ch = '&'.toNat then [bytes "\\&"]
  else if ch = '{'.toNat then [bytes "\\\x7b"]
  else if ch = '}'.toNat then [bytes "\\\x7d"]
  else if ch = '_'.toNat then [bytes "\\_"]
  else if ch = '\\'.toNat then [bytes "\\textbackslash"]
  else []

/-- What a scan of one byte at a time writes for the byte `ch` under the
escape table `em`: the writes of the `switch` when the byte is flagged, the
byte itself otherwise. -/
def escape_byte (em : Nat → Nat) (ch : Nat) : List Nat :=
  if em (ch % 256) &&& NEED_TEX_ESC_FLAG ≠ 0 then (switch_writes ch).flatten else [ch]

/-- The output of a scan of one byte at a time over a run. -/
def escape_per_byte (em : Nat → Nat) : List Nat → List Nat
  | [] => []
  | ch :: rest => escape_byte em ch ++ escape_per_byte em rest

/-- A write of the escaper under the table `em`: not empty, and either a span
of bytes that are not flagged or a literal of the `switch`. -/
def escaper_write (em : Nat → Nat) (w : List Nat) : Prop :=
  w ≠ [] ∧ ((∀ ch ∈ w, em (ch % 256) &&& NEED_TEX_ESC_FLAG = 0) ∨ ∃ ch, w ∈ switch_writes ch)

/-! ## Attributes: well-formedness and the bytes rendered -/

/-- A well-formed attribute: `text` holds `size` bytes, `size` fits
`MD_SIZE`, there is one offset more than there are sub-runs, the offsets start
at 0, end at `size` and are strictly increasing. -/
def MD_ATTRIBUTE.well_formed (a : MD_ATTRIBUTE) : Prop :=
  (a.text.getD []).length = a.size ∧ a.size < U32 ∧
  a.substr_offsets.length = a.substr_types.length + 1 ∧
  a.substr_offsets[0]? = some 0 ∧
  a.substr_offsets[a.substr_types.length]? = some a.size ∧
  a.substr_offsets.Pairwise (· < ·)

instance (a : MD_ATTRIBUTE) : Decidable a.well_formed := by
  unfold MD_ATTRIBUTE.well_formed; infer_instance

/-- The bytes of sub-run `i` of an attribute. -/
def MD_ATTRIBUTE.substr (a : MD_ATTRIBUTE) (i : Nat) : List Nat :=
  ((a.text.getD []).drop (a.substr_offsets[i]?.getD 0)).take
    (a.substr_offsets[i + 1]?.getD 0 - a.substr_offsets[i]?.getD 0)

/-- What the attribute renderer writes for one sub-run `run` of type `type`
under the verbatim mode `v` and the escape table `em`. -/
def substr_bytes (v : Int) (em : Nat → Nat) (type : MD_TEXTTYPE) (run : List Nat) : List Nat :=
  if v = 4 then run
  else
    match type with
    | MD_TEXT_NULLCHAR => []
    | MD_TEXT_ENTITY => run
    | _ => escape_per_byte em run

/-- What the attribute renderer writes for the `n` sub-runs from index `i`. -/
def attr_bytes (v : Int) (em : Nat → Nat) (a : MD_ATTRIBUTE) : Nat → Nat → List Nat
  | 0, _ => []
  | n + 1, i =>
    substr_bytes v em (a.substr_types[i]?.getD MD_TEXT_NORMAL) (a.substr i)
      ++ attr_bytes v em a n (i + 1)

/-- The target of the link of the witness of C3: `http://a_b%c`, one Normal
sub-run. -/
def link_href : MD_ATTRIBUTE :=
  { text := some (bytes "http://a_b%c"), size := 12,
    substr_types := [MD_TEXT_NORMAL], substr_offsets := [0, 12] }

/-! ## What the handlers leave unchanged -/

/-- The record `r1` is `r` with more writes in the sink. -/
def sink_ext (r r1 : MD_TEX) : Prop := ∃ ws, r1 = { r with sink := r.sink ++ ws }

/-- The fields other than the sink after the handler of an event has
returned. -/
def state_after (e : Event) (r : MD_TEX) : MD_TEX :=
  match e with
  | EnterBlock MD_BLOCK_UL _ => { r with list_item_level := r.list_item_level + 1 }
  | EnterBlock MD_BLOCK_OL _ => { r with list_item_level := r.list_item_level + 1 }
  | EnterBlock MD_BLOCK_CODE _ => { r with verbatim_type := 1 }
  | EnterBlock MD_BLOCK_TABLE (Detail.TABLE col_count) =>
    { r with table_col_count := (col_count : Int) }
  | EnterBlock MD_BLOCK_TH _ => next_table_col r
  | EnterBlock MD_BLOCK_TD _ => next_table_col r
  | LeaveBlock MD_BLOCK_UL _ => { r with list_item_level := 0 }
  | LeaveBlock MD_BLOCK_OL _ => { r with list_item_level := 0 }
  | LeaveBlock MD_BLOCK_CODE _ => { r with verbatim_type := 0 }
  | EnterSpan MD_SPAN_A _ => { r with verbatim_type := 0 }
  | EnterSpan MD_SPAN_CODE _ => { r with verbatim_type := 2 }
  | EnterSpan MD_SPAN_LATEXMATH _ => { r with verbatim_type := 3 }
  | EnterSpan MD_SPAN_LATEXMATH_DISPLAY _ => { r with verbatim_type := 3 }
  | LeaveSpan MD_SPAN_CODE _ => { r with verbatim_type := 0 }
  | LeaveSpan MD_SPAN_LATEXMATH _ => { r with verbatim_type := 0 }
  | LeaveSpan MD_SPAN_LATEXMATH_DISPLAY _ => { r with verbatim_type := 0 }
  | _ => r

/-! ## Lists and paragraph breaks -/

/-- No list (unordered or ordered) is among the open elements `st`. -/
def no_list (st : List Frame) : Prop :=
  Frame.block MD_BLOCK_UL ∉ st ∧ Frame.block MD_BLOCK_OL ∉ st

instance (st : List Frame) : Decidable (no_list st) := by
  unfold no_list; infer_instance

/-- The event opens or closes a list. -/
def list_event (e : Event) : Bool :=
  match e with
  | EnterBlock MD_BLOCK_UL _ => true
  | EnterBlock MD_BLOCK_OL _ => true
  | LeaveBlock MD_BLOCK_UL _ => true
  | LeaveBlock MD_BLOCK_OL _ => true
  | _ => false

/-- The events of the witness of C7: two nested lists, both closed, then a
paragraph directly in the document, up to its enter event. -/
def par_events : List Event :=
  [EnterBlock MD_BLOCK_DOC Detail.null, EnterBlock MD_BLOCK_UL Detail.null,
   EnterBlock MD_BLOCK_LI Detail.null, EnterBlock MD_BLOCK_OL Detail.null,
   EnterBlock MD_BLOCK_LI Detail.null, LeaveBlock MD_BLOCK_LI Detail.null,
   LeaveBlock MD_BLOCK_OL Detail.null, LeaveBlock MD_BLOCK_LI Detail.null,
   LeaveBlock MD_BLOCK_UL Detail.null, EnterBlock MD_BLOCK_P Detail.null]

/-- The writes of the handlers on `par_events`. -/
def par_writes : List (List Nat) :=
  [bytes "\\begin\x7benumerate\x7d\n", bytes "\\item ", bytes "\\begin\x7bitemize\x7d\n",
   bytes "\\item ", bytes "\n", bytes "\\end\x7bitemize\x7d\n", bytes "\n",
   bytes "\\end\x7benumerate\x7d\n"]

/-- The render record after `par_events`, from the initial record. -/
def par_state : MD_TEX :=
  { md_tex_init with sink := md_tex_init.sink ++ par_writes, list_item_level := 0 }

/-- The events of a list item that holds a nested list followed by a
paragraph, up to the leave event of that paragraph. -/
def nested_list_events : List Event :=
  [EnterBlock MD_BLOCK_DOC Detail.null, EnterBlock MD_BLOCK_UL Detail.null,
   EnterBlock MD_BLOCK_LI Detail.null, EnterBlock MD_BLOCK_UL Detail.null,
   EnterBlock MD_BLOCK_LI Detail.null, LeaveBlock MD_BLOCK_LI Detail.null,
   LeaveBlock MD_BLOCK_UL Detail.null, EnterBlock MD_BLOCK_P Detail.null]

/-! ## Tables -/

/-- The column separator written by the leave handler of a cell. -/
def col_sep : List Nat := bytes " & "

/-- The row terminator written by the leave handler of a row. -/
def row_term : List Nat := bytes " \\\\\n\\hline\n"

/-- A table cell of an event stream: header cell or data cell, and the Normal
text runs it holds. -/
abbrev Cell := Bool × List (List Nat)

/-- The block type of a cell. -/
def cell_type (header : Bool) : MD_BLOCKTYPE := if header then MD_BLOCK_TH else MD_BLOCK_TD

/-- The events of a cell: enter, one text event per run, leave. -/
def cell_events (c : Cell) : List Event :=
  EnterBlock (cell_type c.1) Detail.null ::
    (c.2.map (Text MD_TEXT_NORMAL) ++ [LeaveBlock (cell_type c.1) Detail.null])

/-- The events of a row: enter, the cells, leave. -/
def row_events (row : List Cell) : List Event :=
  EnterBlock MD_BLOCK_TR Detail.null ::
    ((row.map cell_events).flatten ++ [LeaveBlock MD_BLOCK_TR Detail.null])

/-- The events of a table of `n` columns with the rows `hd` in its head and the
rows `body` in its body, as the parser delivers them. -/
def table_events (n : Nat) (hd body : List (List Cell)) : List Event :=
  [EnterBlock MD_BLOCK_TABLE (Detail.TABLE n), EnterBlock MD_BLOCK_THEAD Detail.null]
    ++ (hd.map row_events).flatten
    ++ [LeaveBlock MD_BLOCK_THEAD Detail.null, EnterBlock MD_BLOCK_TBODY Detail.null]
    ++ (body.map row_events).flatten
    ++ [LeaveBlock MD_BLOCK_TBODY Detail.null, LeaveBlock MD_BLOCK_TABLE Detail.null]

/-- The bytes written for the content of a cell under the table `em`. -/
def cell_output (em : Nat → Nat) (c : Cell) : List Nat :=
  (c.2.map (escape_per_byte em)).flatten

/-- The bytes written for a row: the cells with a separator between
consecutive cells, then the terminator. -/
def row_output (em : Nat → Nat) (row : List Cell) : List Nat :=
  List.intercalate col_sep (row.map (cell_output em)) ++ row_term

/-- The bytes written when a table of `n` columns is entered. -/
def table_open_output (n : Nat) : List Nat :=
  bytes "\\begin\x7btabular\x7d\x7b" ++ (List.replicate n (bytes "|l")).flatten ++ bytes "|\x7d\n\\hline\n"

/-- The check made after each event of a run: at the leave event of a row
`table_col_level` is 0. -/
def row_end_ok (e : Event) (r : MD_TEX) : Bool :=
  match e with
  | LeaveBlock MD_BLOCK_TR _ => decide (r.table_col_level = 0)
  | _ => true

/-- The run of `run_events` with the check `row_end_ok` after every event: the
result of `run_events` when every check holds, `none` otherwise. -/
def run_checked (fuel : Nat) : List Event → MD_TEX → Option MD_TEX
  | [], r => some r
  | e :: es, r =>
    match dispatch fuel e r with
    | some (ret, r1) =>
      if ret = 0 ∧ row_end_ok e r1 = true then run_checked fuel es r1 else none
    | none => none

/-- The fields that stay fixed while a table of `n` columns is processed from
the initial record. -/
def table_inv (n : Nat) (r : MD_TEX) : Prop :=
  r.verbatim_type = 0 ∧ r.escape_map = md_tex_init.escape_map ∧ r.table_col_count = (n : Int)

/-- The render record `r1` is reached from `r` inside a table of `n` columns:
the writes `ws` were added, `table_col_level` is `lvl`, and the fields of
`table_inv` are in place. -/
def table_step (n : Nat) (r r1 : MD_TEX) (ws : List (List Nat)) (lvl : Int) : Prop :=
  r1.sink = r.sink ++ ws ∧ r1.table_col_level = lvl ∧ table_inv n r1

/-- The writes of `render_open_table_block` for `n` columns. -/
def table_open_writes (n : Nat) : List (List Nat) :=
  bytes "\\begin\x7btabular\x7d\x7b" :: (List.replicate n (bytes "|l") ++ [bytes "|\x7d\n", bytes "\\hline\n"])

/-- The table of the witness of C5: 3 columns, one head row and one body
row. -/
def table3_head : List (List Cell) :=
  [[(true, [bytes "A"]), (true, []), (true, [bytes "C&D"])]]

/-- The body of the table of the witness of C5. -/
def table3_body : List (List Cell) :=
  [[(false, [bytes "1"]), (false, [bytes "2", bytes "_"]), (false, [bytes "3"])]]

/-- The event stream of the table with the header row `A`, `B` and the data
row `1`, `2`. -/
def table_ab12_events : List Event :=
  [EnterBlock MD_BLOCK_TABLE (Detail.TABLE 2),
   EnterBlock MD_BLOCK_THEAD Detail.null,
   EnterBlock MD_BLOCK_TR Detail.null,
   EnterBlock MD_BLOCK_TH Detail.null, Text MD_TEXT_NORMAL (bytes "A"),
   LeaveBlock MD_BLOCK_TH Detail.null,
   EnterBlock MD_BLOCK_TH Detail.null, Text MD_TEXT_NORMAL (bytes "B"),
   LeaveBlock MD_BLOCK_TH Detail.null,
   LeaveBlock MD_BLOCK_TR Detail.null,
   LeaveBlock MD_BLOCK_THEAD Detail.null,
   EnterBlock MD_BLOCK_TBODY Detail.null,
   EnterBlock MD_BLOCK_TR Detail.null,
   EnterBlock MD_BLOCK_TD Detail.null, Text MD_TEXT_NORMAL (bytes "1"),
   LeaveBlock MD_BLOCK_TD Detail.null,
   EnterBlock MD_BLOCK_TD Detail.null, Text MD_TEXT_NORMAL (bytes "2"),
   LeaveBlock MD_BLOCK_TD Detail.null,
   LeaveBlock MD_BLOCK_TR Detail.null,
   LeaveBlock MD_BLOCK_TBODY Detail.null,
   LeaveBlock MD_BLOCK_TABLE Detail.null]

/-! ## Inputs of the witnesses and counterexamples of the handlers -/

/-- An attribute without text: `NULL`, size 0, no sub-run. -/
def empty_attr : MD_ATTRIBUTE :=
  { text := none, size := 0, substr_types := [], substr_offsets := [0] }

/-- An attribute with the sub-runs `a`, an entity `&amp;`, a NUL placeholder
and `_b`. -/
def mixed_attr : MD_ATTRIBUTE :=
  { text := some (bytes "a&amp;" ++ [0] ++ bytes "_b"), size := 9,
    substr_types := [MD_TEXT_NORMAL, MD_TEXT_ENTITY, MD_TEXT_NULLCHAR, MD_TEXT_NORMAL],
    substr_offsets := [0, 1, 6, 7, 9] }

/-- The source attribute of the witness of C12: `img.png`, one Normal
sub-run. -/
def img_src : MD_ATTRIBUTE :=
  { text := some (bytes "img.png"), size := 7,
    substr_types := [MD_TEXT_NORMAL], substr_offsets := [0, 7] }

/-- The title attribute of the witness of C12: `Caption`, one Normal
sub-run. -/
def img_title : MD_ATTRIBUTE :=
  { text := some (bytes "Caption"), size := 7,
    substr_types := [MD_TEXT_NORMAL], substr_offsets := [0, 7] }

/-! ## The verbatim mode -/

/-- The open element is a code block, an inline code span or a math span
(inline or display): the elements whose enter handler switches a verbatim mode
on. -/
def verbatim_frame : Frame → Bool
  | Frame.block MD_BLOCK_CODE => true
  | Frame.span MD_SPAN_CODE => true
  | Frame.span MD_SPAN_LATEXMATH => true
  | Frame.span MD_SPAN_LATEXMATH_DISPLAY => true
  | _ => false

/-- One of the open elements `st` is a code block, an inline code span or a
math span. -/
def in_verbatim (st : List Frame) : Bool := st.any verbatim_frame

/-- Code blocks, inline code spans and math spans contain only text events: no
element is entered while one of them is open, `st` being the elements open
before the events. -/
def verbatim_only_text : List Event → List Frame → Bool
  | [], _ => true
  | EnterBlock type _ :: es, st =>
    !in_verbatim st && verbatim_only_text es (Frame.block type :: st)
  | EnterSpan type _ :: es, st =>
    !in_verbatim st && verbatim_only_text es (Frame.span type :: st)
  | LeaveBlock _ _ :: es, st => verbatim_only_text es st.tail
  | LeaveSpan _ _ :: es, st => verbatim_only_text es st.tail
  | Text _ _ :: es, st => verbatim_only_text es st

/-- The invariant of the verbatim mode: only the innermost open element can be
a code block, an inline code span or a math span, and `verbatim_type` is not 0
exactly when one of them is open. -/
def verbatim_inv (st : List Frame) (r : MD_TEX) : Prop :=
  in_verbatim st.tail = false ∧ (r.verbatim_type ≠ 0 ↔ in_verbatim st = true)

/-- An attribute on which the attribute renderer returns in every mode with
the fuel `fuel`: well-formed, within `MD_SIZE - 3`, and the fuel above its
size and its number of sub-runs. -/
def attr_in_domain (fuel : Nat) (a : MD_ATTRIBUTE) : Prop :=
  a.well_formed ∧ a.substr_types.length < fuel ∧ a.size + 3 < U32 ∧ a.size < fuel

instance (fuel : Nat) (a : MD_ATTRIBUTE) : Decidable (attr_in_domain fuel a) := by
  unfold attr_in_domain; infer_instance

/-- The payload of an event is one on which its handler is defined and
returns with the fuel `fuel`: the detail is of the kind of the element, a
heading level is 1 to 6, a column count fits `int`, the attributes that are
rendered are well-formed and within the fuel, and a text run is shorter than
`2^32 - 3` bytes and than the fuel. -/
def event_in_domain (fuel : Nat) (e : Event) : Bool :=
  match e with
  | EnterBlock MD_BLOCK_H d =>
    match d with
    | Detail.H level => decide (1 ≤ level ∧ level ≤ 6)
    | _ => false
  | EnterBlock MD_BLOCK_CODE d =>
    match d with
    | Detail.CODE lang => decide (lang.text ≠ none → attr_in_domain fuel lang)
    | _ => false
  | EnterBlock MD_BLOCK_TABLE d =>
    match d with
    | Detail.TABLE col_count => decide (col_count < 2 ^ 31)
    | _ => false
  | EnterSpan MD_SPAN_A d =>
    match d with
    | Detail.A href => decide (href.well_formed ∧ href.substr_types.length < fuel)
    | _ => false
  | EnterSpan MD_SPAN_IMG d =>
    match d with
    | Detail.IMG src _ => decide (attr_in_domain fuel src)
    | _ => false
  | LeaveSpan MD_SPAN_IMG d =>
    match d with
    | Detail.IMG _ title => decide (title.text ≠ none → attr_in_domain fuel title)
    | _ => false
  | Text _ text => decide (text.length + 3 < U32 ∧ text.length < fuel)
  | _ => true

/-- The events of the witness of C20: a paragraph with a text, a link with a
label, an inline code span and a text after it, then a code block, then a
paragraph with a math span and a text after it. -/
def mode_events : List Event :=
  [EnterBlock MD_BLOCK_DOC Detail.null,
   EnterBlock MD_BLOCK_P Detail.null,
   Text MD_TEXT_NORMAL (bytes "a_b"),
   EnterSpan MD_SPAN_A (Detail.A link_href),
   Text MD_TEXT_NORMAL (bytes "c_d"),
   LeaveSpan MD_SPAN_A (Detail.A link_href),
   EnterSpan MD_SPAN_CODE Detail.null,
   Text MD_TEXT_CODE (bytes "e_f"),
   LeaveSpan MD_SPAN_CODE Detail.null,
   Text MD_TEXT_NORMAL (bytes "g_h"),
   LeaveBlock MD_BLOCK_P Detail.null,
   EnterBlock MD_BLOCK_CODE (Detail.CODE empty_attr),
   Text MD_TEXT_CODE (bytes "i_j\n"),
   LeaveBlock MD_BLOCK_CODE (Detail.CODE empty_attr),
   EnterBlock MD_BLOCK_P Detail.null,
   EnterSpan MD_SPAN_LATEXMATH Detail.null,
   Text MD_TEXT_LATEXMATH (bytes "k_l"),
   LeaveSpan MD_SPAN_LATEXMATH Detail.null,
   Text MD_TEXT_NORMAL (bytes "m_n"),
   LeaveBlock MD_BLOCK_P Detail.null,
   LeaveBlock MD_BLOCK_DOC Detail.null]

/-! # Lemmas -/

/-! ## Lemmas: the escaper -/

theorem escape_switch_eq (r : MD_TEX) (ch : Nat) :
    escape_switch r ch = { r with sink := r.sink ++ switch_writes ch } := by
  unfold escape_switch switch_writes
  by_cases h0 : ch = '~'.toNat
  · rw [if_pos h0, if_pos h0]; rfl
  rw [if_neg h0, if_neg h0]
  by_cases h1 : ch = '^'.toNat
  · rw [if_pos h1, if_pos h1]; rfl
  rw [if_neg h1, if_neg h1]
  by_cases h2 : ch = '#'.toNat
  · rw [if_pos h2, if_pos h2]; rfl
  rw [if_neg h2, if_neg h2]
  by_cases h3 : ch = '$'.toNat
  · rw [if_pos h3, if_pos h3]; rfl
  rw [if_neg h3, if_neg h3]
  by_cases h4 : ch = '%'.toNat
  · rw [if_pos h4, if_pos h4]; rfl
  rw [if_neg h4, if_neg h4]
  by_cases h5 : ch = '&'.toNat
  · rw [if_pos h5, if_pos h5]; rfl
  rw [if_neg h5, if_neg h5]
  by_cases h6 : ch = '{'.toNat
  · rw [if_pos h6, if_pos h6]; rfl
  rw [if_neg h6, if_neg h6]
  by_cases h7 : ch = '}'.toNat
  · rw [if_pos h7, if_pos h7]; rfl
  rw [if_neg h7, if_neg h7]
  by_cases h8 : ch = '_'.toNat
  · rw [if_pos h8, if_pos h8]; rfl
  rw [if_neg h8, if_neg h8]
  by_cases h9 : ch = '\\'.toNat
  · rw [if_pos h9, if_pos h9]; rfl
  rw [if_neg h9, if_neg h9]
  simp

theorem switch_writes_ne_nil (ch : Nat) : ∀ w ∈ switch_writes ch, w ≠ [] := by
  unfold switch_writes
  by_cases h0 : ch = '~'.toNat
  · rw [if_pos h0]; intro w hw; rw [List.mem_singleton.mp hw]; decide
  rw [if_neg h0]
  by_cases h1 : ch = '^'.toNat
  · rw [if_pos h1]; intro w hw; rw [List.mem_singleton.mp hw]; decide
  rw [if_neg h1]
  by_cases h2 : ch = '#'.toNat
  · rw [if_pos h2]; intro w hw; rw [List.mem_singleton.mp hw]; decide
  rw [if_neg h2]
  by_cases h3 : ch = '$'.toNat
  · rw [if_pos h3]; intro w hw; rw [List.mem_singleton.mp hw]; decide
  rw [if_neg h3]
  by_cases h4 : ch = '%'.toNat
  · rw [if_pos h4]; intro w hw; rw [List.mem_singleton.mp hw]; decide
  rw [if_neg h4]
  by_cases h5 : ch = '&'.toNat
  · rw [if_pos h5]; intro w hw; rw [List.mem_singleton.mp hw]; decide
  rw [if_neg h5]
  by_cases h6 : ch = '{'.toNat
  · rw [if_pos h6]; intro w hw; rw [List.mem_singleton.mp hw]; decide
  rw [if_neg h6]
  by_cases h7 : ch = '}'.toNat
  · rw [if_pos h7]; intro w hw; rw [List.mem_singleton.mp hw]; decide
  rw [if_neg h7]
  by_cases h8 : ch = '_'.toNat
  · rw [if_pos h8]; intro w hw; rw [List.mem_singleton.mp hw]; decide
  rw [if_neg h8]
  by_cases h9 : ch = '\\'.toNat
  · rw [if_pos h9]; intro w hw; rw [List.mem_singleton.mp hw]; decide
  rw [if_neg h9]
  simp

theorem escape_per_byte_append (em : Nat → Nat) (a b : List Nat) :
    escape_per_byte em (a ++ b) = escape_per_byte em a ++ escape_per_byte em b := by
  induction a with
  | nil => rfl
  | cons x xs ih => simp [escape_per_byte, ih]

theorem escape_per_byte_clear (em : Nat → Nat) (a : List Nat)
    (h : ∀ ch ∈ a, em (ch % 256) &&& NEED_TEX_ESC_FLAG = 0) : escape_per_byte em a = a := by
  induction a with
  | nil => rfl
  | cons x xs ih =>
    have hx := h x (List.mem_cons_self _ _)
    have hxs := ih (fun ch hch => h ch (List.mem_cons_of_mem _ hch))
    simp [escape_per_byte, escape_byte, hx, hxs]

theorem noEscAt_eq (r : MD_TEX) (data : List Nat) (i : Nat) (hi : i < data.length)
    (hu : i < U32) : noEscAt r data i = some (NEED_TEX_ESC r data[i] == 0) := by
  unfold noEscAt
  rw [Nat.mod_eq_of_lt hu, List.getElem?_eq_getElem hi]

/-- The first inner loop returns, stays inside the run and skips only bytes
that are not flagged. -/
theorem scan4_spec (r : MD_TEX) (data : List Nat) (hsz : data.length + 3 < U32) :
    ∀ (fuel off : Nat), off ≤ data.length → data.length - off < fuel →
      ∃ off4, scan4 r data data.length fuel off = some off4 ∧ off ≤ off4 ∧
        off4 ≤ data.length ∧
        ∀ j, off ≤ j → j < off4 → ∀ hj : j < data.length, NEED_TEX_ESC r data[j] = 0 := by
  intro fuel
  induction fuel with
  | zero => intro off _ h; omega
  | succ n ih =>
    intro off hoff hfuel
    unfold scan4
    have hm : (off + 3) % U32 = off + 3 := Nat.mod_eq_of_lt (by omega)
    rw [hm]
    by_cases h3 : off + 3 < data.length
    · rw [if_pos h3]
      have stop : ∃ off4, some off = some off4 ∧ off ≤ off4 ∧ off4 ≤ data.length ∧
          ∀ j, off ≤ j → j < off4 → ∀ hj : j < data.length, NEED_TEX_ESC r data[j] = 0 :=
        ⟨off, rfl, le_refl _, hoff, fun j h1 h2 => by omega⟩
      rw [noEscAt_eq r data (off + 0) (by omega) (by omega),
        noEscAt_eq r data (off + 1) (by omega) (by omega),
        noEscAt_eq r data (off + 2) (by omega) (by omega),
        noEscAt_eq r data (off + 3) (by omega) (by omega)]
      by_cases e0 : NEED_TEX_ESC r data[off + 0] = 0
      swap
      · have f0 : (NEED_TEX_ESC r data[off + 0] == 0) = false := by simpa using e0
        rw [f0]; exact stop
      have t0 : (NEED_TEX_ESC r data[off + 0] == 0) = true := by simpa using e0
      rw [t0]
      by_cases e1 : NEED_TEX_ESC r data[off + 1] = 0
      swap
      · have f1 : (NEED_TEX_ESC r data[off + 1] == 0) = false := by simpa using e1
        rw [f1]; exact stop
      have t1 : (NEED_TEX_ESC r data[off + 1] == 0) = true := by simpa using e1
      rw [t1]
      by_cases e2 : NEED_TEX_ESC r data[off + 2] = 0
      swap
      · have f2 : (NEED_TEX_ESC r data[off + 2] == 0) = false := by simpa using e2
        rw [f2]; exact stop
      have t2 : (NEED_TEX_ESC r data[off + 2] == 0) = true := by simpa using e2
      rw [t2]
      by_cases e3 : NEED_TEX_ESC r data[off + 3] = 0
      swap
      · have f3 : (NEED_TEX_ESC r data[off + 3] == 0) = false := by simpa using e3
        rw [f3]; exact stop
      have t3 : (NEED_TEX_ESC r data[off + 3] == 0) = true := by simpa using e3
      rw [t3]
      have hm4 : (off + 4) % U32 = off + 4 := Nat.mod_eq_of_lt (by omega)
      show ∃ off4, scan4 r data data.length n ((off + 4) % U32) = some off4 ∧ _
      rw [hm4]
      obtain ⟨off4, h1, h2, h3', h4⟩ := ih (off + 4) (by omega) (by omega)
      refine ⟨off4, h1, by omega, h3', ?_⟩
      intro j hj1 hj2 hj
      by_cases hj4 : off + 4 ≤ j
      · exact h4 j hj4 hj2 hj
      · have : j = off + 0 ∨ j = off + 1 ∨ j = off + 2 ∨ j = off + 3 := by omega
        rcases this with rfl | rfl | rfl | rfl <;> assumption
    · rw [if_neg h3]
      exact ⟨off, rfl, le_refl _, hoff, fun j h1 h2 => by omega⟩

/-- The second inner loop returns at the first flagged byte or at the end of
the run. -/
theorem scan1_spec (r : MD_TEX) (data : List Nat) (hsz : data.length + 3 < U32) :
    ∀ (fuel off : Nat), off ≤ data.length → data.length - off < fuel →
      ∃ off1, scan1 r data data.length fuel off = some off1 ∧ off ≤ off1 ∧
        off1 ≤ data.length ∧
        (∀ j, off ≤ j → j < off1 → ∀ hj : j < data.length, NEED_TEX_ESC r data[j] = 0) ∧
        (∀ h1 : off1 < data.length, NEED_TEX_ESC r data[off1] ≠ 0) := by
  intro fuel
  induction fuel with
  | zero => intro off _ h; omega
  | succ n ih =>
    intro off hoff hfuel
    unfold scan1
    by_cases h0 : off < data.length
    · rw [if_pos h0, noEscAt_eq r data off h0 (by omega)]
      by_cases e0 : NEED_TEX_ESC r data[off] = 0
      · have t0 : (NEED_TEX_ESC r data[off] == 0) = true := by simpa using e0
        rw [t0]
        have hm1 : (off + 1) % U32 = off + 1 := Nat.mod_eq_of_lt (by omega)
        show ∃ off1, scan1 r data data.length n ((off + 1) % U32) = some off1 ∧ _
        rw [hm1]
        obtain ⟨off1, h1, h2, h3, h4, h5⟩ := ih (off + 1) (by omega) (by omega)
        refine ⟨off1, h1, by omega, h3, ?_, h5⟩
        intro j hj1 hj2 hj
        by_cases hj4 : off + 1 ≤ j
        · exact h4 j hj4 hj2 hj
        · have : j = off := by omega
          subst this
          exact e0
      · have : (NEED_TEX_ESC r data[off] == 0) = false := by simpa using e0
        rw [this]
        exact ⟨off, rfl, le_refl _, hoff, fun j h1 h2 => by omega, fun _ => e0⟩
    · rw [if_neg h0]
      exact ⟨off, rfl, le_refl _, hoff, fun j h1 h2 => by omega, fun h => absurd h h0⟩

theorem clear_of_index (P : Nat → Prop) (data : List Nat) (a b : Nat) (hb : b ≤ data.length)
    (h : ∀ j, a ≤ j → j < b → ∀ hj : j < data.length, P data[j]) :
    ∀ ch ∈ (data.drop a).take (b - a), P ch := by
  intro ch hch
  obtain ⟨n, hn, rfl⟩ := List.mem_iff_getElem.mp hch
  have hn2 : n < b - a := by
    have := hn
    simp only [List.length_take, List.length_drop] at this
    omega
  rw [List.getElem_take, List.getElem_drop]
  exact h (a + n) (by omega) (by omega) (by omega)

theorem drop_split (data : List Nat) (a b : Nat) (hab : a ≤ b) :
    data.drop a = (data.drop a).take (b - a) ++ data.drop b := by
  have h := (List.take_append_drop (b - a) (data.drop a)).symm
  rw [List.drop_drop] at h
  have e : a + (b - a) = b := by omega
  rw [e] at h
  exact h

/-- The escaper returns (given fuel above the length of the run), changes
only the sink, and the bytes it writes are those of the scan of one byte at a
time; every write is a non-empty span of bytes that are not flagged or a
literal of the `switch`. -/
theorem escape_loop_spec (inner : Nat) (data : List Nat) (hsz : data.length + 3 < U32)
    (hin : data.length < inner) :
    ∀ (fuel : Nat) (r : MD_TEX) (off : Nat), off ≤ data.length → data.length - off < fuel →
      ∃ ws, escape_loop inner data data.length fuel r off off
          = some { r with sink := r.sink ++ ws } ∧
        ws.flatten = escape_per_byte r.escape_map (data.drop off) ∧
        ∀ w ∈ ws, escaper_write r.escape_map w := by
  intro fuel
  induction fuel with
  | zero => intro r off _ h; omega
  | succ n ih =>
    intro r off hoff hfuel
    unfold escape_loop
    obtain ⟨off4, e4, h4a, h4b, h4c⟩ := scan4_spec r data hsz inner off hoff (by omega)
    rw [e4]
    obtain ⟨off1, e1, h1a, h1b, h1c, h1d⟩ := scan1_spec r data hsz inner off4 h4b (by omega)
    simp only [e1]
    have hclear : ∀ ch ∈ (data.drop off).take (off1 - off),
        r.escape_map (ch % 256) &&& NEED_TEX_ESC_FLAG = 0 := by
      apply clear_of_index (fun ch => r.escape_map (ch % 256) &&& NEED_TEX_ESC_FLAG = 0)
        data off off1 h1b
      intro j hj1 hj2 hj
      by_cases hj4 : j < off4
      · exact h4c j hj1 hj4 hj
      · exact h1c j (by omega) hj2 hj
    have hlen : (off1 + U32 - off) % U32 = off1 - off := by
      have : off1 + U32 - off = (off1 - off) + U32 := by omega
      rw [this, Nat.add_mod_right]
      exact Nat.mod_eq_of_lt (by omega)
    have hslice : slice data off (off1 - off) = some ((data.drop off).take (off1 - off)) := by
      unfold slice
      rw [if_pos (by omega)]
    rw [hlen, hslice]
    -- the bulk write, if any
    have hbulk : ∃ bulk : List (List Nat),
        (if off1 > off then
            Option.map (render_verbatim r) (some ((data.drop off).take (off1 - off)))
          else some r) = some { r with sink := r.sink ++ bulk } ∧
        bulk.flatten = (data.drop off).take (off1 - off) ∧
        ∀ w ∈ bulk, escaper_write r.escape_map w := by
      by_cases hgt : off1 > off
      · refine ⟨[(data.drop off).take (off1 - off)], ?_, by simp, ?_⟩
        · rw [if_pos hgt]; rfl
        · intro w hw
          rw [List.mem_singleton.mp hw]
          refine ⟨?_, Or.inl hclear⟩
          intro hnil
          have := congrArg List.length hnil
          simp only [List.length_take, List.length_drop, List.length_nil] at this
          omega
      · refine ⟨[], ?_, ?_, by simp⟩
        · rw [if_neg hgt]; simp
        · have : off1 - off = 0 := by omega
          simp [this]
    obtain ⟨bulk, eb, hb1, hb2⟩ := hbulk
    rw [eb]
    have hsplit := drop_split data off off1 (by omega)
    by_cases hlt : off1 < data.length
    · simp only [if_pos hlt, List.getElem?_eq_getElem hlt]
      have hm1 : (off1 + 1) % U32 = off1 + 1 := Nat.mod_eq_of_lt (by omega)
      rw [hm1, escape_switch_eq]
      obtain ⟨ws, e, hw1, hw2⟩ := ih
        { r with sink := r.sink ++ bulk ++ switch_writes data[off1] } (off1 + 1)
        (by omega) (by omega)
      refine ⟨bulk ++ switch_writes data[off1] ++ ws, ?_, ?_, ?_⟩
      · rw [e]; simp [List.append_assoc]
      · rw [hsplit, escape_per_byte_append, escape_per_byte_clear _ _ hclear,
          List.drop_eq_getElem_cons hlt]
        have hflag := h1d hlt
        simp only [escape_per_byte, escape_byte, List.flatten_append, hb1, hw1]
        unfold NEED_TEX_ESC at hflag
        rw [if_pos hflag]
        simp [List.append_assoc]
      · intro w hw
        simp only [List.mem_append] at hw
        rcases hw with (hw | hw) | hw
        · exact hb2 w hw
        · exact ⟨switch_writes_ne_nil _ w hw, Or.inr ⟨_, hw⟩⟩
        · exact hw2 w hw
    · refine ⟨bulk, ?_, ?_, hb2⟩
      · simp only [if_neg hlt]
      · have hend : data.drop off1 = [] := List.drop_eq_nil_of_le (by omega)
        rw [hsplit, escape_per_byte_append, escape_per_byte_clear _ _ hclear, hend, hb1]
        simp [escape_per_byte]

/-- The function `render_tex_escaped` on a run shorter than `2^32 - 3` bytes,
with fuel above the length of the run. -/
theorem render_tex_escaped_spec (fuel : Nat) (r : MD_TEX) (data : List Nat)
    (hsz : data.length + 3 < U32) (hfuel : data.length < fuel) :
    ∃ ws, render_tex_escaped fuel r data = some { r with sink := r.sink ++ ws } ∧
      ws.flatten = escape_per_byte r.escape_map data ∧
      ∀ w ∈ ws, escaper_write r.escape_map w := by
  have h := escape_loop_spec fuel data hsz hfuel fuel r 0 (Nat.zero_le _) (by omega)
  simpa [render_tex_escaped] using h

/-! ## Lemmas: the escape table of `md_tex` -/

set_option maxRecDepth 8000 in
/-- The flags of the table that `md_tex` builds: set for the ten bytes of the
literal and for the byte 0, which `strchr` finds at the terminating NUL. -/
theorem md_tex_flag_lt : ∀ i, i < 256 →
    md_tex_init.escape_map i &&& NEED_TEX_ESC_FLAG =
      if i ∈ [0, 35, 36, 37, 38, 92, 94, 95, 123, 125, 126] then 1 else 0 := by
  decide

theorem md_tex_flag (ch : Nat) :
    md_tex_init.escape_map (ch % 256) &&& NEED_TEX_ESC_FLAG =
      if ch % 256 ∈ [0, 35, 36, 37, 38, 92, 94, 95, 123, 125, 126] then 1 else 0 :=
  md_tex_flag_lt (ch % 256) (Nat.mod_lt _ (by decide))

/-! ## Lemmas: running events -/

theorem run_events_cons (fuel : Nat) (e : Event) (es : List Event) (r r1 : MD_TEX)
    (h : dispatch fuel e r = some (0, r1)) :
    run_events fuel (e :: es) r = run_events fuel es r1 := by
  simp [run_events, h]

theorem run_events_append (fuel : Nat) (es1 es2 : List Event) (r r1 : MD_TEX)
    (h : run_events fuel es1 r = some r1) :
    run_events fuel (es1 ++ es2) r = run_events fuel es2 r1 := by
  induction es1 generalizing r with
  | nil => simp [run_events] at h; subst h; rfl
  | cons e es ih =>
    simp only [run_events, List.cons_append] at h ⊢
    cases hd : dispatch fuel e r with
    | none => simp [hd] at h
    | some p =>
      obtain ⟨ret, r2⟩ := p
      simp only [hd] at h ⊢
      by_cases h0 : ret = 0
      · simp only [h0, if_true] at h ⊢
        exact ih r2 h
      · simp [h0] at h

/-- A text event of a type that reaches the `default` case of `text_callback`
(here Normal), outside every verbatim mode: the run goes through the escaper. -/
theorem text_callback_normal (fuel : Nat) (r : MD_TEX) (t : List Nat)
    (hv : r.verbatim_type = 0) (hsz : t.length + 3 < U32) (hfuel : t.length < fuel) :
    ∃ ws, text_callback fuel MD_TEXT_NORMAL t r = some (0, { r with sink := r.sink ++ ws }) ∧
      ws.flatten = escape_per_byte r.escape_map t ∧
      ∀ w ∈ ws, escaper_write r.escape_map w := by
  obtain ⟨ws, e, hw, hne⟩ := render_tex_escaped_spec fuel r t hsz hfuel
  refine ⟨ws, ?_, hw, hne⟩
  simp [text_callback, hv, e]

/-- The three events enter, text, leave of an element whose enter handler
switches a verbatim mode on. -/
theorem verbatim_events (fuel : Nat) (r : MD_TEX) (e1 e3 : Event) (kind : MD_TEXTTYPE)
    (b cl : List Nat) (ops : List (List Nat)) (v : Int) (hv : v ≠ 0)
    (h1 : dispatch fuel e1 r = some (0, { r with sink := r.sink ++ ops, verbatim_type := v }))
    (h3 : ∀ r1 : MD_TEX, dispatch fuel e3 r1
      = some (0, { r1 with sink := r1.sink ++ [cl], verbatim_type := 0 })) :
    run_events fuel [e1, Text kind b, e3] r
      = some { r with sink := r.sink ++ (ops ++ [b, cl]), verbatim_type := 0 } := by
  rw [run_events_cons fuel _ _ _ _ h1]
  have h2 : dispatch fuel (Text kind b)
      { r with sink := r.sink ++ ops, verbatim_type := v }
      = some (0, { r with sink := r.sink ++ ops ++ [b], verbatim_type := v }) := by
    simp [dispatch, text_callback, hv, render_verbatim]
  rw [run_events_cons fuel _ _ _ _ h2, run_events_cons fuel _ _ _ _ (h3 _)]
  simp [run_events]

/-- The events enter X, text, leave X from any render record, for the four
elements that switch a verbatim mode on: the writes of the enter handler, the
text unchanged, the write of the leave handler; the mode is 0 afterwards. -/
theorem verbatim_passthrough_any (fuel : Nat) (r : MD_TEX) (kind : MD_TEXTTYPE) (b : List Nat)
    (d1 d2 : Detail) (size : Nat) (types : List MD_TEXTTYPE) (offsets : List Nat) :
    run_events fuel [EnterSpan MD_SPAN_CODE d1, Text kind b, LeaveSpan MD_SPAN_CODE d2] r
      = some { r with
          sink := r.sink ++ ([bytes "\\verb!"] ++ [b, bytes "!"]), verbatim_type := 0 } ∧
    run_events fuel [EnterSpan MD_SPAN_LATEXMATH d1, Text kind b,
        LeaveSpan MD_SPAN_LATEXMATH d2] r
      = some { r with sink := r.sink ++ ([bytes "$"] ++ [b, bytes "$"]), verbatim_type := 0 } ∧
    run_events fuel [EnterSpan MD_SPAN_LATEXMATH_DISPLAY d1, Text kind b,
        LeaveSpan MD_SPAN_LATEXMATH_DISPLAY d2] r
      = some { r with
          sink := r.sink ++ ([bytes "$$"] ++ [b, bytes "$$"]), verbatim_type := 0 } ∧
    run_events fuel [EnterBlock MD_BLOCK_CODE (Detail.CODE ⟨none, size, types, offsets⟩),
        Text kind b, LeaveBlock MD_BLOCK_CODE d2] r
      = some { r with
          sink := r.sink ++ ([bytes "\\begin\x7bverbatim\x7d", bytes "\n"] ++
            [b, bytes "\\end\x7bverbatim\x7d\n"])
          verbatim_type := 0 } := by
  refine ⟨?_, ?_, ?_, ?_⟩
  · exact verbatim_events fuel r _ _ kind b _ [_] 2 (by decide) rfl (fun _ => rfl)
  · exact verbatim_events fuel r _ _ kind b _ [_] 3 (by decide) rfl (fun _ => rfl)
  · exact verbatim_events fuel r _ _ kind b _ [_] 3 (by decide) rfl (fun _ => rfl)
  · have h1 : dispatch fuel
        (EnterBlock MD_BLOCK_CODE (Detail.CODE ⟨none, size, types, offsets⟩)) r
        = some (0, { r with
            sink := r.sink ++ [bytes "\\begin\x7bverbatim\x7d"] ++ [bytes "\n"], verbatim_type := 1 }) :=
      rfl
    rw [List.append_assoc] at h1
    exact verbatim_events fuel r _ _ kind b _ _ 1 (by decide) h1 (fun _ => rfl)

/-! ## Lemmas: the attribute renderer -/

theorem render_substr_spec (fuel : Nat) (r : MD_TEX) (type : MD_TEXTTYPE) (text : List Nat)
    (off size : Nat) (hin : off + size ≤ text.length)
    (h : r.verbatim_type = 4 ∨ (size + 3 < U32 ∧ size < fuel)) :
    ∃ ws, render_substr fuel r type text off size = some { r with sink := r.sink ++ ws } ∧
      ws.flatten = substr_bytes r.verbatim_type r.escape_map type ((text.drop off).take size) := by
  have hslice : slice text off size = some ((text.drop off).take size) := by
    unfold slice; rw [if_pos hin]
  have hlen : ((text.drop off).take size).length = size := by
    simp only [List.length_take, List.length_drop]; omega
  unfold render_substr substr_bytes
  rw [hslice]
  by_cases hv : r.verbatim_type = 4
  · rw [if_pos hv, if_pos hv]
    exact ⟨[(text.drop off).take size], rfl, by simp⟩
  · rw [if_neg hv, if_neg hv]
    have hb := h.resolve_left hv
    have esc : ∃ ws, (some ((text.drop off).take size)).bind (render_tex_escaped fuel r)
        = some { r with sink := r.sink ++ ws } ∧
        ws.flatten = escape_per_byte r.escape_map ((text.drop off).take size) := by
      obtain ⟨ws, e, hw, -⟩ := render_tex_escaped_spec fuel r ((text.drop off).take size)
        (by rw [hlen]; exact hb.1) (by rw [hlen]; exact hb.2)
      exact ⟨ws, by simpa using e, hw⟩
    cases type <;>
      first
      | exact esc
      | exact ⟨[], by simp, rfl⟩
      | exact ⟨[(text.drop off).take size], rfl, by simp⟩

/-- The loop of `render_attribute` on a well-formed attribute, from index `i`
with more fuel than sub-runs left: it returns, changes only the sink, and
writes the bytes of the sub-runs from `i` on, in order. -/
theorem render_attribute_loop_spec (fuel : Nat) (a : MD_ATTRIBUTE) (hwf : a.well_formed) :
    ∀ (n i : Nat) (r : MD_TEX), i ≤ a.substr_types.length → a.substr_types.length - i < n →
      (r.verbatim_type = 4 ∨ (a.size + 3 < U32 ∧ a.size < fuel)) →
      ∃ ws, render_attribute_loop fuel a n i r = some { r with sink := r.sink ++ ws } ∧
        ws.flatten = attr_bytes r.verbatim_type r.escape_map a (a.substr_types.length - i) i := by
  obtain ⟨htx, hsz, hlen, h0, hk, hpw⟩ := hwf
  have hmono := List.pairwise_iff_getElem.mp hpw
  have hlast : ∀ hh : a.substr_types.length < a.substr_offsets.length,
      a.substr_offsets[a.substr_types.length] = a.size := by
    intro hh
    rw [List.getElem?_eq_getElem hh] at hk
    exact Option.some.inj hk
  intro n
  induction n with
  | zero => intro i r _ h; omega
  | succ n ih =>
    intro i r hi hn hmode
    unfold render_attribute_loop
    have hil : i < a.substr_offsets.length := by omega
    rw [List.getElem?_eq_getElem hil]
    by_cases hik : i < a.substr_types.length
    · have hlt : a.substr_offsets[i] < a.size := by
        rw [← hlast (by omega)]
        exact hmono i a.substr_types.length hil (by omega) hik
      have hnext : a.substr_offsets[i] < a.substr_offsets[i + 1] :=
        hmono i (i + 1) hil (by omega) (by omega)
      have hle : a.substr_offsets[i + 1] ≤ a.size := by
        rw [← hlast (by omega)]
        by_cases hlast1 : i + 1 = a.substr_types.length
        · simp only [hlast1]; exact le_refl _
        · exact le_of_lt (hmono (i + 1) a.substr_types.length (by omega) (by omega) (by omega))
      have hil1 : i + 1 < a.substr_offsets.length := by omega
      simp only [if_pos hlt, List.getElem?_eq_getElem hik, List.getElem?_eq_getElem hil1]
      have hsplit : a.substr_types.length - i = (a.substr_types.length - (i + 1)) + 1 := by
        omega
      rw [hsplit, attr_bytes]
      simp only [MD_ATTRIBUTE.substr, List.getElem?_eq_getElem hil,
        List.getElem?_eq_getElem hik, Option.getD_some, List.getElem?_eq_getElem hil1]
      generalize a.substr_offsets[i] = oi at hlt hnext ⊢
      generalize a.substr_offsets[i + 1] = oj at hle hnext ⊢
      generalize a.substr_types[i] = ty
      have hsub : (oj + U32 - oi) % U32 = oj - oi := by
        have : oj + U32 - oi = (oj - oi) + U32 := by omega
        rw [this, Nat.add_mod_right]
        exact Nat.mod_eq_of_lt (by omega)
      rw [hsub]
      have hin : oi + (oj - oi) ≤ (a.text.getD []).length := by rw [htx]; omega
      have hmode1 : r.verbatim_type = 4 ∨ (oj - oi + 3 < U32 ∧ oj - oi < fuel) :=
        hmode.imp id (fun hb => ⟨by omega, by omega⟩)
      obtain ⟨ws1, e1, hw1⟩ := render_substr_spec fuel r ty (a.text.getD []) oi (oj - oi)
        hin hmode1
      rw [e1]
      have hi1 : i + 1 ≤ a.substr_types.length := by omega
      have hn1 : a.substr_types.length - (i + 1) < n := by omega
      obtain ⟨ws2, e2, hw2⟩ := ih (i + 1) { r with sink := r.sink ++ ws1 } hi1 hn1 hmode
      refine ⟨ws1 ++ ws2, ?_, ?_⟩
      · simp only [e2, List.append_assoc]
      · rw [List.flatten_append, hw1, hw2]
    · have hik2 : i = a.substr_types.length := by omega
      subst hik2
      rw [hlast hil]
      simp only [if_neg (lt_irrefl a.size)]
      refine ⟨[], by simp, ?_⟩
      simp [attr_bytes]

/-- Under the raw mode (`verbatim_type == 4`) the sub-runs from index `i` of a
well-formed attribute concatenate to the text from offset `i` on. -/
theorem attr_bytes_raw (em : Nat → Nat) (a : MD_ATTRIBUTE) (hwf : a.well_formed) :
    ∀ (n i : Nat), i + n = a.substr_types.length →
      attr_bytes 4 em a n i = (a.text.getD []).drop (a.substr_offsets[i]?.getD 0) := by
  obtain ⟨htx, hsz, hlen, h0, hk, hpw⟩ := hwf
  have hmono := List.pairwise_iff_getElem.mp hpw
  intro n
  induction n with
  | zero =>
    intro i hi
    simp only [Nat.add_zero] at hi
    subst hi
    rw [hk]
    simp [attr_bytes, ← htx]
  | succ n ih =>
    intro i hi
    have hil : i < a.substr_offsets.length := by omega
    have hnext : a.substr_offsets[i] < a.substr_offsets[i + 1] :=
      hmono i (i + 1) hil (by omega) (by omega)
    rw [attr_bytes, ih (i + 1) (by omega)]
    simp only [substr_bytes, if_true, MD_ATTRIBUTE.substr, List.getElem?_eq_getElem hil,
      List.getElem?_eq_getElem (show i + 1 < a.substr_offsets.length by omega),
      Option.getD_some]
    exact (drop_split _ _ _ (le_of_lt hnext)).symm

/-- The function `render_attribute` under the raw mode writes the text of a
well-formed attribute unchanged. -/
theorem render_attribute_raw (fuel : Nat) (r : MD_TEX) (a : MD_ATTRIBUTE)
    (hwf : a.well_formed) (hfuel : a.substr_types.length < fuel) (hv : r.verbatim_type = 4) :
    ∃ ws, render_attribute fuel r a = some { r with sink := r.sink ++ ws } ∧
      ws.flatten = a.text.getD [] := by
  obtain ⟨ws, e, hw⟩ := render_attribute_loop_spec fuel a hwf fuel 0 r (Nat.zero_le _)
    (by omega) (Or.inl hv)
  refine ⟨ws, e, ?_⟩
  rw [hw, hv, Nat.sub_zero, attr_bytes_raw r.escape_map a hwf _ 0 (by omega), hwf.2.2.2.1]
  simp

/-- The function `render_open_a_span` on a well-formed target: `\href{`, the
text of the target unchanged, `}{`; the verbatim mode is 0 afterwards. -/
theorem render_open_a_span_spec (fuel : Nat) (r : MD_TEX) (href : MD_ATTRIBUTE)
    (hwf : href.well_formed) (hk : href.substr_types.length < fuel) :
    ∃ ws, render_open_a_span fuel r href
        = some { r with
            sink := r.sink ++ ([bytes "\\href\x7b"] ++ ws ++ [bytes "\x7d\x7b"]), verbatim_type := 0 } ∧
      ws.flatten = href.text.getD [] := by
  obtain ⟨ws, e, hw⟩ := render_attribute_raw fuel
    { RENDER_VERBATIM r "\\href\x7b" with verbatim_type := 4 } href hwf hk rfl
  refine ⟨ws, ?_, hw⟩
  simp only [render_open_a_span, e]
  simp [RENDER_VERBATIM, render_verbatim]

/-! ## Lemmas: what the handlers leave unchanged -/

theorem sink_ext_refl (r : MD_TEX) : sink_ext r r := ⟨[], by simp⟩

theorem sink_ext_trans {r r1 r2 : MD_TEX} (h1 : sink_ext r r1) (h2 : sink_ext r1 r2) :
    sink_ext r r2 := by
  obtain ⟨ws1, rfl⟩ := h1
  obtain ⟨ws2, rfl⟩ := h2
  exact ⟨ws1 ++ ws2, by simp [List.append_assoc]⟩

theorem sink_ext_verbatim (r : MD_TEX) (w : List Nat) : sink_ext r (render_verbatim r w) :=
  ⟨[w], rfl⟩

theorem sink_ext_literal (r : MD_TEX) (s : String) : sink_ext r (RENDER_VERBATIM r s) :=
  ⟨[bytes s], rfl⟩

theorem sink_ext_switch (r : MD_TEX) (ch : Nat) : sink_ext r (escape_switch r ch) :=
  ⟨switch_writes ch, escape_switch_eq r ch⟩

/-- Whenever the escaper loop returns, it has changed only the sink. -/
theorem escape_loop_frame (inner : Nat) (data : List Nat) (size : Nat) :
    ∀ (fuel : Nat) (r : MD_TEX) (beg off : Nat) (r1 : MD_TEX),
      escape_loop inner data size fuel r beg off = some r1 → sink_ext r r1 := by
  intro fuel
  induction fuel with
  | zero => intro r beg off r1 h; simp [escape_loop] at h
  | succ n ih =>
    intro r beg off r1 h
    unfold escape_loop at h
    cases h4 : scan4 r data size inner off with
    | none => simp [h4] at h
    | some off4 =>
      simp only [h4] at h
      cases h1 : scan1 r data size inner off4 with
      | none => simp [h1] at h
      | some off1 =>
        simp only [h1] at h
        cases hb : (if off1 > beg then
            (slice data beg ((off1 + U32 - beg) % U32)).map (render_verbatim r)
          else some r) with
        | none => simp [hb] at h
        | some rb =>
          simp only [hb] at h
          have hrb : sink_ext r rb := by
            by_cases hgt : off1 > beg
            · rw [if_pos hgt] at hb
              cases hs : slice data beg ((off1 + U32 - beg) % U32) with
              | none => simp [hs] at hb
              | some w =>
                simp only [hs, Option.map_some', Option.some.injEq] at hb
                rw [← hb]
                exact sink_ext_verbatim r w
            · rw [if_neg hgt] at hb
              simp only [Option.some.injEq] at hb
              rw [← hb]
              exact sink_ext_refl r
          by_cases hlt : off1 < size
          · rw [if_pos hlt] at h
            cases hc : data[off1]? with
            | none => simp [hc] at h
            | some ch =>
              simp only [hc] at h
              exact sink_ext_trans hrb (sink_ext_trans (sink_ext_switch rb ch) (ih _ _ _ _ h))
          · rw [if_neg hlt] at h
            simp only [Option.some.injEq] at h
            rw [← h]
            exact hrb

theorem render_substr_frame (fuel : Nat) (r : MD_TEX) (type : MD_TEXTTYPE) (text : List Nat)
    (off size : Nat) (r1 : MD_TEX) (h : render_substr fuel r type text off size = some r1) :
    sink_ext r r1 := by
  unfold render_substr at h
  cases hs : slice text off size with
  | none =>
    rw [hs] at h
    by_cases hv : r.verbatim_type = 4
    · simp [hv] at h
    · rw [if_neg hv] at h
      cases type <;> simp at h
      all_goals (rw [← h]; exact sink_ext_refl r)
  | some w =>
    rw [hs] at h
    have hesc : ∀ r2, (some w).bind (render_tex_escaped fuel r) = some r2 → sink_ext r r2 := by
      intro r2 h2
      exact escape_loop_frame fuel w w.length fuel r 0 0 r2 (by simpa [render_tex_escaped] using h2)
    have hverb : ∀ r2, (some w).map (render_verbatim r) = some r2 → sink_ext r r2 := by
      intro r2 h2
      simp only [Option.map_some', Option.some.injEq] at h2
      rw [← h2]
      exact sink_ext_verbatim r w
    by_cases hv : r.verbatim_type = 4
    · rw [if_pos hv] at h
      exact hverb r1 h
    · rw [if_neg hv] at h
      cases type <;>
        first
        | exact hesc r1 h
        | exact hverb r1 h
        | (simp only [Option.some.injEq] at h
           rw [← h]; exact sink_ext_refl r)

theorem render_attribute_loop_frame (fuel : Nat) (a : MD_ATTRIBUTE) :
    ∀ (n i : Nat) (r r1 : MD_TEX), render_attribute_loop fuel a n i r = some r1 →
      sink_ext r r1 := by
  intro n
  induction n with
  | zero => intro i r r1 h; simp [render_attribute_loop] at h
  | succ n ih =>
    intro i r r1 h
    unfold render_attribute_loop at h
    cases ho : a.substr_offsets[i]? with
    | none => simp [ho] at h
    | some off =>
      simp only [ho] at h
      by_cases hlt : off < a.size
      · rw [if_pos hlt] at h
        cases ht : a.substr_types[i]? with
        | none => simp [ht] at h
        | some type =>
          cases hn : a.substr_offsets[i + 1]? with
          | none => simp [ht, hn] at h
          | some next =>
            simp only [ht, hn] at h
            cases hr : render_substr fuel r type (a.text.getD []) off
                ((next + U32 - off) % U32) with
            | none => simp [hr] at h
            | some r2 =>
              simp only [hr] at h
              exact sink_ext_trans (render_substr_frame _ _ _ _ _ _ _ hr) (ih _ _ _ h)
      · rw [if_neg hlt] at h
        simp only [Option.some.injEq] at h
        rw [← h]
        exact sink_ext_refl r

theorem render_attribute_frame (fuel : Nat) (r : MD_TEX) (a : MD_ATTRIBUTE) (r1 : MD_TEX)
    (h : render_attribute fuel r a = some r1) : sink_ext r r1 :=
  render_attribute_loop_frame fuel a fuel 0 r r1 h

theorem leave_block_frame (type : MD_BLOCKTYPE) (d : Detail) (r : MD_TEX) :
    ∃ r1, leave_block_callback type r = some (0, r1) ∧
      sink_ext (state_after (LeaveBlock type d) r) r1 := by
  cases type
  case MD_BLOCK_P =>
    refine ⟨_, rfl, ?_⟩
    by_cases h : r.list_item_level = 0
    · rw [if_pos h]; exact ⟨[_], rfl⟩
    · rw [if_neg h]; exact ⟨[], by simp [state_after]⟩
  case MD_BLOCK_TH =>
    refine ⟨_, rfl, ?_⟩
    by_cases h : r.table_col_level ≠ 0
    · rw [if_pos h]; exact ⟨[_], rfl⟩
    · rw [if_neg h]; exact ⟨[], by simp [state_after]⟩
  case MD_BLOCK_TD =>
    refine ⟨_, rfl, ?_⟩
    by_cases h : r.table_col_level ≠ 0
    · rw [if_pos h]; exact ⟨[_], rfl⟩
    · rw [if_neg h]; exact ⟨[], by simp [state_after]⟩
  all_goals
    first
    | exact ⟨_, rfl, [_], rfl⟩
    | exact ⟨_, rfl, [], by simp [state_after]⟩

theorem sink_ext_set_verbatim {r r1 : MD_TEX} (v : Int) (h : sink_ext r r1) :
    sink_ext { r with verbatim_type := v } { r1 with verbatim_type := v } := by
  obtain ⟨ws, rfl⟩ := h
  exact ⟨ws, rfl⟩

theorem render_table_cols_frame : ∀ (n : Nat) (r : MD_TEX), sink_ext r (render_table_cols n r)
  | 0, r => sink_ext_refl r
  | n + 1, r =>
    sink_ext_trans (sink_ext_literal r "|l") (render_table_cols_frame n (RENDER_VERBATIM r "|l"))

theorem render_open_table_block_frame (r : MD_TEX) (col_count : Nat) (r1 : MD_TEX)
    (h : render_open_table_block r col_count = some r1) :
    sink_ext { r with table_col_count := (col_count : Int) } r1 := by
  unfold render_open_table_block at h
  by_cases hc : col_count < 2 ^ 31
  · simp only [if_pos hc, Option.some.injEq] at h
    rw [← h]
    refine sink_ext_trans ?_ (sink_ext_trans (render_table_cols_frame col_count _)
      (sink_ext_trans (sink_ext_literal _ _) (sink_ext_literal _ _)))
    exact ⟨[_], rfl⟩
  · simp only [if_neg hc, reduceCtorEq] at h

theorem render_open_code_block_frame (fuel : Nat) (r : MD_TEX) (lang : MD_ATTRIBUTE)
    (r1 : MD_TEX) (h : render_open_code_block fuel r lang = some r1) : sink_ext r r1 := by
  unfold render_open_code_block at h
  by_cases hl : lang.text ≠ none
  · simp only [if_pos hl] at h
    cases ha : render_attribute fuel
        (RENDER_VERBATIM (RENDER_VERBATIM r "\\begin\x7bverbatim\x7d") "[language=") lang with
    | none => simp [ha] at h
    | some r2 =>
      simp only [ha, Option.some.injEq] at h
      rw [← h]
      exact sink_ext_trans (sink_ext_literal _ _) (sink_ext_trans (sink_ext_literal _ _)
        (sink_ext_trans (render_attribute_frame _ _ _ _ ha)
          (sink_ext_trans (sink_ext_literal _ _) (sink_ext_literal _ _))))
  · simp only [if_neg hl, Option.some.injEq] at h
    rw [← h]
    exact sink_ext_trans (sink_ext_literal _ _) (sink_ext_literal _ _)

theorem render_open_a_span_frame (fuel : Nat) (r : MD_TEX) (href : MD_ATTRIBUTE)
    (r1 : MD_TEX) (h : render_open_a_span fuel r href = some r1) :
    sink_ext { r with verbatim_type := 0 } r1 := by
  unfold render_open_a_span at h
  cases ha : render_attribute fuel { RENDER_VERBATIM r "\\href\x7b" with verbatim_type := 4 }
      href with
  | none => simp [ha] at h
  | some r2 =>
    simp only [ha, Option.some.injEq] at h
    rw [← h]
    have h2 := sink_ext_set_verbatim 0 (render_attribute_frame _ _ _ _ ha)
    refine sink_ext_trans ?_ (sink_ext_trans h2 (sink_ext_literal _ _))
    exact ⟨[_], rfl⟩

theorem render_open_img_span_frame (fuel : Nat) (r : MD_TEX) (src : MD_ATTRIBUTE)
    (r1 : MD_TEX) (h : render_open_img_span fuel r src = some r1) : sink_ext r r1 := by
  unfold render_open_img_span at h
  cases ha : render_attribute fuel
      (RENDER_VERBATIM (RENDER_VERBATIM r "\\begin\x7bfigure\x7d[H]\n") "\\image\x7b") src with
  | none => simp [ha] at h
  | some r2 =>
    simp only [ha, Option.some.injEq] at h
    rw [← h]
    exact sink_ext_trans (sink_ext_literal _ _) (sink_ext_trans (sink_ext_literal _ _)
      (sink_ext_trans (render_attribute_frame _ _ _ _ ha) (sink_ext_literal _ _)))

theorem render_close_img_span_frame (fuel : Nat) (r : MD_TEX) (title : MD_ATTRIBUTE)
    (r1 : MD_TEX) (h : render_close_img_span fuel r title = some r1) : sink_ext r r1 := by
  unfold render_close_img_span at h
  by_cases hl : title.text ≠ none
  · simp only [if_pos hl] at h
    cases ha : render_attribute fuel
        (RENDER_VERBATIM (RENDER_VERBATIM r "\x7d\n") "\\caption\x7b") title with
    | none => simp [ha] at h
    | some r2 =>
      simp only [ha, Option.some.injEq] at h
      rw [← h]
      exact sink_ext_trans (sink_ext_literal _ _) (sink_ext_trans (sink_ext_literal _ _)
        (sink_ext_trans (render_attribute_frame _ _ _ _ ha)
          (sink_ext_trans (sink_ext_literal _ _) (sink_ext_literal _ _))))
  · simp only [if_neg hl, Option.some.injEq] at h
    rw [← h]
    exact sink_ext_trans (sink_ext_literal _ _) (sink_ext_literal _ _)

theorem text_callback_frame (fuel : Nat) (type : MD_TEXTTYPE) (text : List Nat)
    (r : MD_TEX) (p : Int × MD_TEX) (h : text_callback fuel type text r = some p) :
    p.1 = 0 ∧ sink_ext r p.2 := by
  unfold text_callback at h
  by_cases hv : r.verbatim_type ≠ 0
  · simp only [if_pos hv, Option.some.injEq] at h
    rw [← h]
    exact ⟨rfl, sink_ext_verbatim _ _⟩
  · rw [if_neg hv] at h
    have hesc : ∀ q, (match render_tex_escaped fuel r text with
        | some r => some ((0 : Int), r)
        | none => none) = some q → q.1 = 0 ∧ sink_ext r q.2 := by
      intro q hq
      cases he : render_tex_escaped fuel r text with
      | none => simp [he] at hq
      | some r2 =>
        simp only [he, Option.some.injEq] at hq
        rw [← hq]
        exact ⟨rfl, escape_loop_frame _ _ _ _ _ _ _ _ he⟩
    cases type <;>
      first
      | exact hesc p h
      | (simp only [Option.some.injEq] at h
         rw [← h]
         first
         | exact ⟨rfl, sink_ext_refl _⟩
         | exact ⟨rfl, sink_ext_verbatim _ _⟩)

theorem enter_block_frame (fuel : Nat) (type : MD_BLOCKTYPE) (d : Detail) (r : MD_TEX)
    (p : Int × MD_TEX) (h : enter_block_callback fuel type d r = some p) :
    p.1 = 0 ∧ sink_ext (state_after (EnterBlock type d) r) p.2 := by
  cases type
  case MD_BLOCK_H =>
    cases d
    case H level =>
      have h1 := h
      unfold enter_block_callback at h1
      dsimp only at h1
      cases hh : head[(U32 + level - 1) % U32]? with
      | none => rw [hh] at h1; exact Option.noConfusion h1
      | some s =>
        rw [hh] at h1
        rw [← Option.some.inj h1]
        exact ⟨rfl, sink_ext_literal _ _⟩
    all_goals exact Option.noConfusion h
  case MD_BLOCK_CODE =>
    cases d
    case CODE lang =>
      have h1 := h
      unfold enter_block_callback at h1
      dsimp only at h1
      cases hh : render_open_code_block fuel r lang with
      | none => rw [hh] at h1; exact Option.noConfusion h1
      | some r2 =>
        rw [hh] at h1
        rw [← Option.some.inj h1]
        exact ⟨rfl, sink_ext_set_verbatim 1 (render_open_code_block_frame _ _ _ _ hh)⟩
    all_goals exact Option.noConfusion h
  case MD_BLOCK_TABLE =>
    cases d
    case TABLE col_count =>
      have h1 := h
      unfold enter_block_callback at h1
      dsimp only at h1
      cases hh : render_open_table_block r col_count with
      | none => rw [hh] at h1; exact Option.noConfusion h1
      | some r2 =>
        rw [hh] at h1
        rw [← Option.some.inj h1]
        exact ⟨rfl, render_open_table_block_frame _ _ _ hh⟩
    all_goals exact Option.noConfusion h
  all_goals
    have h1 := Option.some.inj h
    rw [← h1]
    first
    | exact ⟨rfl, [_], rfl⟩
    | exact ⟨rfl, [], by simp [state_after]⟩

theorem enter_span_frame (fuel : Nat) (type : MD_SPANTYPE) (d : Detail) (r : MD_TEX)
    (p : Int × MD_TEX) (h : enter_span_calback fuel type d r = some p) :
    p.1 = 0 ∧ sink_ext (state_after (EnterSpan type d) r) p.2 := by
  cases type
  case MD_SPAN_A =>
    cases d
    case A href =>
      have h1 := h
      unfold enter_span_calback at h1
      dsimp only at h1
      cases hh : render_open_a_span fuel r href with
      | none => rw [hh] at h1; exact Option.noConfusion h1
      | some r2 =>
        rw [hh] at h1
        rw [← Option.some.inj h1]
        exact ⟨rfl, render_open_a_span_frame _ _ _ _ hh⟩
    all_goals exact Option.noConfusion h
  case MD_SPAN_IMG =>
    cases d
    case IMG src title =>
      have h1 := h
      unfold enter_span_calback at h1
      dsimp only at h1
      cases hh : render_open_img_span fuel r src with
      | none => rw [hh] at h1; exact Option.noConfusion h1
      | some r2 =>
        rw [hh] at h1
        rw [← Option.some.inj h1]
        exact ⟨rfl, render_open_img_span_frame _ _ _ _ hh⟩
    all_goals exact Option.noConfusion h
  all_goals
    have h1 := Option.some.inj h
    rw [← h1]
    first
    | exact ⟨rfl, [_], rfl⟩
    | exact ⟨rfl, [], by simp [state_after]⟩

theorem leave_span_frame (fuel : Nat) (type : MD_SPANTYPE) (d : Detail) (r : MD_TEX)
    (p : Int × MD_TEX) (h : leave_span_calback fuel type d r = some p) :
    p.1 = 0 ∧ sink_ext (state_after (LeaveSpan type d) r) p.2 := by
  cases type
  case MD_SPAN_IMG =>
    cases d
    case IMG src title =>
      have h1 := h
      unfold leave_span_calback at h1
      dsimp only at h1
      cases hh : render_close_img_span fuel r title with
      | none => rw [hh] at h1; exact Option.noConfusion h1
      | some r2 =>
        rw [hh] at h1
        rw [← Option.some.inj h1]
        exact ⟨rfl, render_close_img_span_frame _ _ _ _ hh⟩
    all_goals exact Option.noConfusion h
  all_goals
    have h1 := Option.some.inj h
    rw [← h1]
    first
    | exact ⟨rfl, [_], rfl⟩
    | exact ⟨rfl, [], by simp [state_after]⟩

/-- Whenever the handler of an event returns, it returns 0 and the render
record is `state_after` with more writes in the sink. -/
theorem dispatch_frame (fuel : Nat) (e : Event) (r : MD_TEX) (p : Int × MD_TEX)
    (h : dispatch fuel e r = some p) : p.1 = 0 ∧ sink_ext (state_after e r) p.2 := by
  cases e with
  | EnterBlock type d => exact enter_block_frame fuel type d r p h
  | LeaveBlock type d =>
    obtain ⟨r1, e1, hs⟩ := leave_block_frame type d r
    have h1 : leave_block_callback type r = some p := h
    rw [e1] at h1
    rw [← Option.some.inj h1]
    exact ⟨rfl, hs⟩
  | EnterSpan type d => exact enter_span_frame fuel type d r p h
  | LeaveSpan type d => exact leave_span_frame fuel type d r p h
  | Text type text =>
    have h1 := text_callback_frame fuel type text r p h
    cases type <;> exact h1

/-! ## Lemmas: lists and paragraph breaks -/

theorem state_after_next_table_col_level (r : MD_TEX) :
    (next_table_col r).list_item_level = r.list_item_level := by
  unfold next_table_col
  dsimp only
  split <;> rfl

theorem state_after_list_level (e : Event) (r : MD_TEX) (h : list_event e = false) :
    (state_after e r).list_item_level = r.list_item_level := by
  cases e with
  | EnterBlock type d =>
    cases type <;>
      first
      | rfl
      | exact state_after_next_table_col_level r
      | (cases d <;> rfl)
      | exact Bool.noConfusion h
  | LeaveBlock type d =>
    cases type <;> first | rfl | exact Bool.noConfusion h
  | EnterSpan type d => cases type <;> rfl
  | LeaveSpan type d => cases type <;> rfl
  | Text type text => rfl

/-- While events are processed from a record whose `list_item_level` is 0 when
no list is open, `list_item_level` is 0 whenever no list is open. -/
theorem list_level_zero_outside_lists (fuel : Nat) :
    ∀ (es : List Event) (st st1 : List Frame) (r r1 : MD_TEX),
      nesting es st = some st1 → run_events fuel es r = some r1 →
      (no_list st → r.list_item_level = 0) → no_list st1 → r1.list_item_level = 0 := by
  intro es
  induction es with
  | nil =>
    intro st st1 r r1 hn hr h0 h1
    simp only [nesting, Option.some.injEq] at hn
    simp only [run_events, Option.some.injEq] at hr
    subst hn; subst hr
    exact h0 h1
  | cons e es ih =>
    intro st st1 r r1 hn hr h0 h1
    unfold run_events at hr
    cases hd : dispatch fuel e r with
    | none => rw [hd] at hr; exact Option.noConfusion hr
    | some p =>
      obtain ⟨ret, r2⟩ := p
      rw [hd] at hr
      obtain ⟨hret, ws, hr2⟩ := dispatch_frame fuel e r (ret, r2) hd
      simp only at hret hr2
      replace hr : run_events fuel es r2 = some r1 := by simpa [hret] using hr
      have hlvl : r2.list_item_level = (state_after e r).list_item_level := by rw [hr2]
      cases e with
      | EnterBlock type d =>
        have hn1 : nesting es (Frame.block type :: st) = some st1 := hn
        refine ih _ _ _ _ hn1 hr ?_ h1
        intro hnl
        have hne : type ≠ MD_BLOCK_UL ∧ type ≠ MD_BLOCK_OL := by
          constructor
          · intro ht; subst ht; exact hnl.1 (List.mem_cons_self _ _)
          · intro ht; subst ht; exact hnl.2 (List.mem_cons_self _ _)
        have hst : no_list st :=
          ⟨fun hm => hnl.1 (List.mem_cons_of_mem _ hm), fun hm => hnl.2 (List.mem_cons_of_mem _ hm)⟩
        rw [hlvl, state_after_list_level _ _ (by
          cases type <;> first | rfl | exact absurd rfl hne.1 | exact absurd rfl hne.2)]
        exact h0 hst
      | EnterSpan type d =>
        have hn1 : nesting es (Frame.span type :: st) = some st1 := hn
        refine ih _ _ _ _ hn1 hr ?_ h1
        intro hnl
        have hst : no_list st :=
          ⟨fun hm => hnl.1 (List.mem_cons_of_mem _ hm), fun hm => hnl.2 (List.mem_cons_of_mem _ hm)⟩
        rw [hlvl, state_after_list_level (EnterSpan type d) r rfl]
        exact h0 hst
      | LeaveBlock type d =>
        cases st with
        | nil => exact Option.noConfusion hn
        | cons f st2 =>
          cases f with
          | span t => exact Option.noConfusion hn
          | block t =>
            have hn0 : (if t = type then nesting es st2 else none) = some st1 := hn
            by_cases ht : t = type
            · rw [if_pos ht] at hn0
              subst ht
              refine ih _ _ _ _ hn0 hr ?_ h1
              intro hnl
              by_cases hl : list_event (LeaveBlock t d) = true
              · rw [hlvl]
                cases t <;> first | rfl | exact Bool.noConfusion hl
              · have hl1 : list_event (LeaveBlock t d) = false := by
                  simpa using hl
                rw [hlvl, state_after_list_level _ _ hl1]
                apply h0
                have hne : Frame.block t ≠ Frame.block MD_BLOCK_UL ∧
                    Frame.block t ≠ Frame.block MD_BLOCK_OL := by
                  cases t <;> first | exact ⟨by decide, by decide⟩ | exact absurd rfl hl
                exact ⟨fun hm => (List.mem_cons.mp hm).elim (fun he => hne.1 he.symm) hnl.1,
                  fun hm => (List.mem_cons.mp hm).elim (fun he => hne.2 he.symm) hnl.2⟩
            · rw [if_neg ht] at hn0
              exact Option.noConfusion hn0
      | LeaveSpan type d =>
        cases st with
        | nil => exact Option.noConfusion hn
        | cons f st2 =>
          cases f with
          | block t => exact Option.noConfusion hn
          | span t =>
            have hn0 : (if t = type then nesting es st2 else none) = some st1 := hn
            by_cases ht : t = type
            · rw [if_pos ht] at hn0
              refine ih _ _ _ _ hn0 hr ?_ h1
              intro hnl
              rw [hlvl, state_after_list_level (LeaveSpan type d) r rfl]
              apply h0
              exact ⟨fun hm => (List.mem_cons.mp hm).elim (fun he => Frame.noConfusion he) hnl.1,
                fun hm => (List.mem_cons.mp hm).elim (fun he => Frame.noConfusion he) hnl.2⟩
            · rw [if_neg ht] at hn0
              exact Option.noConfusion hn0
      | Text type text =>
        cases st with
        | nil => exact Option.noConfusion hn
        | cons f st2 =>
          have hn0 : nesting es (f :: st2) = some st1 := hn
          refine ih _ _ _ _ hn0 hr ?_ h1
          intro hnl
          rw [hlvl, state_after_list_level (Text type text) r rfl]
          exact h0 hnl

theorem par_events_run (r0 : MD_TEX) :
    run_events 0 par_events r0
      = some { r0 with sink := r0.sink ++ par_writes, list_item_level := 0 } := by
  unfold par_events
  iterate 10 refine Eq.trans (run_events_cons 0 _ _ _ _ (by rfl)) ?_
  simp [run_events, RENDER_VERBATIM, render_verbatim, par_writes]

/-! ## Lemmas: tables -/

theorem run_checked_cons (fuel : Nat) (e : Event) (es : List Event) (r r1 : MD_TEX)
    (h : dispatch fuel e r = some (0, r1)) (hq : row_end_ok e r1 = true) :
    run_checked fuel (e :: es) r = run_checked fuel es r1 := by
  simp [run_checked, h, hq]

theorem run_checked_append (fuel : Nat) (es1 es2 : List Event) (r r1 : MD_TEX)
    (h : run_checked fuel es1 r = some r1) :
    run_checked fuel (es1 ++ es2) r = run_checked fuel es2 r1 := by
  induction es1 generalizing r with
  | nil => simp [run_checked] at h; subst h; rfl
  | cons e es ih =>
    simp only [run_checked, List.cons_append] at h ⊢
    cases hd : dispatch fuel e r with
    | none => simp [hd] at h
    | some p =>
      obtain ⟨ret, r2⟩ := p
      simp only [hd] at h ⊢
      by_cases h0 : ret = 0 ∧ row_end_ok e r2 = true
      · simp only [h0, and_self, if_true] at h ⊢
        exact ih r2 h
      · simp [h0] at h

/-- A checked run is a run. -/
theorem run_events_of_checked (fuel : Nat) (es : List Event) (r r1 : MD_TEX)
    (h : run_checked fuel es r = some r1) : run_events fuel es r = some r1 := by
  induction es generalizing r with
  | nil => simpa [run_checked, run_events] using h
  | cons e es ih =>
    simp only [run_checked, run_events] at h ⊢
    cases hd : dispatch fuel e r with
    | none => simp [hd] at h
    | some p =>
      obtain ⟨ret, r2⟩ := p
      simp only [hd] at h ⊢
      by_cases h0 : ret = 0 ∧ row_end_ok e r2 = true
      · simp only [h0, and_self, if_true] at h
        simp only [h0.1, if_true]
        exact ih r2 h
      · simp [h0] at h

theorem switch_writes_head (ch : Nat) : ∀ w ∈ switch_writes ch, w.head? = some 92 := by
  unfold switch_writes
  by_cases h0 : ch = '~'.toNat
  · rw [if_pos h0]; intro w hw; rw [List.mem_singleton.mp hw]; decide
  rw [if_neg h0]
  by_cases h1 : ch = '^'.toNat
  · rw [if_pos h1]; intro w hw; rw [List.mem_singleton.mp hw]; decide
  rw [if_neg h1]
  by_cases h2 : ch = '#'.toNat
  · rw [if_pos h2]; intro w hw; rw [List.mem_singleton.mp hw]; decide
  rw [if_neg h2]
  by_cases h3 : ch = '$'.toNat
  · rw [if_pos h3]; intro w hw; rw [List.mem_singleton.mp hw]; decide
  rw [if_neg h3]
  by_cases h4 : ch = '%'.toNat
  · rw [if_pos h4]; intro w hw; rw [List.mem_singleton.mp hw]; decide
  rw [if_neg h4]
  by_cases h5 : ch = '&'.toNat
  · rw [if_pos h5]; intro w hw; rw [List.mem_singleton.mp hw]; decide
  rw [if_neg h5]
  by_cases h6 : ch = '{'.toNat
  · rw [if_pos h6]; intro w hw; rw [List.mem_singleton.mp hw]; decide
  rw [if_neg h6]
  by_cases h7 : ch = '}'.toNat
  · rw [if_pos h7]; intro w hw; rw [List.mem_singleton.mp hw]; decide
  rw [if_neg h7]
  by_cases h8 : ch = '_'.toNat
  · rw [if_pos h8]; intro w hw; rw [List.mem_singleton.mp hw]; decide
  rw [if_neg h8]
  by_cases h9 : ch = '\\'.toNat
  · rw [if_pos h9]; intro w hw; rw [List.mem_singleton.mp hw]; decide
  rw [if_neg h9]
  simp

/-- No write of the escaper, under the table of `md_tex`, is a column
separator or a row terminator. -/
theorem escaper_write_not_table (w : List Nat)
    (h : escaper_write md_tex_init.escape_map w) : w ≠ col_sep ∧ w ≠ row_term := by
  obtain ⟨-, h | ⟨ch, hch⟩⟩ := h
  · constructor
    · intro e
      have h38 := h 38 (by rw [e]; decide)
      rw [md_tex_flag 38] at h38
      exact absurd h38 (by decide)
    · intro e
      have h92 := h 92 (by rw [e]; decide)
      rw [md_tex_flag 92] at h92
      exact absurd h92 (by decide)
  · have hh := switch_writes_head ch w hch
    constructor
    · intro e; rw [e] at hh; exact absurd hh (by decide)
    · intro e; rw [e] at hh; exact absurd hh (by decide)

/-- The text runs of a cell, outside every verbatim mode: each goes through
the escaper; no write is a separator or a terminator. -/
theorem texts_run (fuel : Nat) :
    ∀ (ts : List (List Nat)) (r : MD_TEX), r.verbatim_type = 0 →
      r.escape_map = md_tex_init.escape_map →
      (∀ t ∈ ts, t.length + 3 < U32 ∧ t.length < fuel) →
      ∃ ws, run_checked fuel (ts.map (Text MD_TEXT_NORMAL)) r
          = some { r with sink := r.sink ++ ws } ∧
        ws.flatten = (ts.map (escape_per_byte md_tex_init.escape_map)).flatten ∧
        ws.count col_sep = 0 ∧ ws.count row_term = 0 := by
  intro ts
  induction ts with
  | nil =>
    intro r _ _ _
    exact ⟨[], by simp [run_checked], rfl, rfl, rfl⟩
  | cons t ts ih =>
    intro r hv hem hts
    obtain ⟨ht1, ht2⟩ := hts t (List.mem_cons_self _ _)
    obtain ⟨ws1, e1, hw1, hesc⟩ := text_callback_normal fuel r t hv ht1 ht2
    have hd : dispatch fuel (Text MD_TEXT_NORMAL t) r
        = some (0, { r with sink := r.sink ++ ws1 }) := e1
    obtain ⟨ws2, e2, hw2, hc2, ht2⟩ := ih { r with sink := r.sink ++ ws1 } hv hem
      (fun t1 h1 => hts t1 (List.mem_cons_of_mem _ h1))
    refine ⟨ws1 ++ ws2, ?_, ?_, ?_, ?_⟩
    · rw [List.map_cons, run_checked_cons fuel _ _ _ _ hd rfl, e2]
      simp [List.append_assoc]
    · rw [List.flatten_append, hw1, hw2, hem]
      simp
    · rw [List.count_append, hc2, Nat.add_zero, List.count_eq_zero]
      intro hm
      exact (escaper_write_not_table _ (hem ▸ hesc _ hm)).1 rfl
    · rw [List.count_append, ht2, Nat.add_zero, List.count_eq_zero]
      intro hm
      exact (escaper_write_not_table _ (hem ▸ hesc _ hm)).2 rfl

theorem next_table_col_spec (n j : Nat) (r : MD_TEX) (hinv : table_inv n r)
    (hl : r.table_col_level = (j : Int)) :
    table_step n r (next_table_col r) [] (if j + 1 = n then 0 else (j : Int) + 1) := by
  obtain ⟨hv, hem, hc⟩ := hinv
  unfold next_table_col table_step table_inv
  dsimp only
  by_cases h : j + 1 = n
  · have h1 : r.table_col_level + 1 = r.table_col_count := by rw [hl, hc]; omega
    rw [if_pos h1, if_pos h]
    simp [hv, hem, hc]
  · have h1 : ¬ r.table_col_level + 1 = r.table_col_count := by rw [hl, hc]; omega
    rw [if_neg h1, if_neg h]
    simp [hv, hem, hc, hl]

/-- One cell at column `j` of a row of `n` columns: the content, then a
separator unless the cell is the last of the row. -/
theorem cell_run (fuel n : Nat) (c : Cell) (j : Nat) (r : MD_TEX) (hinv : table_inv n r)
    (hl : r.table_col_level = (j : Int))
    (hts : ∀ t ∈ c.2, t.length + 3 < U32 ∧ t.length < fuel) :
    ∃ r1 ws, run_checked fuel (cell_events c) r = some r1 ∧
      table_step n r r1 ws (if j + 1 = n then 0 else (j : Int) + 1) ∧
      ws.flatten = cell_output md_tex_init.escape_map c ++ (if j + 1 = n then [] else col_sep) ∧
      ws.count col_sep = (if j + 1 = n then 0 else 1) ∧ ws.count row_term = 0 := by
  obtain ⟨hs1, hl1, hinv1⟩ := next_table_col_spec n j r hinv hl
  have hd1 : dispatch fuel (EnterBlock (cell_type c.1) Detail.null) r
      = some (0, next_table_col r) := by
    cases c.1 <;> rfl
  obtain ⟨wt, et, hwt, hct, htt⟩ := texts_run fuel c.2 (next_table_col r) hinv1.1 hinv1.2.1 hts
  have hd3 : ∀ r2 : MD_TEX, dispatch fuel (LeaveBlock (cell_type c.1) Detail.null) r2
      = some (0, if r2.table_col_level ≠ 0 then RENDER_VERBATIM r2 " & " else r2) := by
    intro r2
    cases c.1 <;> rfl
  have hq3 : ∀ r2 : MD_TEX, row_end_ok (LeaveBlock (cell_type c.1) Detail.null) r2 = true := by
    intro r2
    cases c.1 <;> rfl
  have hrun : run_checked fuel (cell_events c) r
      = some (if ({ next_table_col r with sink := (next_table_col r).sink ++ wt } : MD_TEX).table_col_level ≠ 0
          then RENDER_VERBATIM { next_table_col r with sink := (next_table_col r).sink ++ wt } " & "
          else { next_table_col r with sink := (next_table_col r).sink ++ wt }) := by
    unfold cell_events
    rw [run_checked_cons fuel _ _ _ _ hd1 rfl, run_checked_append fuel _ _ _ _ et,
      run_checked_cons fuel _ _ _ _ (hd3 _) (hq3 _)]
    rfl
  rw [hrun]
  have hs1a : (next_table_col r).sink = r.sink := by simpa using hs1
  have hinv1a : table_inv n { next_table_col r with sink := (next_table_col r).sink ++ wt } :=
    hinv1
  by_cases h : j + 1 = n
  · have hz : (next_table_col r).table_col_level = 0 := hl1.trans (if_pos h)
    simp only [hz, ne_eq, not_true_eq_false, if_false, if_pos h]
    refine ⟨_, wt, rfl, ⟨by simp [hs1a], rfl, ?_⟩, ?_, hct, htt⟩
    · simpa [hz] using hinv1a
    · rw [hwt]; simp [cell_output]
  · have hz : (next_table_col r).table_col_level = (j : Int) + 1 := hl1.trans (if_neg h)
    have hne : ¬ ((j : Int) + 1 = 0) := by omega
    simp only [hz, ne_eq, hne, not_false_eq_true, if_true, if_neg h]
    refine ⟨_, wt ++ [col_sep], rfl, ⟨?_, rfl, ?_⟩, ?_, ?_, ?_⟩
    · simp [RENDER_VERBATIM, render_verbatim, col_sep, hs1a, List.append_assoc]
    · simpa [hz, RENDER_VERBATIM, render_verbatim, table_inv] using hinv1a
    · rw [List.flatten_append, hwt]; simp [cell_output]
    · rw [List.count_append, hct]; simp
    · rw [List.count_append, htt]; decide

theorem table_step_trans {n : Nat} {r r1 r2 : MD_TEX} {ws1 ws2 : List (List Nat)} {l1 l2 : Int}
    (h1 : table_step n r r1 ws1 l1) (h2 : table_step n r1 r2 ws2 l2) :
    table_step n r r2 (ws1 ++ ws2) l2 :=
  ⟨by rw [h2.1, h1.1, List.append_assoc], h2.2.1, h2.2.2⟩

/-- The cells of a row from column `j` on: a separator between consecutive
cells, none after the last, and `table_col_level` is 0 afterwards. -/
theorem cells_run (fuel n : Nat) :
    ∀ (cells : List Cell) (j : Nat) (r : MD_TEX), table_inv n r →
      r.table_col_level = (if j = n then 0 else (j : Int)) → j + cells.length = n →
      (∀ c ∈ cells, ∀ t ∈ c.2, t.length + 3 < U32 ∧ t.length < fuel) →
      ∃ r1 ws, run_checked fuel (cells.map cell_events).flatten r = some r1 ∧
        table_step n r r1 ws 0 ∧
        ws.flatten = List.intercalate col_sep (cells.map (cell_output md_tex_init.escape_map)) ∧
        ws.count col_sep = cells.length - 1 ∧ ws.count row_term = 0 := by
  intro cells
  induction cells with
  | nil =>
    intro j r hinv hl hlen _
    have hj : j = n := by simpa using hlen
    rw [if_pos hj] at hl
    exact ⟨r, [], rfl, ⟨by simp, hl, hinv⟩, rfl, rfl, rfl⟩
  | cons c rest ih =>
    intro j r hinv hl hlen hts
    have hjn : j ≠ n := by
      simp only [List.length_cons] at hlen; omega
    rw [if_neg hjn] at hl
    obtain ⟨ra, wa, ea, hsa, hfa, hca, hta⟩ := cell_run fuel n c j r hinv hl
      (hts c (List.mem_cons_self _ _))
    have hla : ra.table_col_level = (if j + 1 = n then 0 else ((j + 1 : Nat) : Int)) := by
      rw [hsa.2.1]; push_cast; rfl
    obtain ⟨rb, wb, eb, hsb, hfb, hcb, htb⟩ := ih (j + 1) ra hsa.2.2 hla
      (by simp only [List.length_cons] at hlen; omega)
      (fun c1 h1 => hts c1 (List.mem_cons_of_mem _ h1))
    refine ⟨rb, wa ++ wb, ?_, table_step_trans hsa hsb, ?_, ?_, ?_⟩
    · rw [List.map_cons, List.flatten_cons, run_checked_append fuel _ _ _ _ ea, eb]
    · rw [List.flatten_append, hfa, hfb]
      cases rest with
      | nil =>
        have : j + 1 = n := by simpa using hlen
        simp [this, List.intercalate]
      | cons c2 rest2 =>
        have : ¬ j + 1 = n := by
          simp only [List.length_cons] at hlen; omega
        simp [this, List.intercalate, List.append_assoc]
    · rw [List.count_append, hca, hcb]
      cases rest with
      | nil =>
        have : j + 1 = n := by simpa using hlen
        simp [this]
      | cons c2 rest2 =>
        have : ¬ j + 1 = n := by
          simp only [List.length_cons] at hlen; omega
        simp only [if_neg this, List.length_cons]; omega
    · rw [List.count_append, hta, htb]

/-- One row of `n` cells, from a record with `table_col_level` 0: `n - 1`
separators, one terminator, and `table_col_level` is 0 at the leave event. -/
theorem row_run (fuel n : Nat) (row : List Cell) (r : MD_TEX) (hinv : table_inv n r)
    (hl : r.table_col_level = 0) (hlen : row.length = n)
    (hts : ∀ c ∈ row, ∀ t ∈ c.2, t.length + 3 < U32 ∧ t.length < fuel) :
    ∃ r1 ws, run_checked fuel (row_events row) r = some r1 ∧
      table_step n r r1 ws 0 ∧
      ws.flatten = row_output md_tex_init.escape_map row ∧
      ws.count col_sep = n - 1 ∧ ws.count row_term = 1 := by
  have hl0 : r.table_col_level = (if 0 = n then 0 else ((0 : Nat) : Int)) := by
    rw [hl]; split <;> rfl
  obtain ⟨ra, wa, ea, hsa, hfa, hca, hta⟩ := cells_run fuel n row 0 r hinv hl0
    (by omega) hts
  have hd1 : dispatch fuel (EnterBlock MD_BLOCK_TR Detail.null) r = some (0, r) := rfl
  have hd3 : dispatch fuel (LeaveBlock MD_BLOCK_TR Detail.null) ra
      = some (0, RENDER_VERBATIM ra " \\\\\n\\hline\n") := rfl
  have hq3 : row_end_ok (LeaveBlock MD_BLOCK_TR Detail.null)
      (RENDER_VERBATIM ra " \\\\\n\\hline\n") = true := by
    show decide (ra.table_col_level = 0) = true
    rw [hsa.2.1]; rfl
  refine ⟨RENDER_VERBATIM ra " \\\\\n\\hline\n", wa ++ [row_term], ?_, ?_, ?_, ?_, ?_⟩
  · unfold row_events
    rw [run_checked_cons fuel _ _ _ _ hd1 rfl, run_checked_append fuel _ _ _ _ ea,
      run_checked_cons fuel _ _ _ _ hd3 hq3]
    rfl
  · exact table_step_trans hsa ⟨rfl, hsa.2.1, hsa.2.2⟩
  · rw [List.flatten_append, hfa]; simp [row_output]
  · rw [List.count_append, hca, hlen]
    have : List.count col_sep [row_term] = 0 := by decide
    rw [this]; rfl
  · rw [List.count_append, hta]
    have : List.count row_term [row_term] = 1 := by decide
    rw [this]

/-- Rows of `n` cells each, from a record with `table_col_level` 0. -/
theorem rows_run (fuel n : Nat) :
    ∀ (rows : List (List Cell)) (r : MD_TEX), table_inv n r → r.table_col_level = 0 →
      (∀ row ∈ rows, row.length = n) →
      (∀ row ∈ rows, ∀ c ∈ row, ∀ t ∈ c.2, t.length + 3 < U32 ∧ t.length < fuel) →
      ∃ r1 ws, run_checked fuel (rows.map row_events).flatten r = some r1 ∧
        table_step n r r1 ws 0 ∧
        ws.flatten = (rows.map (row_output md_tex_init.escape_map)).flatten ∧
        ws.count col_sep = rows.length * (n - 1) ∧ ws.count row_term = rows.length := by
  intro rows
  induction rows with
  | nil =>
    intro r hinv hl _ _
    exact ⟨r, [], rfl, ⟨by simp, hl, hinv⟩, rfl, by simp, rfl⟩
  | cons row rest ih =>
    intro r hinv hl hlen hts
    obtain ⟨ra, wa, ea, hsa, hfa, hca, hta⟩ := row_run fuel n row r hinv hl
      (hlen row (List.mem_cons_self _ _)) (hts row (List.mem_cons_self _ _))
    obtain ⟨rb, wb, eb, hsb, hfb, hcb, htb⟩ := ih ra hsa.2.2 hsa.2.1
      (fun x hx => hlen x (List.mem_cons_of_mem _ hx))
      (fun x hx => hts x (List.mem_cons_of_mem _ hx))
    refine ⟨rb, wa ++ wb, ?_, table_step_trans hsa hsb, ?_, ?_, ?_⟩
    · rw [List.map_cons, List.flatten_cons, run_checked_append fuel _ _ _ _ ea, eb]
    · rw [List.flatten_append, hfa, hfb]; simp
    · rw [List.count_append, hca, hcb, List.length_cons, Nat.succ_mul, Nat.add_comm]
    · rw [List.count_append, hta, htb, List.length_cons, Nat.add_comm]

theorem render_table_cols_eq : ∀ (n : Nat) (r : MD_TEX),
    render_table_cols n r = { r with sink := r.sink ++ List.replicate n (bytes "|l") }
  | 0, r => by simp [render_table_cols]
  | n + 1, r => by
    rw [render_table_cols, render_table_cols_eq n]
    simp [RENDER_VERBATIM, render_verbatim, List.replicate_succ, List.append_assoc]

/-- The function `render_open_table_block` for a column count that fits `int`:
it stores the count and writes the opening construct, one `|l` per column,
and the rule. -/
theorem render_open_table_block_spec (r : MD_TEX) (n : Nat) (hn : n < 2 ^ 31) :
    render_open_table_block r n
      = some { r with sink := r.sink ++ table_open_writes n, table_col_count := (n : Int) } := by
  unfold render_open_table_block
  simp only [if_pos hn, render_table_cols_eq]
  simp [RENDER_VERBATIM, render_verbatim, table_open_writes, List.append_assoc]

theorem table_open_writes_flatten (n : Nat) :
    (table_open_writes n).flatten = table_open_output n := by
  have e : bytes "|\x7d\n\\hline\n" = bytes "|\x7d\n" ++ bytes "\\hline\n" := by decide
  simp [table_open_writes, table_open_output, e, List.append_assoc]

theorem table_open_writes_count (n : Nat) :
    (table_open_writes n).count col_sep = 0 ∧ (table_open_writes n).count row_term = 0 := by
  constructor <;>
  · rw [List.count_eq_zero]
    intro hm
    simp only [table_open_writes, List.mem_cons, List.mem_append, List.mem_replicate,
      List.mem_singleton, List.not_mem_nil, or_false] at hm
    rcases hm with h | ⟨-, h⟩ | h | h <;> exact absurd h (by decide)

/-- The events of a table from any record with an empty sink,
`table_col_level` 0, no verbatim mode and the escape table of `md_tex`. -/
theorem table_run_any (fuel n : Nat) (hd body : List (List Cell)) (r0 : MD_TEX)
    (hs0 : r0.sink = []) (hl0 : r0.table_col_level = 0) (hv0 : r0.verbatim_type = 0)
    (hem0 : r0.escape_map = md_tex_init.escape_map)
    (hn2 : n < 2 ^ 31) (hrows : ∀ row ∈ hd ++ body, row.length = n)
    (htexts : ∀ row ∈ hd ++ body, ∀ c ∈ row, ∀ t ∈ c.2, t.length + 3 < U32 ∧ t.length < fuel) :
    ∃ r, run_checked fuel (table_events n hd body) r0 = some r ∧
      run_events fuel (table_events n hd body) r0 = some r ∧
      r.sink.count row_term = hd.length + body.length ∧
      r.sink.count col_sep = (hd.length + body.length) * (n - 1) ∧
      r.table_col_level = 0 ∧
      output r = table_open_output n
        ++ ((hd ++ body).map (row_output md_tex_init.escape_map)).flatten
        ++ bytes "\\end\x7btabular\x7d\n" := by
  -- entering the table
  have hd1 : dispatch fuel (EnterBlock MD_BLOCK_TABLE (Detail.TABLE n)) r0
      = some (0, { r0 with
          sink := r0.sink ++ table_open_writes n, table_col_count := (n : Int) }) := by
    show (match render_open_table_block r0 n with
      | some r => some ((0 : Int), r)
      | none => none) = _
    rw [render_open_table_block_spec r0 n hn2]
  have hinv0 : table_inv n { r0 with
      sink := r0.sink ++ table_open_writes n, table_col_count := (n : Int) } :=
    ⟨hv0, hem0, rfl⟩
  -- the rows of the head and of the body
  obtain ⟨ra, wa, ea, hsa, hfa, hca, hta⟩ := rows_run fuel n hd _ hinv0 hl0
    (fun x hx => hrows x (List.mem_append_left _ hx))
    (fun x hx => htexts x (List.mem_append_left _ hx))
  obtain ⟨rb, wb, eb, hsb, hfb, hcb, htb⟩ := rows_run fuel n body ra hsa.2.2 hsa.2.1
    (fun x hx => hrows x (List.mem_append_right _ hx))
    (fun x hx => htexts x (List.mem_append_right _ hx))
  have hchk : run_checked fuel (table_events n hd body) r0
      = some (RENDER_VERBATIM rb "\\end\x7btabular\x7d\n") := by
    unfold table_events
    simp only [List.append_assoc, List.cons_append, List.nil_append]
    rw [run_checked_cons fuel _ _ _ _ hd1 rfl,
      run_checked_cons fuel _ _ _ _ (show dispatch fuel (EnterBlock MD_BLOCK_THEAD Detail.null) _
        = some (0, _) from rfl) rfl,
      run_checked_append fuel _ _ _ _ ea,
      run_checked_cons fuel _ _ _ _ (show dispatch fuel (LeaveBlock MD_BLOCK_THEAD Detail.null) ra
        = some (0, ra) from rfl) rfl,
      run_checked_cons fuel _ _ _ _ (show dispatch fuel (EnterBlock MD_BLOCK_TBODY Detail.null) ra
        = some (0, ra) from rfl) rfl,
      run_checked_append fuel _ _ _ _ eb,
      run_checked_cons fuel _ _ _ _ (show dispatch fuel (LeaveBlock MD_BLOCK_TBODY Detail.null) rb
        = some (0, rb) from rfl) rfl,
      run_checked_cons fuel _ _ _ _ (show dispatch fuel (LeaveBlock MD_BLOCK_TABLE Detail.null) rb
        = some (0, RENDER_VERBATIM rb "\\end\x7btabular\x7d\n") from rfl) rfl]
    rfl
  have hsink : (RENDER_VERBATIM rb "\\end\x7btabular\x7d\n").sink
      = table_open_writes n ++ wa ++ wb ++ [bytes "\\end\x7btabular\x7d\n"] := by
    have h1 : rb.sink = (r0.sink ++ table_open_writes n) ++ wa ++ wb := by
      rw [hsb.1, hsa.1]
    rw [hs0, List.nil_append] at h1
    show rb.sink ++ [bytes "\\end\x7btabular\x7d\n"] = _
    rw [h1]
  refine ⟨_, hchk, run_events_of_checked fuel _ _ _ hchk, ?_, ?_, hsb.2.1, ?_⟩
  · rw [hsink]
    simp only [List.count_append, (table_open_writes_count n).2, hta, htb]
    have : List.count row_term [bytes "\\end\x7btabular\x7d\n"] = 0 := by decide
    rw [this]; omega
  · rw [hsink]
    simp only [List.count_append, (table_open_writes_count n).1, hca, hcb]
    have : List.count col_sep [bytes "\\end\x7btabular\x7d\n"] = 0 := by decide
    rw [this, Nat.add_mul]; omega
  · unfold output
    rw [hsink]
    simp only [List.flatten_append, table_open_writes_flatten, hfa, hfb, List.map_append,
      List.flatten_cons, List.flatten_nil, List.append_nil, List.append_assoc]

/-! ## Lemmas: the attribute renderer, any mode -/

/-- The function `render_attribute` on a well-formed attribute, with fuel above
the number of sub-runs (and, outside the raw mode, the attribute within
`MD_SIZE - 3` and the fuel above its size): it returns, changes only the sink,
and writes the bytes of the sub-runs in order. -/
theorem render_attribute_spec (fuel : Nat) (r : MD_TEX) (a : MD_ATTRIBUTE)
    (hwf : a.well_formed) (hfuel : a.substr_types.length < fuel)
    (hmode : r.verbatim_type = 4 ∨ (a.size + 3 < U32 ∧ a.size < fuel)) :
    ∃ ws, render_attribute fuel r a = some { r with sink := r.sink ++ ws } ∧
      ws.flatten = attr_bytes r.verbatim_type r.escape_map a a.substr_types.length 0 := by
  obtain ⟨ws, e, hw⟩ := render_attribute_loop_spec fuel a hwf fuel 0 r (Nat.zero_le _)
    (by omega) hmode
  exact ⟨ws, e, by simpa using hw⟩

/-- The bytes of the sub-runs from index `i` are the concatenation, in order,
of the bytes of each sub-run. -/
theorem attr_bytes_eq_map (v : Int) (em : Nat → Nat) (a : MD_ATTRIBUTE) :
    ∀ (n i : Nat), attr_bytes v em a n i
      = ((List.range' i n).map (fun j =>
          substr_bytes v em (a.substr_types[j]?.getD MD_TEXT_NORMAL) (a.substr j))).flatten := by
  intro n
  induction n with
  | zero => intro i; rfl
  | succ n ih =>
    intro i
    rw [attr_bytes, ih (i + 1), List.range'_succ]
    simp

/-- A well-formed attribute of size 0 has no sub-run. -/
theorem well_formed_size_zero (a : MD_ATTRIBUTE) (hwf : a.well_formed) (h0 : a.size = 0) :
    a.substr_types.length = 0 := by
  obtain ⟨-, -, hlen, hz, hk, hpw⟩ := hwf
  by_contra hne
  have hmono := List.pairwise_iff_getElem.mp hpw
  have h1 : 0 < a.substr_offsets.length := by omega
  have h2 : a.substr_types.length < a.substr_offsets.length := by omega
  have hlt := hmono 0 a.substr_types.length h1 h2 (by omega)
  rw [List.getElem?_eq_getElem h1] at hz
  rw [List.getElem?_eq_getElem h2] at hk
  have e0 := Option.some.inj hz
  have ek := Option.some.inj hk
  rw [e0, ek, h0] at hlt
  exact absurd hlt (by decide)

/-! ## Lemmas: images -/

theorem render_open_img_span_spec (fuel : Nat) (r : MD_TEX) (src : MD_ATTRIBUTE)
    (hwf : src.well_formed) (hk : src.substr_types.length < fuel)
    (hsz : src.size + 3 < U32 ∧ src.size < fuel) :
    ∃ ws, render_open_img_span fuel r src
        = some { r with
            sink := r.sink ++ ([bytes "\\begin\x7bfigure\x7d[H]\n", bytes "\\image\x7b"] ++ ws
              ++ [bytes "\x7d\\label\x7b"]) } ∧
      ws.flatten = attr_bytes r.verbatim_type r.escape_map src src.substr_types.length 0 := by
  obtain ⟨ws, e, hw⟩ := render_attribute_spec fuel
    (RENDER_VERBATIM (RENDER_VERBATIM r "\\begin\x7bfigure\x7d[H]\n") "\\image\x7b") src hwf hk
    (Or.inr hsz)
  refine ⟨ws, ?_, hw⟩
  simp only [render_open_img_span, e]
  simp [RENDER_VERBATIM, render_verbatim]

theorem render_close_img_span_present (fuel : Nat) (r : MD_TEX) (title : MD_ATTRIBUTE)
    (hp : title.text ≠ none)
    (hwf : title.well_formed) (hk : title.substr_types.length < fuel)
    (hsz : title.size + 3 < U32 ∧ title.size < fuel) :
    ∃ ws, render_close_img_span fuel r title
        = some { r with
            sink := r.sink ++ ([bytes "\x7d\n", bytes "\\caption\x7b"] ++ ws
              ++ [bytes "\x7d\n", bytes "\\end\x7bfigure\x7d\n"]) } ∧
      ws.flatten
        = attr_bytes r.verbatim_type r.escape_map title title.substr_types.length 0 := by
  obtain ⟨ws, e, hw⟩ := render_attribute_spec fuel
    (RENDER_VERBATIM (RENDER_VERBATIM r "\x7d\n") "\\caption\x7b") title hwf hk (Or.inr hsz)
  refine ⟨ws, ?_, hw⟩
  simp only [render_close_img_span, if_pos hp, e]
  simp [RENDER_VERBATIM, render_verbatim]

theorem render_close_img_span_absent (fuel : Nat) (r : MD_TEX) (title : MD_ATTRIBUTE)
    (hp : ¬ title.text ≠ none) :
    render_close_img_span fuel r title
      = some { r with sink := r.sink ++ [bytes "\x7d\n", bytes "\\end\x7bfigure\x7d\n"] } := by
  simp only [render_close_img_span, if_neg hp]
  simp [RENDER_VERBATIM, render_verbatim]

/-- The three events of an image from any render record outside every
verbatim mode: they change only the sink, and write the opening, the source,
the label with the escaped alt text, the caption when the title is present,
and the end of the figure. -/
theorem image_events_run (fuel : Nat) (r : MD_TEX) (s t : MD_ATTRIBUTE) (a : List Nat)
    (hv : r.verbatim_type = 0)
    (hs : s.well_formed) (hsk : s.substr_types.length < fuel)
    (hsz : s.size + 3 < U32 ∧ s.size < fuel)
    (ht : t.text ≠ none →
      t.well_formed ∧ t.substr_types.length < fuel ∧ t.size + 3 < U32 ∧ t.size < fuel)
    (ha : a.length + 3 < U32) (hfuel : a.length < fuel) :
    ∃ ws, run_events fuel [EnterSpan MD_SPAN_IMG (Detail.IMG s t), Text MD_TEXT_NORMAL a,
        LeaveSpan MD_SPAN_IMG (Detail.IMG s t)] r = some { r with sink := r.sink ++ ws } ∧
      ws.flatten = bytes "\\begin\x7bfigure\x7d[H]\n\\image\x7b"
        ++ attr_bytes 0 r.escape_map s s.substr_types.length 0
        ++ bytes "\x7d\\label\x7b" ++ escape_per_byte r.escape_map a ++ bytes "\x7d\n"
        ++ (if t.text ≠ none then
              bytes "\\caption\x7b" ++ attr_bytes 0 r.escape_map t t.substr_types.length 0
                ++ bytes "\x7d\n"
            else [])
        ++ bytes "\\end\x7bfigure\x7d\n" := by
  obtain ⟨ws1, e1, hw1⟩ := render_open_img_span_spec fuel r s hs hsk hsz
  rw [hv] at hw1
  have h1 : dispatch fuel (EnterSpan MD_SPAN_IMG (Detail.IMG s t)) r
      = (match render_open_img_span fuel r s with
        | some r => some ((0 : Int), r)
        | none => none) := rfl
  rw [e1] at h1
  obtain ⟨ws2, e2, hw2, -⟩ := text_callback_normal fuel _ a
    (show ({ r with
      sink := r.sink ++ ([bytes "\\begin\x7bfigure\x7d[H]\n", bytes "\\image\x7b"] ++ ws1
        ++ [bytes "\x7d\\label\x7b"]) } : MD_TEX).verbatim_type = 0 from hv) ha hfuel
  have h2 : dispatch fuel (Text MD_TEXT_NORMAL a) _ = _ := e2
  rw [run_events_cons fuel _ _ _ _ h1, run_events_cons fuel _ _ _ _ h2]
  have h3 : ∀ r1 : MD_TEX, dispatch fuel (LeaveSpan MD_SPAN_IMG (Detail.IMG s t)) r1
      = (match render_close_img_span fuel r1 t with
        | some r => some ((0 : Int), r)
        | none => none) := fun _ => rfl
  by_cases hp : t.text ≠ none
  · obtain ⟨hwt, hkt, hszt⟩ := ht hp
    obtain ⟨ws3, e3, hw3⟩ := render_close_img_span_present fuel
      { r with
        sink := r.sink ++ ([bytes "\\begin\x7bfigure\x7d[H]\n", bytes "\\image\x7b"] ++ ws1
          ++ [bytes "\x7d\\label\x7b"]) ++ ws2 } t hp hwt hkt hszt
    have h3a := h3 { r with
        sink := r.sink ++ ([bytes "\\begin\x7bfigure\x7d[H]\n", bytes "\\image\x7b"] ++ ws1
          ++ [bytes "\x7d\\label\x7b"]) ++ ws2 }
    rw [e3] at h3a
    rw [run_events_cons fuel _ _ _ _ h3a]
    refine ⟨[bytes "\\begin\x7bfigure\x7d[H]\n", bytes "\\image\x7b"] ++ ws1 ++ [bytes "\x7d\\label\x7b"]
        ++ ws2 ++ ([bytes "\x7d\n", bytes "\\caption\x7b"] ++ ws3
          ++ [bytes "\x7d\n", bytes "\\end\x7bfigure\x7d\n"]), ?_, ?_⟩
    · simp [run_events, List.append_assoc]
    · have hw3a : ws3.flatten = attr_bytes 0 r.escape_map t t.substr_types.length 0 := by
        rw [hw3]; show attr_bytes r.verbatim_type _ _ _ _ = _; rw [hv]
      rw [if_pos hp]
      simp only [List.flatten_append, hw1, hw2, hw3a]
      simp [bytes, List.append_assoc]
  · have h3a := h3 { r with
        sink := r.sink ++ ([bytes "\\begin\x7bfigure\x7d[H]\n", bytes "\\image\x7b"] ++ ws1
          ++ [bytes "\x7d\\label\x7b"]) ++ ws2 }
    rw [render_close_img_span_absent fuel _ t hp] at h3a
    rw [run_events_cons fuel _ _ _ _ h3a]
    refine ⟨[bytes "\\begin\x7bfigure\x7d[H]\n", bytes "\\image\x7b"] ++ ws1 ++ [bytes "\x7d\\label\x7b"]
        ++ ws2 ++ [bytes "\x7d\n", bytes "\\end\x7bfigure\x7d\n"], ?_, ?_⟩
    · simp [run_events, List.append_assoc]
    · rw [if_neg hp]
      simp only [List.flatten_append, hw1, hw2]
      simp [bytes, List.append_assoc]

/-! ## Lemmas: the verbatim mode -/

theorem in_verbatim_cons (f : Frame) (st : List Frame) :
    in_verbatim (f :: st) = (verbatim_frame f || in_verbatim st) := rfl

theorem in_verbatim_tail (st : List Frame) (h : in_verbatim st = false) :
    in_verbatim st.tail = false := by
  cases st with
  | nil => rfl
  | cons f st =>
    rw [in_verbatim_cons] at h
    simp only [Bool.or_eq_false_iff] at h
    exact h.2

theorem next_table_col_verbatim (r : MD_TEX) :
    (next_table_col r).verbatim_type = r.verbatim_type := by
  unfold next_table_col
  dsimp only
  split <;> rfl

theorem state_after_enter_block_verbatim (type : MD_BLOCKTYPE) (d : Detail) (r : MD_TEX)
    (hv : r.verbatim_type = 0) :
    (state_after (EnterBlock type d) r).verbatim_type ≠ 0
      ↔ verbatim_frame (Frame.block type) = true := by
  cases type <;>
    first
    | exact ⟨fun h => absurd hv h, fun h => absurd h (by decide)⟩
    | exact ⟨fun h => absurd ((next_table_col_verbatim r).trans hv) h,
        fun h => absurd h (by decide)⟩
    | (cases d <;> exact ⟨fun h => absurd hv h, fun h => absurd h (by decide)⟩)
    | (cases d <;> exact ⟨fun _ => rfl, fun _ h => absurd h (by simp [state_after])⟩)

theorem state_after_enter_span_verbatim (type : MD_SPANTYPE) (d : Detail) (r : MD_TEX)
    (hv : r.verbatim_type = 0) :
    (state_after (EnterSpan type d) r).verbatim_type ≠ 0
      ↔ verbatim_frame (Frame.span type) = true := by
  cases type <;>
    first
    | exact ⟨fun h => absurd hv h, fun h => absurd h (by decide)⟩
    | exact ⟨fun h => absurd rfl h, fun h => absurd h (by decide)⟩
    | exact ⟨fun _ => rfl, fun _ h => absurd h (by simp [state_after])⟩

theorem state_after_leave_block_verbatim (type : MD_BLOCKTYPE) (d : Detail) (r : MD_TEX) :
    (state_after (LeaveBlock type d) r).verbatim_type
      = if verbatim_frame (Frame.block type) = true then 0 else r.verbatim_type := by
  cases type <;> rfl

theorem state_after_leave_span_verbatim (type : MD_SPANTYPE) (d : Detail) (r : MD_TEX) :
    (state_after (LeaveSpan type d) r).verbatim_type
      = if verbatim_frame (Frame.span type) = true then 0 else r.verbatim_type := by
  cases type <;> rfl

/-- The step of the invariant at a leave event of the innermost element
`f`. -/
theorem verbatim_inv_leave (f : Frame) (st2 : List Frame) (r : MD_TEX) (v : Int)
    (hinv : verbatim_inv (f :: st2) r)
    (hv : v = if verbatim_frame f = true then 0 else r.verbatim_type) :
    in_verbatim st2.tail = false ∧ (v ≠ 0 ↔ in_verbatim st2 = true) := by
  obtain ⟨htail, hiff⟩ := hinv
  have htail2 : in_verbatim st2 = false := htail
  refine ⟨in_verbatim_tail st2 htail2, ?_⟩
  rw [in_verbatim_cons, htail2, Bool.or_false] at hiff
  rw [htail2, hv]
  by_cases hf : verbatim_frame f = true
  · rw [if_pos hf]
    exact ⟨fun h => absurd rfl h, fun h => Bool.noConfusion h⟩
  · rw [if_neg hf]
    exact ⟨fun h => absurd (hiff.mp h) hf, fun h => Bool.noConfusion h⟩

/-- The invariant of the verbatim mode is kept by every run that returns, on
events that are nested and enter no element inside a code block, an inline
code span or a math span. -/
theorem verbatim_inv_run (fuel : Nat) :
    ∀ (es : List Event) (st st1 : List Frame) (r r1 : MD_TEX),
      nesting es st = some st1 → verbatim_only_text es st = true →
      run_events fuel es r = some r1 → verbatim_inv st r → verbatim_inv st1 r1 := by
  intro es
  induction es with
  | nil =>
    intro st st1 r r1 hn _ hr hinv
    simp only [nesting, Option.some.injEq] at hn
    simp only [run_events, Option.some.injEq] at hr
    subst hn; subst hr
    exact hinv
  | cons e es ih =>
    intro st st1 r r1 hn hvt hr hinv
    unfold run_events at hr
    cases hd : dispatch fuel e r with
    | none => rw [hd] at hr; exact Option.noConfusion hr
    | some p =>
      obtain ⟨ret, r2⟩ := p
      rw [hd] at hr
      obtain ⟨hret, ws, hr2⟩ := dispatch_frame fuel e r (ret, r2) hd
      simp only at hret hr2
      replace hr : run_events fuel es r2 = some r1 := by simpa [hret] using hr
      have hv2 : r2.verbatim_type = (state_after e r).verbatim_type := by rw [hr2]
      cases e with
      | EnterBlock type d =>
        obtain ⟨htail, hiff⟩ := hinv
        have hn1 : nesting es (Frame.block type :: st) = some st1 := hn
        have hvt0 : (!in_verbatim st && verbatim_only_text es (Frame.block type :: st))
            = true := hvt
        simp only [Bool.and_eq_true, Bool.not_eq_true'] at hvt0
        have hv0 : r.verbatim_type = 0 := by
          by_contra hne
          have h1 := hiff.mp hne
          rw [hvt0.1] at h1
          exact Bool.noConfusion h1
        refine ih _ _ _ _ hn1 hvt0.2 hr ⟨hvt0.1, ?_⟩
        rw [hv2, in_verbatim_cons, hvt0.1, Bool.or_false]
        exact state_after_enter_block_verbatim type d r hv0
      | EnterSpan type d =>
        obtain ⟨htail, hiff⟩ := hinv
        have hn1 : nesting es (Frame.span type :: st) = some st1 := hn
        have hvt0 : (!in_verbatim st && verbatim_only_text es (Frame.span type :: st))
            = true := hvt
        simp only [Bool.and_eq_true, Bool.not_eq_true'] at hvt0
        have hv0 : r.verbatim_type = 0 := by
          by_contra hne
          have h1 := hiff.mp hne
          rw [hvt0.1] at h1
          exact Bool.noConfusion h1
        refine ih _ _ _ _ hn1 hvt0.2 hr ⟨hvt0.1, ?_⟩
        rw [hv2, in_verbatim_cons, hvt0.1, Bool.or_false]
        exact state_after_enter_span_verbatim type d r hv0
      | LeaveBlock type d =>
        cases st with
        | nil => exact Option.noConfusion hn
        | cons f st2 =>
          cases f with
          | span t => exact Option.noConfusion hn
          | block t =>
            have hn0 : (if t = type then nesting es st2 else none) = some st1 := hn
            by_cases ht : t = type
            · rw [if_pos ht] at hn0
              subst ht
              have hvt1 : verbatim_only_text es st2 = true := hvt
              exact ih _ _ _ _ hn0 hvt1 hr
                (verbatim_inv_leave (Frame.block t) st2 r r2.verbatim_type hinv
                  (hv2.trans (state_after_leave_block_verbatim t d r)))
            · rw [if_neg ht] at hn0
              exact Option.noConfusion hn0
      | LeaveSpan type d =>
        cases st with
        | nil => exact Option.noConfusion hn
        | cons f st2 =>
          cases f with
          | block t => exact Option.noConfusion hn
          | span t =>
            have hn0 : (if t = type then nesting es st2 else none) = some st1 := hn
            by_cases ht : t = type
            · rw [if_pos ht] at hn0
              subst ht
              have hvt1 : verbatim_only_text es st2 = true := hvt
              exact ih _ _ _ _ hn0 hvt1 hr
                (verbatim_inv_leave (Frame.span t) st2 r r2.verbatim_type hinv
                  (hv2.trans (state_after_leave_span_verbatim t d r)))
            · rw [if_neg ht] at hn0
              exact Option.noConfusion hn0
      | Text kind b =>
        obtain ⟨htail, hiff⟩ := hinv
        cases st with
        | nil => exact Option.noConfusion hn
        | cons f st2 =>
          have hn1 : nesting es (f :: st2) = some st1 := hn
          have hvt1 : verbatim_only_text es (f :: st2) = true := hvt
          have hv3 : r2.verbatim_type = r.verbatim_type := hv2
          exact ih _ _ _ _ hn1 hvt1 hr ⟨htail, by rw [hv3]; exact hiff⟩

/-- A prefix of nested events is nested, up to the elements it leaves
open. -/
theorem nesting_prefix :
    ∀ (es1 es2 : List Event) (st st1 : List Frame),
      nesting (es1 ++ es2) st = some st1 →
      ∃ st2, nesting es1 st = some st2 ∧ nesting es2 st2 = some st1 := by
  intro es1
  induction es1 with
  | nil => intro es2 st st1 h; exact ⟨st, rfl, h⟩
  | cons e es ih =>
    intro es2 st st1 h
    cases e with
    | EnterBlock type d => exact ih es2 _ st1 h
    | EnterSpan type d => exact ih es2 _ st1 h
    | LeaveBlock type d =>
      cases st with
      | nil => exact Option.noConfusion h
      | cons f st2 =>
        cases f with
        | span t => exact Option.noConfusion h
        | block t =>
          have h0 : (if t = type then nesting (es ++ es2) st2 else none) = some st1 := h
          by_cases ht : t = type
          · rw [if_pos ht] at h0
            obtain ⟨st3, h1, h2⟩ := ih es2 st2 st1 h0
            refine ⟨st3, ?_, h2⟩
            show (if t = type then nesting es st2 else none) = some st3
            rw [if_pos ht]
            exact h1
          · rw [if_neg ht] at h0
            exact Option.noConfusion h0
    | LeaveSpan type d =>
      cases st with
      | nil => exact Option.noConfusion h
      | cons f st2 =>
        cases f with
        | block t => exact Option.noConfusion h
        | span t =>
          have h0 : (if t = type then nesting (es ++ es2) st2 else none) = some st1 := h
          by_cases ht : t = type
          · rw [if_pos ht] at h0
            obtain ⟨st3, h1, h2⟩ := ih es2 st2 st1 h0
            refine ⟨st3, ?_, h2⟩
            show (if t = type then nesting es st2 else none) = some st3
            rw [if_pos ht]
            exact h1
          · rw [if_neg ht] at h0
            exact Option.noConfusion h0
    | Text kind b =>
      cases st with
      | nil => exact Option.noConfusion h
      | cons f st2 => exact ih es2 _ st1 h

theorem verbatim_only_text_prefix :
    ∀ (es1 es2 : List Event) (st : List Frame),
      verbatim_only_text (es1 ++ es2) st = true → verbatim_only_text es1 st = true := by
  intro es1
  induction es1 with
  | nil => intro es2 st _; rfl
  | cons e es ih =>
    intro es2 st h
    cases e with
    | EnterBlock type d =>
      have h0 : (!in_verbatim st && verbatim_only_text (es ++ es2) (Frame.block type :: st))
          = true := h
      simp only [Bool.and_eq_true] at h0
      show (!in_verbatim st && verbatim_only_text es (Frame.block type :: st)) = true
      rw [h0.1, ih es2 _ h0.2]
      rfl
    | EnterSpan type d =>
      have h0 : (!in_verbatim st && verbatim_only_text (es ++ es2) (Frame.span type :: st))
          = true := h
      simp only [Bool.and_eq_true] at h0
      show (!in_verbatim st && verbatim_only_text es (Frame.span type :: st)) = true
      rw [h0.1, ih es2 _ h0.2]
      rfl
    | LeaveBlock type d => exact ih es2 _ h
    | LeaveSpan type d => exact ih es2 _ h
    | Text kind b => exact ih es2 _ h

/-! ## Lemmas: the handlers return on the payloads of the input contract -/

theorem render_open_code_block_defined (fuel : Nat) (r : MD_TEX) (lang : MD_ATTRIBUTE)
    (h : lang.text ≠ none → attr_in_domain fuel lang) :
    ∃ r1, render_open_code_block fuel r lang = some r1 := by
  unfold render_open_code_block
  by_cases hp : lang.text ≠ none
  · obtain ⟨hwf, hk, hsz⟩ := h hp
    obtain ⟨ws, e, -⟩ := render_attribute_spec fuel
      (RENDER_VERBATIM (RENDER_VERBATIM r "\\begin\x7bverbatim\x7d") "[language=") lang hwf hk
      (Or.inr hsz)
    simp only [if_pos hp, e]
    exact ⟨_, rfl⟩
  · simp only [if_neg hp]
    exact ⟨_, rfl⟩

theorem enter_block_defined (fuel : Nat) (type : MD_BLOCKTYPE) (d : Detail) (r : MD_TEX)
    (h : event_in_domain fuel (EnterBlock type d) = true) :
    ∃ r1, enter_block_callback fuel type d r = some (0, r1) := by
  cases type with
  | MD_BLOCK_H =>
    cases d with
    | H level =>
      have h1 : 1 ≤ level ∧ level ≤ 6 := of_decide_eq_true h
      obtain ⟨h2, h3⟩ := h1
      interval_cases level <;> exact ⟨_, rfl⟩
    | _ => exact Bool.noConfusion h
  | MD_BLOCK_CODE =>
    cases d with
    | CODE lang =>
      have h1 : lang.text ≠ none → attr_in_domain fuel lang := of_decide_eq_true h
      obtain ⟨r1, e⟩ := render_open_code_block_defined fuel r lang h1
      have h2 : enter_block_callback fuel MD_BLOCK_CODE (Detail.CODE lang) r
          = (match render_open_code_block fuel r lang with
            | some r => some ((0 : Int), { r with verbatim_type := 1 })
            | none => none) := rfl
      rw [e] at h2
      exact ⟨_, h2⟩
    | _ => exact Bool.noConfusion h
  | MD_BLOCK_TABLE =>
    cases d with
    | TABLE col_count =>
      have h1 : col_count < 2 ^ 31 := of_decide_eq_true h
      have h2 : enter_block_callback fuel MD_BLOCK_TABLE (Detail.TABLE col_count) r
          = (match render_open_table_block r col_count with
            | some r => some ((0 : Int), r)
            | none => none) := rfl
      rw [render_open_table_block_spec r col_count h1] at h2
      exact ⟨_, h2⟩
    | _ => exact Bool.noConfusion h
  | _ => exact ⟨_, rfl⟩

theorem enter_span_defined (fuel : Nat) (type : MD_SPANTYPE) (d : Detail) (r : MD_TEX)
    (h : event_in_domain fuel (EnterSpan type d) = true) :
    ∃ r1, enter_span_calback fuel type d r = some (0, r1) := by
  cases type with
  | MD_SPAN_A =>
    cases d with
    | A href =>
      have h1 : href.well_formed ∧ href.substr_types.length < fuel := of_decide_eq_true h
      obtain ⟨ws, e, -⟩ := render_open_a_span_spec fuel r href h1.1 h1.2
      have h2 : enter_span_calback fuel MD_SPAN_A (Detail.A href) r
          = (match render_open_a_span fuel r href with
            | some r => some ((0 : Int), r)
            | none => none) := rfl
      rw [e] at h2
      exact ⟨_, h2⟩
    | _ => exact Bool.noConfusion h
  | MD_SPAN_IMG =>
    cases d with
    | IMG src title =>
      have h1 : attr_in_domain fuel src := of_decide_eq_true h
      obtain ⟨ws, e, -⟩ := render_open_img_span_spec fuel r src h1.1 h1.2.1 h1.2.2
      have h2 : enter_span_calback fuel MD_SPAN_IMG (Detail.IMG src title) r
          = (match render_open_img_span fuel r src with
            | some r => some ((0 : Int), r)
            | none => none) := rfl
      rw [e] at h2
      exact ⟨_, h2⟩
    | _ => exact Bool.noConfusion h
  | _ => exact ⟨_, rfl⟩

theorem leave_span_defined (fuel : Nat) (type : MD_SPANTYPE) (d : Detail) (r : MD_TEX)
    (h : event_in_domain fuel (LeaveSpan type d) = true) :
    ∃ r1, leave_span_calback fuel type d r = some (0, r1) := by
  cases type with
  | MD_SPAN_IMG =>
    cases d with
    | IMG src title =>
      have h1 : title.text ≠ none → attr_in_domain fuel title := of_decide_eq_true h
      have h2 : leave_span_calback fuel MD_SPAN_IMG (Detail.IMG src title) r
          = (match render_close_img_span fuel r title with
            | some r => some ((0 : Int), r)
            | none => none) := rfl
      by_cases hp : title.text ≠ none
      · obtain ⟨hwf, hk, hsz⟩ := h1 hp
        obtain ⟨ws, e, -⟩ := render_close_img_span_present fuel r title hp hwf hk hsz
        rw [e] at h2
        exact ⟨_, h2⟩
      · rw [render_close_img_span_absent fuel r title hp] at h2
        exact ⟨_, h2⟩
    | _ => exact Bool.noConfusion h
  | _ => exact ⟨_, rfl⟩

theorem text_defined (fuel : Nat) (kind : MD_TEXTTYPE) (b : List Nat) (r : MD_TEX)
    (h : event_in_domain fuel (Text kind b) = true) :
    ∃ r1, text_callback fuel kind b r = some (0, r1) := by
  have hb : b.length + 3 < U32 ∧ b.length < fuel := of_decide_eq_true h
  obtain ⟨ws, e, -⟩ := render_tex_escaped_spec fuel r b hb.1 hb.2
  unfold text_callback
  by_cases hv : r.verbatim_type ≠ 0
  · rw [if_pos hv]
    exact ⟨_, rfl⟩
  · rw [if_neg hv]
    cases kind <;> first | exact ⟨_, rfl⟩ | (dsimp only; rw [e]; exact ⟨_, rfl⟩)

/-- On a payload of the input contract every handler returns, with the
value 0. -/
theorem dispatch_defined (fuel : Nat) (e : Event) (r : MD_TEX)
    (h : event_in_domain fuel e = true) : ∃ r1, dispatch fuel e r = some (0, r1) := by
  cases e with
  | EnterBlock type d => exact enter_block_defined fuel type d r h
  | LeaveBlock type d =>
    obtain ⟨r1, e1, -⟩ := leave_block_frame type d r
    exact ⟨r1, e1⟩
  | EnterSpan type d => exact enter_span_defined fuel type d r h
  | LeaveSpan type d => exact leave_span_defined fuel type d r h
  | Text kind b => exact text_defined fuel kind b r h

/-- On payloads of the input contract the run over the events returns. -/
theorem run_events_defined (fuel : Nat) :
    ∀ (es : List Event) (r : MD_TEX), (∀ e ∈ es, event_in_domain fuel e = true) →
      ∃ r1, run_events fuel es r = some r1 := by
  intro es
  induction es with
  | nil => intro r _; exact ⟨r, rfl⟩
  | cons e es ih =>
    intro r h
    obtain ⟨r2, h2⟩ := dispatch_defined fuel e r (h e (List.mem_cons_self _ _))
    rw [run_events_cons fuel e es r r2 h2]
    exact ih r2 (fun e1 he => h e1 (List.mem_cons_of_mem _ he))

/-! # Claims -/

set_option maxRecDepth 8000 in
/-- C1 (fails on the code): the escaper does not copy the byte 0x00.  On the
run `a`, 0x00, `b` the function `render_tex_escaped`, with the table built by
`md_tex`, writes `ab`: the table flags the byte 0 and the `switch` has no case
for it. -/
theorem render_tex_escaped_drops_nul :
    NEED_TEX_ESC md_tex_init 0 = 1 ∧
    (render_tex_escaped 4 md_tex_init [97, 0, 98]).map output = some [97, 98] := by
  decide

/-- C2: from the initial render state, the events enter X, one text event of
any kind with any bytes `b`, leave X write the opening construct, `b`
unchanged, and the closing construct, for X an inline code span, an inline
math span, a display math span, and a code block without language tag. -/
theorem verbatim_passthrough (fuel : Nat) (kind : MD_TEXTTYPE) (b : List Nat)
    (d1 d2 : Detail) (size : Nat) (types : List MD_TEXTTYPE) (offsets : List Nat) :
    (run_events fuel [EnterSpan MD_SPAN_CODE d1, Text kind b, LeaveSpan MD_SPAN_CODE d2]
        md_tex_init).map output = some (bytes "\\verb!" ++ b ++ bytes "!") ∧
    (run_events fuel [EnterSpan MD_SPAN_LATEXMATH d1, Text kind b,
        LeaveSpan MD_SPAN_LATEXMATH d2] md_tex_init).map output
      = some (bytes "$" ++ b ++ bytes "$") ∧
    (run_events fuel [EnterSpan MD_SPAN_LATEXMATH_DISPLAY d1, Text kind b,
        LeaveSpan MD_SPAN_LATEXMATH_DISPLAY d2] md_tex_init).map output
      = some (bytes "$$" ++ b ++ bytes "$$") ∧
    (run_events fuel [EnterBlock MD_BLOCK_CODE (Detail.CODE ⟨none, size, types, offsets⟩),
        Text kind b, LeaveBlock MD_BLOCK_CODE d2] md_tex_init).map output
      = some (bytes "\\begin\x7bverbatim\x7d\n" ++ b ++ bytes "\\end\x7bverbatim\x7d\n") := by
  have hs : md_tex_init.sink = [] := rfl
  obtain ⟨h1, h2, h3, h4⟩ :=
    verbatim_passthrough_any fuel md_tex_init kind b d1 d2 size types offsets
  rw [h1, h2, h3, h4]
  have e : bytes "\\begin\x7bverbatim\x7d\n" = bytes "\\begin\x7bverbatim\x7d" ++ bytes "\n" := by decide
  simp [output, hs, e]

/-- C3: a link with a well-formed target (sub-runs of any types) and a Normal
label `t` writes `\href{`, the bytes of the target unchanged, `}{`, the label
as the text escaper writes it, and `}`.  The escaper, run on `t` alone, writes
the same bytes, those of the scan of one byte at a time.  The label is shorter
than `2^32 - 3` bytes and the fuel is above the number of sub-runs and the
length of the label. -/
theorem link_rendering (fuel : Nat) (href : MD_ATTRIBUTE) (t : List Nat) (d : Detail)
    (hwf : href.well_formed) (hk : href.substr_types.length < fuel)
    (ht : t.length + 3 < U32) (hfuel : t.length < fuel) :
    (render_tex_escaped fuel md_tex_init t).map output
      = some (escape_per_byte md_tex_init.escape_map t) ∧
    (run_events fuel [EnterSpan MD_SPAN_A (Detail.A href), Text MD_TEXT_NORMAL t,
        LeaveSpan MD_SPAN_A d] md_tex_init).map output
      = some (bytes "\\href\x7b" ++ href.text.getD [] ++ bytes "\x7d\x7b"
          ++ escape_per_byte md_tex_init.escape_map t ++ bytes "\x7d") := by
  have hs : md_tex_init.sink = [] := rfl
  constructor
  · obtain ⟨ws, e, hw, -⟩ := render_tex_escaped_spec fuel md_tex_init t ht hfuel
    rw [e]
    simp [output, hs, hw]
  · obtain ⟨ws1, e1, hw1⟩ := render_open_a_span_spec fuel md_tex_init href hwf hk
    have h1 : dispatch fuel (EnterSpan MD_SPAN_A (Detail.A href)) md_tex_init
        = some (0, { md_tex_init with
            sink := md_tex_init.sink ++ ([bytes "\\href\x7b"] ++ ws1 ++ [bytes "\x7d\x7b"]),
            verbatim_type := 0 }) := by
      show (match render_open_a_span fuel md_tex_init href with
        | some r => some ((0 : Int), r)
        | none => none) = _
      rw [e1]
    obtain ⟨ws2, e2, hw2, -⟩ := text_callback_normal fuel
      { md_tex_init with
        sink := md_tex_init.sink ++ ([bytes "\\href\x7b"] ++ ws1 ++ [bytes "\x7d\x7b"]),
        verbatim_type := 0 } t rfl ht hfuel
    have h2 : dispatch fuel (Text MD_TEXT_NORMAL t)
        { md_tex_init with
          sink := md_tex_init.sink ++ ([bytes "\\href\x7b"] ++ ws1 ++ [bytes "\x7d\x7b"]),
          verbatim_type := 0 } = _ := e2
    have h3 : ∀ r1 : MD_TEX, dispatch fuel (LeaveSpan MD_SPAN_A d) r1
        = some (0, RENDER_VERBATIM r1 "\x7d") := fun _ => rfl
    rw [run_events_cons fuel _ _ _ _ h1, run_events_cons fuel _ _ _ _ h2,
      run_events_cons fuel _ _ _ _ (h3 _)]
    simp [run_events, output, RENDER_VERBATIM, render_verbatim, hs, hw1, hw2]

/-- Witness of C3: the link `[a_b](http://a_b%c)`. -/
theorem link_rendering_witness :
    link_href.well_formed ∧ link_href.substr_types.length < 16 ∧
    (bytes "a_b").length + 3 < U32 ∧ (bytes "a_b").length < 16 ∧
    (render_tex_escaped 16 md_tex_init (bytes "a_b")).map output
      = some (escape_per_byte md_tex_init.escape_map (bytes "a_b")) ∧
    (run_events 16 [EnterSpan MD_SPAN_A (Detail.A link_href), Text MD_TEXT_NORMAL (bytes "a_b"),
        LeaveSpan MD_SPAN_A Detail.null] md_tex_init).map output
      = some (bytes "\\href\x7b" ++ link_href.text.getD [] ++ bytes "\x7d\x7b"
          ++ escape_per_byte md_tex_init.escape_map (bytes "a_b") ++ bytes "\x7d") :=
  ⟨by decide, by decide, by decide, by decide,
    link_rendering 16 link_href (bytes "a_b") Detail.null (by decide) (by decide) (by decide)
      (by decide)⟩

set_option maxRecDepth 8000 in
/-- C4 (fails on the code): entering an image span escapes the source
attribute.  With the source `a_b.png` (one Normal sub-run) the enter-span
handler writes `\image{a\_b.png}`, not `\image{a_b.png}`. -/
theorem image_src_is_escaped :
    (enter_span_calback 8 MD_SPAN_IMG
        (Detail.IMG ⟨some (bytes "a_b.png"), 7, [MD_TEXT_NORMAL], [0, 7]⟩
          ⟨none, 0, [], [0]⟩) md_tex_init).map (fun p => output p.2)
      = some (bytes "\\begin\x7bfigure\x7d[H]\n\\image\x7ba\\_b.png\x7d\\label\x7b") := by
  decide

/-- C5: a table of `n` columns (any count that fits `int`, so every `n ≥ 1`
of the claim) whose rows (in its head and its body) have
exactly `n` cells each, header or data cells holding Normal text runs,
processed from the initial render state: the run succeeds and
`table_col_level` is 0 after the leave event of every row (`run_checked`);
the handlers write one row terminator per row and `n - 1` column separators
per row; the bytes written are the opening construct, then per row the cells
with one separator between consecutive cells (none after the last) and the
terminator, then the closing construct. -/
theorem table_separators (fuel n : Nat) (hd body : List (List Cell))
    (hn2 : n < 2 ^ 31) (hrows : ∀ row ∈ hd ++ body, row.length = n)
    (htexts : ∀ row ∈ hd ++ body, ∀ c ∈ row, ∀ t ∈ c.2, t.length + 3 < U32 ∧ t.length < fuel) :
    ∃ r, run_checked fuel (table_events n hd body) md_tex_init = some r ∧
      run_events fuel (table_events n hd body) md_tex_init = some r ∧
      r.sink.count row_term = hd.length + body.length ∧
      r.sink.count col_sep = (hd.length + body.length) * (n - 1) ∧
      r.table_col_level = 0 ∧
      output r = table_open_output n
        ++ ((hd ++ body).map (row_output md_tex_init.escape_map)).flatten
        ++ bytes "\\end\x7btabular\x7d\n" :=
  table_run_any fuel n hd body md_tex_init rfl rfl rfl rfl hn2 hrows htexts

set_option maxRecDepth 8000 in
/-- Witness of C5: 3 columns and 2 rows give 2 terminators and 4 separators. -/
theorem table_separators_witness :
    3 < 2 ^ 31 ∧ (∀ row ∈ table3_head ++ table3_body, row.length = 3) ∧
    (∀ row ∈ table3_head ++ table3_body, ∀ c ∈ row, ∀ t ∈ c.2,
      t.length + 3 < U32 ∧ t.length < 4) ∧
    (run_events 4 (table_events 3 table3_head table3_body) md_tex_init).map
        (fun r => (r.sink.count row_term, r.sink.count col_sep, r.table_col_level))
      = some (2, 4, 0) ∧
    ∃ r, run_checked 4 (table_events 3 table3_head table3_body) md_tex_init = some r ∧
      run_events 4 (table_events 3 table3_head table3_body) md_tex_init = some r ∧
      r.sink.count row_term = table3_head.length + table3_body.length ∧
      r.sink.count col_sep = (table3_head.length + table3_body.length) * (3 - 1) ∧
      r.table_col_level = 0 ∧
      output r = table_open_output 3
        ++ ((table3_head ++ table3_body).map (row_output md_tex_init.escape_map)).flatten
        ++ bytes "\\end\x7btabular\x7d\n" :=
  ⟨by decide, by decide, by decide, by decide,
    table_separators 4 3 table3_head table3_body (by decide) (by decide) (by decide)⟩

set_option maxRecDepth 8000 in
/-- C6: entering a table of `n` columns (a count that fits `int`) returns 0
and writes `\begin{tabular}{`, `n` times `|l`, `|}` newline, `\hline`
newline; and the event stream of the table with header `A`, `B` and data row
`1`, `2`, processed from the initial render state with fuel above the length
of the texts, writes the tabular environment of the claim byte for byte. -/
theorem table_output (fuel n : Nat) (r : MD_TEX) (hn : n < 2 ^ 31) (hfuel : 1 < fuel) :
    (∃ r1, enter_block_callback fuel MD_BLOCK_TABLE (Detail.TABLE n) r = some (0, r1) ∧
      output r1 = output r ++ (bytes "\\begin\x7btabular\x7d\x7b"
        ++ (List.replicate n (bytes "|l")).flatten ++ bytes "|\x7d\n\\hline\n")) ∧
    (run_events fuel table_ab12_events md_tex_init).map output
      = some (bytes
          "\\begin\x7btabular\x7d\x7b|l|l|\x7d\n\\hline\nA & B \\\\\n\\hline\n1 & 2 \\\\\n\\hline\n\\end\x7btabular\x7d\n") := by
  constructor
  · refine ⟨{ r with sink := r.sink ++ table_open_writes n, table_col_count := (n : Int) }, ?_, ?_⟩
    · show (match render_open_table_block r n with
        | some r => some ((0 : Int), r)
        | none => none) = _
      rw [render_open_table_block_spec r n hn]
    · show (r.sink ++ table_open_writes n).flatten = r.sink.flatten ++ table_open_output n
      rw [List.flatten_append, table_open_writes_flatten]
  · have hev : table_ab12_events
        = table_events 2 [[(true, [bytes "A"]), (true, [bytes "B"])]]
            [[(false, [bytes "1"]), (false, [bytes "2"])]] := by decide
    obtain ⟨r1, -, hrun, -, -, -, hout⟩ := table_run_any fuel 2
      [[(true, [bytes "A"]), (true, [bytes "B"])]] [[(false, [bytes "1"]), (false, [bytes "2"])]]
      md_tex_init rfl rfl rfl rfl (by decide) (by decide)
      (by
        intro row hrow c hc t ht
        have hlen : t.length = 1 := by
          revert row c t
          decide
        rw [hlen]
        exact ⟨by decide, hfuel⟩)
    rw [hev, hrun, Option.map_some', hout]
    decide

set_option maxRecDepth 8000 in
/-- Witness of C6: 3 columns, and the table of the claim with fuel 2. -/
theorem table_output_witness :
    3 < 2 ^ 31 ∧ 1 < 2 ∧
    (∃ r1, enter_block_callback 2 MD_BLOCK_TABLE (Detail.TABLE 3) md_tex_init = some (0, r1) ∧
      output r1 = output md_tex_init ++ (bytes "\\begin\x7btabular\x7d\x7b"
        ++ (List.replicate 3 (bytes "|l")).flatten ++ bytes "|\x7d\n\\hline\n")) ∧
    (run_events 2 table_ab12_events md_tex_init).map output
      = some (bytes
          "\\begin\x7btabular\x7d\x7b|l|l|\x7d\n\\hline\nA & B \\\\\n\\hline\n1 & 2 \\\\\n\\hline\n\\end\x7btabular\x7d\n") :=
  ⟨by decide, by decide, table_output 2 3 md_tex_init (by decide) (by decide)⟩

/-- C7: in a well-nested event stream processed from the initial render
state, a paragraph whose parent is the Document block (the elements open
around the Document, if any, holding no list) writes nothing on enter and
exactly the one write `\par` newline on leave: `pre` is the stream up to the
leave event of the paragraph, after any number of lists opened and closed. -/
theorem top_level_paragraph (fuel : Nat) (pre : List Event) (d : Detail) (rest : List Frame)
    (r : MD_TEX)
    (hnest : nesting pre [] = some (Frame.block MD_BLOCK_P :: Frame.block MD_BLOCK_DOC :: rest))
    (hrest : no_list rest)
    (hrun : run_events fuel pre md_tex_init = some r) :
    (∀ (r0 : MD_TEX) (d0 : Detail), enter_block_callback fuel MD_BLOCK_P d0 r0 = some (0, r0)) ∧
    leave_block_callback MD_BLOCK_P r = some (0, { r with sink := r.sink ++ [bytes "\\par\n"] }) ∧
    run_events fuel (pre ++ [LeaveBlock MD_BLOCK_P d]) md_tex_init
      = some { r with sink := r.sink ++ [bytes "\\par\n"] } := by
  have hnl : no_list (Frame.block MD_BLOCK_P :: Frame.block MD_BLOCK_DOC :: rest) := by
    refine ⟨fun hm => ?_, fun hm => ?_⟩
    · rcases List.mem_cons.mp hm with he | hm1
      · exact absurd he (by decide)
      · rcases List.mem_cons.mp hm1 with he | hm2
        · exact absurd he (by decide)
        · exact hrest.1 hm2
    · rcases List.mem_cons.mp hm with he | hm1
      · exact absurd he (by decide)
      · rcases List.mem_cons.mp hm1 with he | hm2
        · exact absurd he (by decide)
        · exact hrest.2 hm2
  have hzero : r.list_item_level = 0 :=
    list_level_zero_outside_lists fuel pre [] _ md_tex_init r hnest hrun (fun _ => rfl) hnl
  have hleave : leave_block_callback MD_BLOCK_P r
      = some (0, { r with sink := r.sink ++ [bytes "\\par\n"] }) := by
    show some ((0 : Int), if r.list_item_level = 0 then RENDER_VERBATIM r "\\par\n" else r) = _
    rw [if_pos hzero]
    rfl
  refine ⟨fun _ _ => rfl, hleave, ?_⟩
  rw [run_events_append fuel pre _ md_tex_init r hrun]
  have hd : dispatch fuel (LeaveBlock MD_BLOCK_P d) r
      = some (0, { r with sink := r.sink ++ [bytes "\\par\n"] }) := hleave
  rw [run_events_cons fuel _ _ _ _ hd]
  rfl

/-- Witness of C7: a paragraph of the document after two nested lists. -/
theorem top_level_paragraph_witness :
    nesting par_events [] = some [Frame.block MD_BLOCK_P, Frame.block MD_BLOCK_DOC] ∧
    no_list [] ∧
    run_events 0 par_events md_tex_init = some par_state ∧
    (∀ (r0 : MD_TEX) (d0 : Detail), enter_block_callback 0 MD_BLOCK_P d0 r0 = some (0, r0)) ∧
    leave_block_callback MD_BLOCK_P par_state
      = some (0, { par_state with sink := par_state.sink ++ [bytes "\\par\n"] }) ∧
    run_events 0 (par_events ++ [LeaveBlock MD_BLOCK_P Detail.null]) md_tex_init
      = some { par_state with sink := par_state.sink ++ [bytes "\\par\n"] } :=
  ⟨by decide, by decide, par_events_run md_tex_init,
    top_level_paragraph 0 par_events Detail.null [] par_state (by decide) (by decide)
      (par_events_run md_tex_init)⟩

set_option maxRecDepth 8000 in
/-- C8 (fails on the code): a paragraph whose parent is a list item and that
follows a nested list writes a paragraph break.  The stream below is well
nested, the paragraph is directly inside the outer list item, `list_item_level`
is 0 at its leave event, and the leave handler writes `\par` and a newline. -/
theorem paragraph_after_nested_list_writes_par :
    well_nested (nested_list_events ++
      [LeaveBlock MD_BLOCK_P Detail.null, LeaveBlock MD_BLOCK_LI Detail.null,
       LeaveBlock MD_BLOCK_UL Detail.null, LeaveBlock MD_BLOCK_DOC Detail.null]) ∧
    nesting nested_list_events [] = some [Frame.block MD_BLOCK_P, Frame.block MD_BLOCK_LI,
      Frame.block MD_BLOCK_UL, Frame.block MD_BLOCK_DOC] ∧
    (run_events 0 nested_list_events md_tex_init).map (fun r => r.list_item_level) = some 0 ∧
    (run_events 0 (nested_list_events ++ [LeaveBlock MD_BLOCK_P Detail.null])
        md_tex_init).map (fun r => r.sink)
      = (run_events 0 nested_list_events md_tex_init).map
          (fun r => r.sink ++ [bytes "\\par\n"]) := by
  decide

/-- C9: for each level 1 to 6 the enter handler of a heading writes the
construct of the level (the lookup in `head` is inside the table), the leave
handler writes `}` and a newline, both return 0, and only the sink changes. -/
theorem heading_constructs (fuel : Nat) (r : MD_TEX) :
    enter_block_callback fuel MD_BLOCK_H (Detail.H 1) r
      = some (0, { r with sink := r.sink ++ [bytes "\\title\x7b"] }) ∧
    enter_block_callback fuel MD_BLOCK_H (Detail.H 2) r
      = some (0, { r with sink := r.sink ++ [bytes "\\chapter\x7b"] }) ∧
    enter_block_callback fuel MD_BLOCK_H (Detail.H 3) r
      = some (0, { r with sink := r.sink ++ [bytes "\\section\x7b"] }) ∧
    enter_block_callback fuel MD_BLOCK_H (Detail.H 4) r
      = some (0, { r with sink := r.sink ++ [bytes "\\subsection\x7b"] }) ∧
    enter_block_callback fuel MD_BLOCK_H (Detail.H 5) r
      = some (0, { r with sink := r.sink ++ [bytes "\\subsubsection\x7b"] }) ∧
    enter_block_callback fuel MD_BLOCK_H (Detail.H 6) r
      = some (0, { r with sink := r.sink ++ [bytes "\\paragraph\x7b"] }) ∧
    leave_block_callback MD_BLOCK_H r = some (0, { r with sink := r.sink ++ [bytes "\x7d\n"] }) :=
  ⟨rfl, rfl, rfl, rfl, rfl, rfl, rfl⟩

set_option maxRecDepth 8000 in
/-- C10 (fails on the code): the level-2 heading `## Title` is not written as
`\section{Title}`. -/
theorem heading_level2_not_section :
    (run_events 6 [EnterBlock MD_BLOCK_H (Detail.H 2), Text MD_TEXT_NORMAL (bytes "Title"),
        LeaveBlock MD_BLOCK_H (Detail.H 2)] md_tex_init).map output
      ≠ some (bytes "\\section\x7bTitle\x7d\n") := by
  decide

set_option maxRecDepth 8000 in
/-- C10 (amended): from the initial render state the events of the level-2
heading `## Title` write `\chapter{Title}` and a newline (fuel above the
length of the text). -/
theorem heading_level2_chapter (fuel : Nat) (hfuel : 5 < fuel) :
    (run_events fuel [EnterBlock MD_BLOCK_H (Detail.H 2), Text MD_TEXT_NORMAL (bytes "Title"),
        LeaveBlock MD_BLOCK_H (Detail.H 2)] md_tex_init).map output
      = some (bytes "\\chapter\x7bTitle\x7d\n") := by
  have h1 : dispatch fuel (EnterBlock MD_BLOCK_H (Detail.H 2)) md_tex_init
      = some (0, RENDER_VERBATIM md_tex_init "\\chapter\x7b") := rfl
  obtain ⟨ws, h2, hw, -⟩ := text_callback_normal fuel
    (RENDER_VERBATIM md_tex_init "\\chapter\x7b") (bytes "Title") rfl (by decide) hfuel
  have hflat : ws.flatten = bytes "Title" := by
    rw [hw]; decide
  have h2a : dispatch fuel (Text MD_TEXT_NORMAL (bytes "Title"))
      (RENDER_VERBATIM md_tex_init "\\chapter\x7b") = _ := h2
  have h3 : ∀ r1 : MD_TEX, dispatch fuel (LeaveBlock MD_BLOCK_H (Detail.H 2)) r1
      = some (0, RENDER_VERBATIM r1 "\x7d\n") := fun _ => rfl
  rw [run_events_cons fuel _ _ _ _ h1, run_events_cons fuel _ _ _ _ h2a,
    run_events_cons fuel _ _ _ _ (h3 _)]
  have hs : md_tex_init.sink = [] := rfl
  simp only [run_events, Option.map_some', output, RENDER_VERBATIM, render_verbatim, hs,
    List.nil_append, List.flatten_append, hflat, List.flatten_cons, List.flatten_nil,
    List.append_nil]
  decide

/-- Witness of C10 (amended): fuel 6. -/
theorem heading_level2_chapter_witness :
    (run_events 6 [EnterBlock MD_BLOCK_H (Detail.H 2), Text MD_TEXT_NORMAL (bytes "Title"),
        LeaveBlock MD_BLOCK_H (Detail.H 2)] md_tex_init).map output
      = some (bytes "\\chapter\x7bTitle\x7d\n") :=
  heading_level2_chapter 6 (by decide)

/-- C11 (fails on the code): the list environments are the other way round.
Entering and leaving an unordered list writes `\begin{enumerate}` and
`\end{enumerate}`, entering and leaving an ordered list writes
`\begin{itemize}` and `\end{itemize}` (each followed by a newline); for each
kind the close construct names the environment of the open construct. -/
theorem list_environments (fuel : Nat) (r : MD_TEX) (d : Detail) :
    enter_block_callback fuel MD_BLOCK_UL d r
      = some (0, { r with
          sink := r.sink ++ [bytes "\\begin\x7benumerate\x7d\n"]
          list_item_level := r.list_item_level + 1 }) ∧
    leave_block_callback MD_BLOCK_UL r
      = some (0, { r with sink := r.sink ++ [bytes "\\end\x7benumerate\x7d\n"], list_item_level := 0 }) ∧
    enter_block_callback fuel MD_BLOCK_OL d r
      = some (0, { r with
          sink := r.sink ++ [bytes "\\begin\x7bitemize\x7d\n"]
          list_item_level := r.list_item_level + 1 }) ∧
    leave_block_callback MD_BLOCK_OL r
      = some (0, { r with sink := r.sink ++ [bytes "\\end\x7bitemize\x7d\n"], list_item_level := 0 }) :=
  ⟨rfl, rfl, rfl, rfl⟩

/-- C13: outside every verbatim mode `text_callback` returns 0, changes only
the sink, and writes nothing for a NUL placeholder, `\par` for a line break,
a newline for a soft break, the run unchanged for raw HTML and for an entity,
and for every other type (Normal, code, math) the run as the escaper writes
it, the scan of one byte at a time under the table of the record.  The run is
shorter than `2^32 - 3` bytes and the fuel is above its length. -/
theorem text_dispatch (fuel : Nat) (r : MD_TEX) (b : List Nat) (hv : r.verbatim_type = 0)
    (hsz : b.length + 3 < U32) (hfuel : b.length < fuel) :
    text_callback fuel MD_TEXT_NULLCHAR b r = some (0, r) ∧
    text_callback fuel MD_TEXT_BR b r = some (0, { r with sink := r.sink ++ [bytes "\\par"] }) ∧
    text_callback fuel MD_TEXT_SOFTBR b r = some (0, { r with sink := r.sink ++ [bytes "\n"] }) ∧
    text_callback fuel MD_TEXT_HTML b r = some (0, { r with sink := r.sink ++ [b] }) ∧
    text_callback fuel MD_TEXT_ENTITY b r = some (0, { r with sink := r.sink ++ [b] }) ∧
    ∃ ws, ws.flatten = escape_per_byte r.escape_map b ∧
      text_callback fuel MD_TEXT_NORMAL b r = some (0, { r with sink := r.sink ++ ws }) ∧
      text_callback fuel MD_TEXT_CODE b r = some (0, { r with sink := r.sink ++ ws }) ∧
      text_callback fuel MD_TEXT_LATEXMATH b r = some (0, { r with sink := r.sink ++ ws }) := by
  have hnv : ¬ (r.verbatim_type ≠ 0) := fun h => h hv
  obtain ⟨ws, e, hw, -⟩ := render_tex_escaped_spec fuel r b hsz hfuel
  refine ⟨?_, ?_, ?_, ?_, ?_, ws, hw, ?_, ?_, ?_⟩
  · unfold text_callback; rw [if_neg hnv]
  · unfold text_callback; rw [if_neg hnv]; rfl
  · unfold text_callback; rw [if_neg hnv]; rfl
  · unfold text_callback; rw [if_neg hnv]; rfl
  · unfold text_callback; rw [if_neg hnv]; rfl
  · unfold text_callback; rw [if_neg hnv]; dsimp only; rw [e]
  · unfold text_callback; rw [if_neg hnv]; dsimp only; rw [e]
  · unfold text_callback; rw [if_neg hnv]; dsimp only; rw [e]

set_option maxRecDepth 8000 in
/-- Witness of C13: the run `a_b` from the initial render state. -/
theorem text_dispatch_witness :
    md_tex_init.verbatim_type = 0 ∧ (bytes "a_b").length + 3 < U32 ∧ (bytes "a_b").length < 4 ∧
    (text_callback 4 MD_TEXT_NORMAL (bytes "a_b") md_tex_init).map (fun p => (p.1, output p.2))
      = some (0, bytes "a\\_b") ∧
    (text_callback 4 MD_TEXT_NULLCHAR (bytes "a_b") md_tex_init = some (0, md_tex_init) ∧
    text_callback 4 MD_TEXT_BR (bytes "a_b") md_tex_init
      = some (0, { md_tex_init with sink := md_tex_init.sink ++ [bytes "\\par"] }) ∧
    text_callback 4 MD_TEXT_SOFTBR (bytes "a_b") md_tex_init
      = some (0, { md_tex_init with sink := md_tex_init.sink ++ [bytes "\n"] }) ∧
    text_callback 4 MD_TEXT_HTML (bytes "a_b") md_tex_init
      = some (0, { md_tex_init with sink := md_tex_init.sink ++ [bytes "a_b"] }) ∧
    text_callback 4 MD_TEXT_ENTITY (bytes "a_b") md_tex_init
      = some (0, { md_tex_init with sink := md_tex_init.sink ++ [bytes "a_b"] }) ∧
    ∃ ws, ws.flatten = escape_per_byte md_tex_init.escape_map (bytes "a_b") ∧
      text_callback 4 MD_TEXT_NORMAL (bytes "a_b") md_tex_init
        = some (0, { md_tex_init with sink := md_tex_init.sink ++ ws }) ∧
      text_callback 4 MD_TEXT_CODE (bytes "a_b") md_tex_init
        = some (0, { md_tex_init with sink := md_tex_init.sink ++ ws }) ∧
      text_callback 4 MD_TEXT_LATEXMATH (bytes "a_b") md_tex_init
        = some (0, { md_tex_init with sink := md_tex_init.sink ++ ws })) :=
  ⟨rfl, by decide, by decide, by decide,
    text_dispatch 4 md_tex_init (bytes "a_b") rfl (by decide) (by decide)⟩

/-- C14: on a well-formed attribute of `k` sub-runs, with fuel above `k` (and,
outside the raw mode, the attribute within `MD_SIZE - 3` and the fuel above
its size), `render_attribute` returns and changes only the sink; no read goes
past the `k + 1` offsets and the `k` types, a read outside them being `none`.
The bytes written are the concatenation over the sub-runs `0 .. k-1`, in
order, of `substr_bytes`: outside the raw mode nothing for a NUL placeholder,
the bytes unchanged for an entity, the bytes escaped for a Normal sub-run;
under the raw mode the whole text unchanged; nothing for size 0. -/
theorem attribute_renderer (fuel : Nat) (r : MD_TEX) (a : MD_ATTRIBUTE)
    (hwf : a.well_formed) (hfuel : a.substr_types.length < fuel)
    (hmode : r.verbatim_type = 4 ∨ (a.size + 3 < U32 ∧ a.size < fuel)) :
    (∃ ws, render_attribute fuel r a = some { r with sink := r.sink ++ ws } ∧
      ws.flatten = ((List.range a.substr_types.length).map (fun i =>
        substr_bytes r.verbatim_type r.escape_map (a.substr_types[i]?.getD MD_TEXT_NORMAL)
          (a.substr i))).flatten ∧
      (r.verbatim_type = 4 → ws.flatten = a.text.getD []) ∧
      (a.size = 0 → ws.flatten = [])) ∧
    (∀ (v : Int) (em : Nat → Nat) (run : List Nat), v ≠ 4 →
      substr_bytes v em MD_TEXT_NULLCHAR run = [] ∧
      substr_bytes v em MD_TEXT_ENTITY run = run ∧
      substr_bytes v em MD_TEXT_NORMAL run = escape_per_byte em run) ∧
    (∀ (em : Nat → Nat) (type : MD_TEXTTYPE) (run : List Nat),
      substr_bytes 4 em type run = run) := by
  refine ⟨?_, ?_, ?_⟩
  · obtain ⟨ws, e, hw⟩ := render_attribute_spec fuel r a hwf hfuel hmode
    refine ⟨ws, e, ?_, ?_, ?_⟩
    · rw [hw, attr_bytes_eq_map, List.range_eq_range']
    · intro hv
      rw [hw, hv, attr_bytes_raw r.escape_map a hwf _ 0 (by omega), hwf.2.2.2.1]
      simp
    · intro h0
      rw [hw, well_formed_size_zero a hwf h0]
      rfl
  · intro v em run hv
    refine ⟨?_, ?_, ?_⟩ <;>
    · unfold substr_bytes
      rw [if_neg hv]
  · intro em type run
    unfold substr_bytes
    rw [if_pos rfl]

set_option maxRecDepth 8000 in
/-- Witness of C14: the attribute `mixed_attr` from the initial render state
is written as `a&amp;\_b`. -/
theorem attribute_renderer_witness :
    mixed_attr.well_formed ∧ mixed_attr.substr_types.length < 16 ∧
    (md_tex_init.verbatim_type = 4 ∨ (mixed_attr.size + 3 < U32 ∧ mixed_attr.size < 16)) ∧
    (render_attribute 16 md_tex_init mixed_attr).map output = some (bytes "a&amp;\\_b") ∧
    ((∃ ws, render_attribute 16 md_tex_init mixed_attr
        = some { md_tex_init with sink := md_tex_init.sink ++ ws } ∧
      ws.flatten = ((List.range mixed_attr.substr_types.length).map (fun i =>
        substr_bytes md_tex_init.verbatim_type md_tex_init.escape_map
          (mixed_attr.substr_types[i]?.getD MD_TEXT_NORMAL) (mixed_attr.substr i))).flatten ∧
      (md_tex_init.verbatim_type = 4 → ws.flatten = mixed_attr.text.getD []) ∧
      (mixed_attr.size = 0 → ws.flatten = [])) ∧
    (∀ (v : Int) (em : Nat → Nat) (run : List Nat), v ≠ 4 →
      substr_bytes v em MD_TEXT_NULLCHAR run = [] ∧
      substr_bytes v em MD_TEXT_ENTITY run = run ∧
      substr_bytes v em MD_TEXT_NORMAL run = escape_per_byte em run) ∧
    (∀ (em : Nat → Nat) (type : MD_TEXTTYPE) (run : List Nat),
      substr_bytes 4 em type run = run)) :=
  ⟨by decide, by decide, Or.inr (by decide), by decide,
    attribute_renderer 16 md_tex_init mixed_attr (by decide) (by decide) (Or.inr (by decide))⟩

/-- C15 (fails on the code): the raw HTML of an HTML block is written.  With
the text `<hr>` the events of the block write `<hr>`, not nothing. -/
theorem html_block_not_dropped :
    (run_events 0 [EnterBlock MD_BLOCK_HTML Detail.null, Text MD_TEXT_HTML (bytes "<hr>"),
        LeaveBlock MD_BLOCK_HTML Detail.null] md_tex_init).map output ≠ some [] := by
  decide

/-- C15 (amended): from the initial render state the events of a raw HTML
block write exactly the bytes `b` of its text, unchanged; the enter and the
leave handler of the block write nothing and change nothing. -/
theorem html_block_verbatim (fuel : Nat) (b : List Nat) (d1 d2 : Detail) :
    (run_events fuel [EnterBlock MD_BLOCK_HTML d1, Text MD_TEXT_HTML b,
        LeaveBlock MD_BLOCK_HTML d2] md_tex_init).map output = some b ∧
    (∀ r : MD_TEX, enter_block_callback fuel MD_BLOCK_HTML d1 r = some (0, r)) ∧
    (∀ r : MD_TEX, leave_block_callback MD_BLOCK_HTML r = some (0, r)) := by
  refine ⟨?_, fun _ => rfl, fun _ => rfl⟩
  have key : ∀ r : MD_TEX, r.verbatim_type = 0 →
      run_events fuel [EnterBlock MD_BLOCK_HTML d1, Text MD_TEXT_HTML b,
        LeaveBlock MD_BLOCK_HTML d2] r = some { r with sink := r.sink ++ [b] } := by
    intro r hv
    have h2 : dispatch fuel (Text MD_TEXT_HTML b) r
        = some (0, { r with sink := r.sink ++ [b] }) := by
      show text_callback fuel MD_TEXT_HTML b r = _
      unfold text_callback
      rw [if_neg (fun h => h hv)]
      rfl
    rw [run_events_cons fuel (EnterBlock MD_BLOCK_HTML d1) _ r r rfl,
      run_events_cons fuel _ _ _ _ h2,
      run_events_cons fuel (LeaveBlock MD_BLOCK_HTML d2) _ _ _ rfl]
    rfl
  rw [key md_tex_init rfl]
  have hs : md_tex_init.sink = [] := rfl
  simp [output, hs]

set_option maxRecDepth 8000 in
/-- C16 (fails on the code): the table that `md_tex` builds flags eleven
entries, the ten bytes `# $ % & \ ^ _ { } ~` and the entry 0. -/
theorem escape_table_flags :
    (List.range 256).filter (fun v => NEED_TEX_ESC md_tex_init v != 0)
      = [0, 35, 36, 37, 38, 92, 94, 95, 123, 125, 126] ∧
    md_tex_init.escape_map 0 = 1 ∧
    strchr (bytes "~^#$%&\x7b\x7d_\\") 0 = some 10 := by
  decide

/-- C17 (fails on the code): entering a table does not reset
`table_col_level`.  From a record with `table_col_level = 1` it is 1 after
`Table(2)` is entered. -/
theorem table_enter_keeps_col_level :
    (enter_block_callback 0 MD_BLOCK_TABLE (Detail.TABLE 2)
        { md_tex_init with table_col_level := 1 }).map (fun p => p.2.table_col_level)
      ≠ some 0 := by
  decide

/-- C17 (amended): for every render record and every column count that fits
`int`, the enter handler of a table returns 0, stores the count in
`table_col_count`, and leaves `table_col_level`, `verbatim_type` and
`list_item_level` as they were; so `table_col_level` is 0 afterwards when it
was 0 before. -/
theorem table_enter_fields (fuel : Nat) (r : MD_TEX) (col_count : Nat)
    (hc : col_count < 2 ^ 31) :
    ∃ r1, enter_block_callback fuel MD_BLOCK_TABLE (Detail.TABLE col_count) r = some (0, r1) ∧
      r1.table_col_count = (col_count : Int) ∧
      r1.table_col_level = r.table_col_level ∧
      r1.verbatim_type = r.verbatim_type ∧
      r1.list_item_level = r.list_item_level ∧
      r1.escape_map = r.escape_map := by
  have h : enter_block_callback fuel MD_BLOCK_TABLE (Detail.TABLE col_count) r
      = (match render_open_table_block r col_count with
        | some r => some ((0 : Int), r)
        | none => none) := rfl
  rw [render_open_table_block_spec r col_count hc] at h
  exact ⟨_, h, rfl, rfl, rfl, rfl, rfl⟩

/-- Witness of C17 (amended): `Table(3)` from the initial render state. -/
theorem table_enter_fields_witness :
    3 < 2 ^ 31 ∧
    ∃ r1, enter_block_callback 0 MD_BLOCK_TABLE (Detail.TABLE 3) md_tex_init = some (0, r1) ∧
      r1.table_col_count = ((3 : Nat) : Int) ∧
      r1.table_col_level = md_tex_init.table_col_level ∧
      r1.verbatim_type = md_tex_init.verbatim_type ∧
      r1.list_item_level = md_tex_init.list_item_level ∧
      r1.escape_map = md_tex_init.escape_map :=
  ⟨by decide, table_enter_fields 0 md_tex_init 3 (by decide)⟩

/-- C18 (fails on the code): entering a link does not restore the verbatim
mode.  From a record with `verbatim_type = 2` it is 0, not 2, after a link
with an empty target is entered. -/
theorem link_enter_resets_verbatim :
    (enter_span_calback 1 MD_SPAN_A (Detail.A empty_attr)
        { md_tex_init with verbatim_type := 2 }).map (fun p => p.2.verbatim_type)
      ≠ some 2 := by
  decide

/-- C18 (amended): for every render record and every well-formed target, the
enter handler of a link returns 0 and leaves `verbatim_type = 0` (the value
before whenever the link is entered outside every verbatim mode); the raw mode
4 is in force only while the target is rendered, and `list_item_level`,
`table_col_level` and `table_col_count` are as they were. -/
theorem link_enter_fields (fuel : Nat) (r : MD_TEX) (href : MD_ATTRIBUTE)
    (hwf : href.well_formed) (hk : href.substr_types.length < fuel) :
    ∃ r1, enter_span_calback fuel MD_SPAN_A (Detail.A href) r = some (0, r1) ∧
      r1.verbatim_type = 0 ∧
      r1.list_item_level = r.list_item_level ∧
      r1.table_col_level = r.table_col_level ∧
      r1.table_col_count = r.table_col_count ∧
      r1.escape_map = r.escape_map := by
  obtain ⟨ws, e, -⟩ := render_open_a_span_spec fuel r href hwf hk
  have h : enter_span_calback fuel MD_SPAN_A (Detail.A href) r
      = (match render_open_a_span fuel r href with
        | some r => some ((0 : Int), r)
        | none => none) := rfl
  rw [e] at h
  exact ⟨_, h, rfl, rfl, rfl, rfl, rfl⟩

/-- Witness of C18 (amended): the link target `http://a_b%c` from the initial
render state. -/
theorem link_enter_fields_witness :
    link_href.well_formed ∧ link_href.substr_types.length < 2 ∧
    ∃ r1, enter_span_calback 2 MD_SPAN_A (Detail.A link_href) md_tex_init = some (0, r1) ∧
      r1.verbatim_type = 0 ∧
      r1.list_item_level = md_tex_init.list_item_level ∧
      r1.table_col_level = md_tex_init.table_col_level ∧
      r1.table_col_count = md_tex_init.table_col_count ∧
      r1.escape_map = md_tex_init.escape_map :=
  ⟨by decide, by decide, link_enter_fields 2 md_tex_init link_href (by decide) (by decide)⟩

/-- C19: on every run shorter than `2^32 - 4` bytes, with the table built by
`md_tex` and fuel above the length of the run, `render_tex_escaped` returns
(no loop runs out of fuel and no read is outside the run, either being
`none`), changes only the sink, every write is non-empty, and the bytes
written are those of the scan of one byte at a time, `escape_per_byte`: for
each byte in order the writes of the `switch` when the table flags it (none
for the byte 0, which is flagged and has no case) and the byte itself
otherwise. -/
theorem escaper_refines_per_byte (fuel : Nat) (data : List Nat)
    (hlen : data.length < 2 ^ 32 - 4) (hfuel : data.length < fuel) :
    (∃ ws, render_tex_escaped fuel md_tex_init data
        = some { md_tex_init with sink := md_tex_init.sink ++ ws } ∧
      ws.flatten = escape_per_byte md_tex_init.escape_map data ∧
      ∀ w ∈ ws, w ≠ []) ∧
    (∀ ch : Nat, escape_byte md_tex_init.escape_map ch
      = if NEED_TEX_ESC md_tex_init ch ≠ 0 then (switch_writes ch).flatten else [ch]) ∧
    escape_byte md_tex_init.escape_map 0 = [] := by
  have hsz : data.length + 3 < U32 := by
    have : U32 = 2 ^ 32 := rfl
    omega
  refine ⟨?_, fun _ => rfl, ?_⟩
  · obtain ⟨ws, e, hw, hne⟩ := render_tex_escaped_spec fuel md_tex_init data hsz hfuel
    exact ⟨ws, e, hw, fun w hw1 => (hne w hw1).1⟩
  · have h0 := md_tex_flag 0
    unfold escape_byte
    rw [h0]
    decide

set_option maxRecDepth 8000 in
/-- Witness of C19: the run `Cost: 50% & rising` with fuel 32. -/
theorem escaper_refines_per_byte_witness :
    (bytes "Cost: 50% & rising").length < 2 ^ 32 - 4 ∧ (bytes "Cost: 50% & rising").length < 32 ∧
    (render_tex_escaped 32 md_tex_init (bytes "Cost: 50% & rising")).map MD_TEX.sink
      = some [bytes "Cost: 50", bytes "\\%", bytes " ", bytes "\\&", bytes " rising"] ∧
    ((∃ ws, render_tex_escaped 32 md_tex_init (bytes "Cost: 50% & rising")
        = some { md_tex_init with sink := md_tex_init.sink ++ ws } ∧
      ws.flatten = escape_per_byte md_tex_init.escape_map (bytes "Cost: 50% & rising") ∧
      ∀ w ∈ ws, w ≠ []) ∧
    (∀ ch : Nat, escape_byte md_tex_init.escape_map ch
      = if NEED_TEX_ESC md_tex_init ch ≠ 0 then (switch_writes ch).flatten else [ch]) ∧
    escape_byte md_tex_init.escape_map 0 = []) :=
  ⟨by decide, by decide, by decide,
    escaper_refines_per_byte 32 (bytes "Cost: 50% & rising") (by decide) (by decide)⟩

/-- C12: an image with a well-formed source `s`, an optional title `t`
(well-formed when present) and a Normal alt text `a`, processed from the
initial render state, writes the opening of the figure and of `\image{`, the
source as the attribute renderer writes it, `}\label{`, the alt text as the
text escaper writes it, `}` and a newline, the caption with the title as the
attribute renderer writes it when the title is present, and the end of the
figure.  The attribute renderer, run on `s` alone, writes the same bytes
`attr_bytes`.  The attributes and the alt text are shorter than `2^32 - 3`
bytes and the fuel is above their sizes and numbers of sub-runs. -/
theorem image_rendering (fuel : Nat) (s t : MD_ATTRIBUTE) (a : List Nat)
    (hs : s.well_formed) (hsk : s.substr_types.length < fuel)
    (hsz : s.size + 3 < U32 ∧ s.size < fuel)
    (ht : t.text ≠ none →
      t.well_formed ∧ t.substr_types.length < fuel ∧ t.size + 3 < U32 ∧ t.size < fuel)
    (ha : a.length + 3 < U32) (hfuel : a.length < fuel) :
    (render_attribute fuel md_tex_init s).map output
      = some (attr_bytes 0 md_tex_init.escape_map s s.substr_types.length 0) ∧
    (run_events fuel [EnterSpan MD_SPAN_IMG (Detail.IMG s t), Text MD_TEXT_NORMAL a,
        LeaveSpan MD_SPAN_IMG (Detail.IMG s t)] md_tex_init).map output
      = some (bytes "\\begin\x7bfigure\x7d[H]\n\\image\x7b"
        ++ attr_bytes 0 md_tex_init.escape_map s s.substr_types.length 0
        ++ bytes "\x7d\\label\x7b" ++ escape_per_byte md_tex_init.escape_map a ++ bytes "\x7d\n"
        ++ (if t.text ≠ none then
              bytes "\\caption\x7b"
                ++ attr_bytes 0 md_tex_init.escape_map t t.substr_types.length 0
                ++ bytes "\x7d\n"
            else [])
        ++ bytes "\\end\x7bfigure\x7d\n") := by
  have hsink : md_tex_init.sink = [] := rfl
  constructor
  · obtain ⟨ws, e, hw⟩ := render_attribute_spec fuel md_tex_init s hs hsk (Or.inr hsz)
    rw [e]
    have hw1 : ws.flatten = attr_bytes 0 md_tex_init.escape_map s s.substr_types.length 0 := hw
    simp [output, hsink, hw1]
  · obtain ⟨ws, e, hw⟩ := image_events_run fuel md_tex_init s t a rfl hs hsk hsz ht ha hfuel
    rw [e]
    simp only [Option.map_some', output, hsink, List.nil_append, hw]

set_option maxRecDepth 8000 in
/-- Witness of C12: the image with source `img.png`, title `Caption` and alt
text `alt`. -/
theorem image_rendering_witness :
    (run_events 16 [EnterSpan MD_SPAN_IMG (Detail.IMG img_src img_title),
        Text MD_TEXT_NORMAL (bytes "alt"),
        LeaveSpan MD_SPAN_IMG (Detail.IMG img_src img_title)] md_tex_init).map output
      = some (bytes
          "\\begin\x7bfigure\x7d[H]\n\\image\x7bimg.png\x7d\\label\x7balt\x7d\n\\caption\x7bCaption\x7d\n\\end\x7bfigure\x7d\n") ∧
    img_src.well_formed ∧ img_src.substr_types.length < 16 ∧
    (img_src.size + 3 < U32 ∧ img_src.size < 16) ∧
    (img_title.text ≠ none →
      img_title.well_formed ∧ img_title.substr_types.length < 16 ∧
        img_title.size + 3 < U32 ∧ img_title.size < 16) ∧
    (bytes "alt").length + 3 < U32 ∧ (bytes "alt").length < 16 ∧
    ((render_attribute 16 md_tex_init img_src).map output
      = some (attr_bytes 0 md_tex_init.escape_map img_src img_src.substr_types.length 0) ∧
    (run_events 16 [EnterSpan MD_SPAN_IMG (Detail.IMG img_src img_title),
        Text MD_TEXT_NORMAL (bytes "alt"),
        LeaveSpan MD_SPAN_IMG (Detail.IMG img_src img_title)] md_tex_init).map output
      = some (bytes "\\begin\x7bfigure\x7d[H]\n\\image\x7b"
        ++ attr_bytes 0 md_tex_init.escape_map img_src img_src.substr_types.length 0
        ++ bytes "\x7d\\label\x7b" ++ escape_per_byte md_tex_init.escape_map (bytes "alt")
        ++ bytes "\x7d\n"
        ++ (if img_title.text ≠ none then
              bytes "\\caption\x7b"
                ++ attr_bytes 0 md_tex_init.escape_map img_title
                  img_title.substr_types.length 0
                ++ bytes "\x7d\n"
            else [])
        ++ bytes "\\end\x7bfigure\x7d\n")) :=
  ⟨by decide, by decide, by decide, by decide, by decide, by decide, by decide,
    image_rendering 16 img_src img_title (bytes "alt") (by decide) (by decide) (by decide)
      (by decide) (by decide) (by decide)⟩

/-- C20: for every well-nested event stream in which no element is entered
inside a code block, an inline code span or a math span, processed from the
initial render state: at every text event, whenever the run up to it has
returned, `verbatim_type` is not 0 exactly when one of those elements is open;
inside them the text handler writes the run unchanged, outside them a Normal
run is handed to `render_tex_escaped`; and `verbatim_type` is 0 after the last
event.  On payloads of the input contract (`event_in_domain`) the run and the
run of every prefix do return. -/
theorem verbatim_mode_invariant (fuel : Nat) (es : List Event)
    (hwn : well_nested es) (hvt : verbatim_only_text es [] = true) :
    (∀ (pre post : List Event) (kind : MD_TEXTTYPE) (b : List Nat) (r : MD_TEX),
        es = pre ++ Text kind b :: post → run_events fuel pre md_tex_init = some r →
        ∃ st, nesting pre [] = some st ∧
          (r.verbatim_type ≠ 0 ↔ in_verbatim st = true) ∧
          (in_verbatim st = true →
            dispatch fuel (Text kind b) r = some (0, render_verbatim r b)) ∧
          (in_verbatim st = false → kind = MD_TEXT_NORMAL →
            dispatch fuel (Text kind b) r
              = (render_tex_escaped fuel r b).map (fun r1 => ((0 : Int), r1)))) ∧
    (∀ r1, run_events fuel es md_tex_init = some r1 → r1.verbatim_type = 0) ∧
    ((∀ e ∈ es, event_in_domain fuel e = true) →
      (∃ r1, run_events fuel es md_tex_init = some r1 ∧ r1.verbatim_type = 0) ∧
      ∀ pre post, es = pre ++ post → ∃ r, run_events fuel pre md_tex_init = some r) := by
  have hinit : verbatim_inv [] md_tex_init :=
    ⟨rfl, fun h => absurd rfl h, fun h => Bool.noConfusion h⟩
  have hlast : ∀ r1, run_events fuel es md_tex_init = some r1 → r1.verbatim_type = 0 := by
    intro r1 hr
    obtain ⟨-, hiff⟩ := verbatim_inv_run fuel es [] [] md_tex_init r1 hwn hvt hr hinit
    by_contra h
    exact Bool.noConfusion (hiff.mp h)
  refine ⟨?_, hlast, ?_⟩
  · intro pre post kind b r hes hr
    subst hes
    obtain ⟨st, hn1, -⟩ := nesting_prefix pre _ [] [] hwn
    have hvt1 := verbatim_only_text_prefix pre _ [] hvt
    obtain ⟨-, hiff⟩ := verbatim_inv_run fuel pre [] st md_tex_init r hn1 hvt1 hr hinit
    refine ⟨st, hn1, hiff, ?_, ?_⟩
    · intro hin
      have hv := hiff.mpr hin
      show text_callback fuel kind b r = _
      unfold text_callback
      rw [if_pos hv]
    · intro hout hk
      subst hk
      have hv : ¬ r.verbatim_type ≠ 0 := by
        intro h
        have h1 := hiff.mp h
        rw [hout] at h1
        exact Bool.noConfusion h1
      show text_callback fuel MD_TEXT_NORMAL b r = _
      unfold text_callback
      rw [if_neg hv]
      dsimp only
      cases render_tex_escaped fuel r b <;> rfl
  · intro hdom
    obtain ⟨r1, hr⟩ := run_events_defined fuel es md_tex_init hdom
    refine ⟨⟨r1, hr, hlast r1 hr⟩, ?_⟩
    intro pre post hes
    exact run_events_defined fuel pre md_tex_init
      (fun e he => hdom e (by rw [hes]; exact List.mem_append_left _ he))

set_option maxRecDepth 16000 in
/-- Witness of C20: the events `mode_events` with fuel 16, a text, a link
label, an inline code span, a code block and a math span, each followed by a
text; the output shows the text escaped outside the three verbatim elements
and unchanged inside them. -/
theorem verbatim_mode_invariant_witness :
    well_nested mode_events ∧ verbatim_only_text mode_events [] = true ∧
    (∀ e ∈ mode_events, event_in_domain 16 e = true) ∧
    (run_events 16 mode_events md_tex_init).map output
      = some (bytes ("a\\_b\\href\x7bhttp://a_b%c\x7d\x7bc\\_d\x7d\\verb!e_f!g\\_h\\par\n"
          ++ "\\begin\x7bverbatim\x7d\ni_j\n\\end\x7bverbatim\x7d\n$k_l$m\\_n\\par\n")) ∧
    ((∀ (pre post : List Event) (kind : MD_TEXTTYPE) (b : List Nat) (r : MD_TEX),
        mode_events = pre ++ Text kind b :: post →
        run_events 16 pre md_tex_init = some r →
        ∃ st, nesting pre [] = some st ∧
          (r.verbatim_type ≠ 0 ↔ in_verbatim st = true) ∧
          (in_verbatim st = true →
            dispatch 16 (Text kind b) r = some (0, render_verbatim r b)) ∧
          (in_verbatim st = false → kind = MD_TEXT_NORMAL →
            dispatch 16 (Text kind b) r
              = (render_tex_escaped 16 r b).map (fun r1 => ((0 : Int), r1)))) ∧
    (∀ r1, run_events 16 mode_events md_tex_init = some r1 → r1.verbatim_type = 0) ∧
    ((∀ e ∈ mode_events, event_in_domain 16 e = true) →
      (∃ r1, run_events 16 mode_events md_tex_init = some r1 ∧ r1.verbatim_type = 0) ∧
      ∀ pre post, mode_events = pre ++ post →
        ∃ r, run_events 16 pre md_tex_init = some r)) :=
  ⟨by decide, by decide, by decide, by decide,
    verbatim_mode_invariant 16 mode_events (by decide) (by decide)⟩

end Md2tex
